import Mathlib

/-!
# RocketSpeed: verification of the wire codec, topic map, log tailer and
# rocketeer server against their specification

Shallow embedding of the relevant parts of the RocketSpeed sources:

* `src/util/common/coding.cc` — varint encoders and decoders;
* `src/messages/messages.cc` — the per-message-type `Serialize`/`DeSerialize`
  pairs of the wire codec;
* `src/client/topic_subscription_map.cc` — the linear-probing
  `TopicToSubscriptionMap` with backward-shift deletion;
* `src/controltower/log_tailer.cc` — the per-(reader, log) ordering filter;
* `src/engine/rocketeer_server.cc` — server-side inbound subscriptions with
  delivery monotonicity;
* `src/controltower/topic.h` — the per-topic subscriber sets.

Wire data is modelled as `List Nat`, each element standing for one byte
(`0 ≤ b < 256`); encoders only produce values `< 256`, and decoders are
stated for byte lists.  Machine integers are modelled as `Nat` with an
explicit `% 2^64` (resp. `% 2^32`) where C++ overflow semantics matter.
-/

namespace RocketSpeed

/-! ## Bit arithmetic helpers -/

/-- A value whose bits lie below `2^s` or-ed with a value shifted up by `s`
adds; this is the disjointness fact behind every `result |= byte << shift`
in the varint decoders. -/
theorem lor_shiftLeft_eq_add {a : Nat} (b : Nat) {s : Nat} (h : a < 2 ^ s) :
    a ||| (b <<< s) = b <<< s + a := by
  induction s generalizing a b with
  | zero =>
    interval_cases a
    simp
  | succ s ih =>
    have ha2 : a / 2 < 2 ^ s := by rw [Nat.pow_succ] at h; omega
    have key : a / 2 ||| b <<< s = b <<< s + a / 2 := ih b ha2
    have hb : b <<< (s + 1) = Nat.bit false (b <<< s) := by
      simp only [Nat.bit, Bool.cond_false, Nat.shiftLeft_eq, Nat.pow_succ]
      ring
    have hdouble : b <<< (s + 1) = 2 * (b <<< s) := by
      simpa only [Nat.bit, Bool.cond_false] using hb
    rcases Nat.mod_two_eq_zero_or_one a with hr | hr
    · have ha : a = Nat.bit false (a / 2) := by
        simp only [Nat.bit, Bool.cond_false]; omega
      calc a ||| b <<< (s + 1)
          = Nat.bit false (a / 2) ||| Nat.bit false (b <<< s) := by rw [← ha, ← hb]
        _ = Nat.bit false (b <<< s + a / 2) := by rw [Nat.lor_bit, key, Bool.or_self]
        _ = b <<< (s + 1) + a := by
            simp only [Nat.bit, Bool.cond_false]
            rw [hdouble]
            omega
    · have ha : a = Nat.bit true (a / 2) := by
        simp only [Nat.bit, Bool.cond_true]; omega
      calc a ||| b <<< (s + 1)
          = Nat.bit true (a / 2) ||| Nat.bit false (b <<< s) := by rw [← ha, ← hb]
        _ = Nat.bit true (b <<< s + a / 2) := by rw [Nat.lor_bit, key, Bool.true_or]
        _ = b <<< (s + 1) + a := by
            simp only [Nat.bit, Bool.cond_true]
            rw [hdouble]
            omega

/-! ## Varint coding (src/util/common/coding.cc)

`GetVarint32PtrFallback` and `GetVarint64Ptr` are the same loop with
different shift bounds (28 resp. 63) and machine widths (32 resp. 64 bits);
we embed the loop once, parametrized by both.  A continuation byte is one
with bit 7 set, i.e. (for a byte value `< 256`) one that is `≥ 128`. -/

/-- The shared decoder loop of `GetVarint32PtrFallback` / `GetVarint64Ptr`:
`for (shift = 0; shift <= B for p < limit; shift += 7) { byte = *p++;
if (byte & 128) result |= (byte & 127) << shift; else { result |= byte << shift;
return p; } } return nullptr;` with all arithmetic modulo `2^W`. -/
def getVarintLoop (B W : Nat) : List Nat → Nat → Nat → Option (Nat × List Nat)
  | p, shift, result =>
    if shift ≤ B then
      match p with
      | [] => none
      | byte :: rest =>
        if 128 ≤ byte then
          getVarintLoop B W rest (shift + 7)
            (result ||| ((byte % 128) <<< shift) % 2 ^ W)
        else
          some (result ||| (byte <<< shift) % 2 ^ W, rest)
    else none

/-- `GetVarint32PtrFallback` from coding.cc (the inlined fast path of
`GetVarint32Ptr` behaves identically). -/
def getVarint32 (p : List Nat) : Option (Nat × List Nat) :=
  getVarintLoop 28 32 p 0 0

/-- `GetVarint64Ptr` from coding.cc. -/
def getVarint64 (p : List Nat) : Option (Nat × List Nat) :=
  getVarintLoop 63 64 p 0 0

/-- Modelled from the spec: `PutVarint64` lives in the `coding.h` header,
which is absent from the sources; the spec fixes the format as
"varints (LEB128-style, unsigned, 64-bit max)".  Least-significant 7-bit
group first, bit 7 set on every byte except the last. -/
def putVarint64 (v : Nat) : List Nat :=
  if v < 128 then [v] else (v % 128 + 128) :: putVarint64 (v / 128)
termination_by v
decreasing_by omega

/-- `EncodeVarint32` from coding.cc: four explicit range cases; each stored
byte is the low 8 bits of `v >> 7k | 128` (continuation) or of `v >> 7k`
(final byte). -/
def encodeVarint32 (v : Nat) : List Nat :=
  if v < 2 ^ 7 then [v]
  else if v < 2 ^ 14 then
    [v % 128 + 128, v >>> 7]
  else if v < 2 ^ 21 then
    [v % 128 + 128, (v >>> 7) % 128 + 128, v >>> 14]
  else if v < 2 ^ 28 then
    [v % 128 + 128, (v >>> 7) % 128 + 128, (v >>> 14) % 128 + 128, v >>> 21]
  else
    [v % 128 + 128, (v >>> 7) % 128 + 128, (v >>> 14) % 128 + 128,
     (v >>> 21) % 128 + 128, (v >>> 28) % 256]

theorem encodeVarint32_eq_leb (v : Nat) (h : v < 2 ^ 32) :
    encodeVarint32 v = putVarint64 v := by
  simp only [encodeVarint32, Nat.shiftRight_eq_div_pow]
  split
  · rw [putVarint64]; simp only [if_pos (by omega : v < 128)]
  · split
    · rw [putVarint64, putVarint64]
      have h1 : ¬ v < 128 := by omega
      have h2 : v / 128 < 128 := by omega
      simp only [if_neg h1, if_pos h2]
      all_goals try norm_num [Nat.div_div_eq_div_mul]
      all_goals omega
    · split
      · rw [putVarint64, putVarint64, putVarint64]
        have h1 : ¬ v < 128 := by omega
        have h2 : ¬ v / 128 < 128 := by omega
        have h3 : v / 128 / 128 < 128 := by omega
        simp only [if_neg h1, if_neg h2, if_pos h3]
        all_goals try norm_num [Nat.div_div_eq_div_mul]
        all_goals omega
      · split
        · rw [putVarint64, putVarint64, putVarint64, putVarint64]
          have h1 : ¬ v < 128 := by omega
          have h2 : ¬ v / 128 < 128 := by omega
          have h3 : ¬ v / 128 / 128 < 128 := by omega
          have h4 : v / 128 / 128 / 128 < 128 := by omega
          simp only [if_neg h1, if_neg h2, if_neg h3, if_pos h4]
          all_goals try norm_num [Nat.div_div_eq_div_mul]
          all_goals omega
        · rw [putVarint64, putVarint64, putVarint64, putVarint64, putVarint64]
          have h1 : ¬ v < 128 := by omega
          have h2 : ¬ v / 128 < 128 := by omega
          have h3 : ¬ v / 128 / 128 < 128 := by omega
          have h4 : ¬ v / 128 / 128 / 128 < 128 := by omega
          have h5 : v / 128 / 128 / 128 / 128 < 128 := by omega
          simp only [if_neg h1, if_neg h2, if_neg h3, if_neg h4, if_pos h5]
          all_goals try norm_num [Nat.div_div_eq_div_mul]
          all_goals omega

/-- Generalized round-trip for the varint decoder loop: starting at a
7-aligned `shift` with an accumulator below `2^shift`, decoding the LEB128
bytes of `v` adds `v <<< shift` and leaves the trailing input. -/
theorem getVarintLoop_put {B W : Nat} (hBW : B < W)
    (hstep : ∀ s : Nat, s % 7 = 0 → s + 7 < W → s + 7 ≤ B)
    (v : Nat) : ∀ shift acc (r : List Nat),
    shift % 7 = 0 → shift ≤ B → v < 2 ^ (W - shift) → acc < 2 ^ shift →
    getVarintLoop B W (putVarint64 v ++ r) shift acc =
      some (acc + v <<< shift, r) := by
  induction v using Nat.strong_induction_on with
  | _ v ih =>
    intro shift acc r h7 hsB hv hacc
    rw [putVarint64]
    by_cases hsmall : v < 128
    · simp only [if_pos hsmall, List.cons_append, List.nil_append]
      rw [getVarintLoop]
      simp only [if_pos hsB]
      have hnc : ¬ 128 ≤ v := by omega
      simp only [if_neg hnc]
      have hlt : v <<< shift < 2 ^ W := by
        rw [Nat.shiftLeft_eq]
        calc v * 2 ^ shift < 2 ^ (W - shift) * 2 ^ shift :=
              mul_lt_mul_of_pos_right hv (Nat.pos_pow_of_pos _ (by norm_num))
          _ ≤ 2 ^ W := by
              rw [← Nat.pow_add]
              exact Nat.pow_le_pow_right (by norm_num) (by omega)
      rw [Nat.mod_eq_of_lt hlt, lor_shiftLeft_eq_add v hacc]
      simp [Nat.add_comm]
    · simp only [if_neg hsmall, List.cons_append]
      rw [getVarintLoop]
      simp only [if_pos hsB]
      have hc : 128 ≤ v % 128 + 128 := by omega
      simp only [if_pos hc]
      have hb : (v % 128 + 128) % 128 = v % 128 := by omega
      rw [hb]
      have hWs : 7 < W - shift := by
        by_contra hcon
        have : (2 : Nat) ^ (W - shift) ≤ 2 ^ 7 :=
          Nat.pow_le_pow_right (by norm_num) (by omega)
        omega
      have hpow7 : (2 : Nat) ^ (shift + 7) = 128 * 2 ^ shift := by
        rw [Nat.pow_add]; ring
      have hlt7 : (v % 128) <<< shift < 2 ^ (shift + 7) := by
        rw [Nat.shiftLeft_eq, hpow7]
        have h127 : v % 128 < 128 := by omega
        calc (v % 128) * 2 ^ shift < 128 * 2 ^ shift :=
              mul_lt_mul_of_pos_right h127 (Nat.pos_pow_of_pos _ (by norm_num))
          _ ≤ 128 * 2 ^ shift := le_refl _
      have hltW : (v % 128) <<< shift < 2 ^ W := by
        calc (v % 128) <<< shift < 2 ^ (shift + 7) := hlt7
          _ ≤ 2 ^ W := Nat.pow_le_pow_right (by norm_num) (by omega)
      rw [Nat.mod_eq_of_lt hltW, lor_shiftLeft_eq_add (v % 128) hacc]
      have hdiv : v / 128 < 2 ^ (W - (shift + 7)) := by
        have hdvd : (128 : Nat) ∣ 2 ^ (W - shift) :=
          ⟨2 ^ (W - shift - 7), by
            rw [show (128 : Nat) = 2 ^ 7 by norm_num, ← Nat.pow_add]
            congr 1 <;> omega⟩
        have h1 : v / 128 < 2 ^ (W - shift) / 128 :=
          Nat.div_lt_div_of_lt_of_dvd hdvd hv
        have h2 : (2 : Nat) ^ (W - shift) / 128 = 2 ^ (W - (shift + 7)) := by
          rw [show (128 : Nat) = 2 ^ 7 by norm_num,
            Nat.pow_div (by omega) (by norm_num)]
          congr 1 <;> omega
        rw [h2] at h1
        exact h1
      have haccB : (v % 128) <<< shift + acc < 2 ^ (shift + 7) := by
        have h127 : (v % 128) <<< shift ≤ 127 * 2 ^ shift := by
          rw [Nat.shiftLeft_eq]
          exact Nat.mul_le_mul_right _ (by omega)
        omega
      have hrec := ih (v / 128) (by omega) (shift + 7)
        ((v % 128) <<< shift + acc) r
        (by omega)
        (hstep shift h7 (by omega))
        hdiv
        haccB
      rw [hrec]
      have hv128 : 128 * (v / 128) + v % 128 = v := Nat.div_add_mod v 128
      simp only [Option.some.injEq, Prod.mk.injEq, and_true]
      simp only [Nat.shiftLeft_eq, Nat.pow_add]
      conv_rhs => rw [← hv128]
      ring

/-- Round-trip for 64-bit varints. -/
theorem getVarint64_put (v : Nat) (h : v < 2 ^ 64) (r : List Nat) :
    getVarint64 (putVarint64 v ++ r) = some (v, r) := by
  have := getVarintLoop_put (B := 63) (W := 64) (by norm_num)
    (by intro s hs hlt; omega)
    v 0 0 r (by norm_num) (by norm_num) (by simpa using h) (by norm_num)
  simpa [getVarint64] using this

/-- Round-trip for 32-bit varints. -/
theorem getVarint32_put (v : Nat) (h : v < 2 ^ 32) (r : List Nat) :
    getVarint32 (encodeVarint32 v ++ r) = some (v, r) := by
  rw [encodeVarint32_eq_leb v h]
  have := getVarintLoop_put (B := 28) (W := 32) (by norm_num)
    (by intro s hs hlt; omega)
    v 0 0 r (by norm_num) (by norm_num) (by simpa using h) (by norm_num)
  simpa [getVarint32] using this

/-! ## Fixed-width and composite coding primitives

`PutFixed*`/`GetFixed*`, `PutLengthPrefixedSlice`/`GetLengthPrefixedSlice`,
`PutBytes`/`GetBytes` and `PutTopicID`/`GetTopicID` live in headers that are
absent from the sources (`src/util/common/coding.h`, included by
`messages.cc`); they are modelled from the spec, which fixes the formats:
"fixed-endian integers, length-prefixed byte strings, and varints". -/

/-- Modelled from the spec: an 8-bit fixed integer is the single byte
`v mod 256` (`PutFixedEnum8` stores the enum cast to `uint8_t`). -/
def putFixed8 (v : Nat) : List Nat := [v % 256]

/-- Modelled from the spec: `GetFixed8`/`GetFixedEnum8` reads one byte with
no validation. -/
def getFixed8 : List Nat → Option (Nat × List Nat)
  | [] => none
  | b :: rest => some (b, rest)

/-- Modelled from the spec: 16-bit fixed-endian (little-endian) integer. -/
def putFixed16 (v : Nat) : List Nat := [v % 256, v / 2 ^ 8 % 256]

/-- Modelled from the spec: read a little-endian 16-bit integer. -/
def getFixed16 : List Nat → Option (Nat × List Nat)
  | b0 :: b1 :: rest => some (b0 + b1 * 2 ^ 8, rest)
  | _ => none

/-- Modelled from the spec: 64-bit fixed-endian (little-endian) integer. -/
def putFixed64 (v : Nat) : List Nat :=
  [v % 256, v / 2 ^ 8 % 256, v / 2 ^ 16 % 256, v / 2 ^ 24 % 256,
   v / 2 ^ 32 % 256, v / 2 ^ 40 % 256, v / 2 ^ 48 % 256, v / 2 ^ 56 % 256]

/-- Modelled from the spec: read a little-endian 64-bit integer. -/
def getFixed64 : List Nat → Option (Nat × List Nat)
  | b0 :: b1 :: b2 :: b3 :: b4 :: b5 :: b6 :: b7 :: rest =>
    some (b0 + b1 * 2 ^ 8 + b2 * 2 ^ 16 + b3 * 2 ^ 24 + b4 * 2 ^ 32 +
      b5 * 2 ^ 40 + b6 * 2 ^ 48 + b7 * 2 ^ 56, rest)
  | _ => none

/-- Modelled from the spec: `PutBytes` appends raw bytes with no prefix
(`MessageDataAck` stores the 16 `MsgId` bytes this way). -/
def putBytes (s : List Nat) : List Nat := s

/-- Modelled from the spec: `GetBytes` reads exactly `n` raw bytes. -/
def getBytes (n : Nat) (l : List Nat) : Option (List Nat × List Nat) :=
  if n ≤ l.length then some (l.take n, l.drop n) else none

/-- Modelled from the spec: a length-prefixed byte string is a varint32
length (the C++ casts `size_t` to `uint32_t`) followed by the bytes. -/
def putLengthPrefixedSlice (s : List Nat) : List Nat :=
  encodeVarint32 (s.length % 2 ^ 32) ++ s

/-- Modelled from the spec: read a varint32 length, then that many bytes. -/
def getLengthPrefixedSlice (l : List Nat) : Option (List Nat × List Nat) :=
  match getVarint32 l with
  | none => none
  | some (len, rest) =>
    if len ≤ rest.length then some (rest.take len, rest.drop len) else none

/-- Modelled from the spec: `PutTopicID` writes the namespace and the topic
as two length-prefixed byte strings ("namespace, topic" in every message
body of §4.1). -/
def putTopicID (namespace_id topic_name : List Nat) : List Nat :=
  putLengthPrefixedSlice namespace_id ++ putLengthPrefixedSlice topic_name

/-- Modelled from the spec: `GetTopicID` reads the namespace, then the
topic. -/
def getTopicID (l : List Nat) : Option ((List Nat × List Nat) × List Nat) :=
  match getLengthPrefixedSlice l with
  | none => none
  | some (ns, rest) =>
    match getLengthPrefixedSlice rest with
    | none => none
    | some (topic, rest2) => some ((ns, topic), rest2)

/-- Modelled from the spec: "SubscriptionID encodes in a variable-length
form (detailed bit pattern irrelevant; must round-trip)";
`EncodeSubscriptionID` is absent from the sources, so it is modelled as the
64-bit varint encoding. -/
def encodeSubscriptionID (v : Nat) : List Nat := putVarint64 v

/-- Modelled from the spec: inverse of `encodeSubscriptionID`. -/
def decodeSubscriptionID (l : List Nat) : Option (Nat × List Nat) :=
  getVarint64 l

theorem getFixed8_put (v : Nat) (h : v < 2 ^ 8) (r : List Nat) :
    getFixed8 (putFixed8 v ++ r) = some (v, r) := by
  simp only [putFixed8, getFixed8, List.cons_append, List.nil_append,
    Option.some.injEq, Prod.mk.injEq]
  exact ⟨by omega, trivial⟩

theorem getFixed16_put (v : Nat) (h : v < 2 ^ 16) (r : List Nat) :
    getFixed16 (putFixed16 v ++ r) = some (v, r) := by
  simp only [putFixed16, getFixed16, List.cons_append, List.nil_append,
    Option.some.injEq, Prod.mk.injEq]
  exact ⟨by omega, trivial⟩

theorem getFixed64_put (v : Nat) (h : v < 2 ^ 64) (r : List Nat) :
    getFixed64 (putFixed64 v ++ r) = some (v, r) := by
  simp only [putFixed64, getFixed64, List.cons_append, List.nil_append,
    Option.some.injEq, Prod.mk.injEq]
  exact ⟨by omega, trivial⟩

theorem getBytes_put (s : List Nat) (r : List Nat) :
    getBytes s.length (putBytes s ++ r) = some (s, r) := by
  simp [getBytes, putBytes, List.take_append, List.drop_append]

theorem getLengthPrefixedSlice_put (s : List Nat) (h : s.length < 2 ^ 32)
    (r : List Nat) :
    getLengthPrefixedSlice (putLengthPrefixedSlice s ++ r) = some (s, r) := by
  unfold getLengthPrefixedSlice putLengthPrefixedSlice
  rw [Nat.mod_eq_of_lt h, List.append_assoc,
    getVarint32_put s.length h (s ++ r)]
  simp [List.take_append, List.drop_append]

theorem getTopicID_put (ns t : List Nat) (hns : ns.length < 2 ^ 32)
    (ht : t.length < 2 ^ 32) (r : List Nat) :
    getTopicID (putTopicID ns t ++ r) = some ((ns, t), r) := by
  unfold getTopicID putTopicID
  rw [List.append_assoc]
  simp [getLengthPrefixedSlice_put ns hns, getLengthPrefixedSlice_put t ht]

theorem decodeSubscriptionID_encode (v : Nat) (h : v < 2 ^ 64)
    (r : List Nat) :
    decodeSubscriptionID (encodeSubscriptionID v ++ r) = some (v, r) :=
  getVarint64_put v h r

/-! ## Wire messages (src/messages/messages.cc)

One structure per message kind, with a `Serialize`/`DeSerialize` pair
mirroring the statement order of the C++ member functions.  The `type_`
field that C++ reads back from the wire is not stored (except for
`MessageData`, whose tag may be `mPublish` or `mDeliver`): dispatch in
`Message::CreateNewInstance` guarantees it always equals the per-kind tag.
A deserializer returns the decoded message and the unconsumed input. -/

/-- MessageType values, in the order of `kMessageTypeNames`. -/
def mPing : Nat := 1
def mPublish : Nat := 2
def mDataAck : Nat := 4
def mGap : Nat := 5
def mDeliver : Nat := 6
def mGoodbye : Nat := 7
def mSubscribe : Nat := 8
def mUnsubscribe : Nat := 9
def mDeliverGap : Nat := 10
def mDeliverData : Nat := 11
def mFindTailSeqno : Nat := 12
def mTailSeqno : Nat := 13
def mDeliverBatch : Nat := 14
def mHeartbeat : Nat := 15
def mHeartbeatDelta : Nat := 16
def mBacklogQuery : Nat := 17
def mBacklogFill : Nat := 18
def mIntroduction : Nat := 19
def mSubAck : Nat := 20

/-- Every element of a wire byte string is an 8-bit value. -/
def Bytes (l : List Nat) : Prop := ∀ b ∈ l, b < 256

instance (l : List Nat) : Decidable (Bytes l) := by
  unfold Bytes; infer_instance

/-- `Message::Serialize`: 1-byte type tag then 2-byte tenant ID. -/
def messageSerializeBase (tag tenant : Nat) : List Nat :=
  putFixed8 tag ++ putFixed16 tenant

/-- `Message::DeSerialize`: read the type tag (stored unchecked) and the
tenant ID. -/
def messageDeSerializeBase (l : List Nat) : Option (Nat × List Nat) :=
  match getFixed8 l with
  | none => none
  | some (_, l1) => getFixed16 l1

theorem messageDeSerializeBase_put (tag tenant : Nat) (h : tenant < 2 ^ 16)
    (r : List Nat) :
    messageDeSerializeBase (messageSerializeBase tag tenant ++ r) =
      some (tenant, r) := by
  unfold messageDeSerializeBase messageSerializeBase putFixed8
  simp [getFixed8, getFixed16_put tenant h]

/-! ### MessagePing -/

structure MessagePing where
  tenantid : Nat
  pingtype : Nat
  cookie : List Nat
deriving DecidableEq

def MessagePing.wf (m : MessagePing) : Prop :=
  m.tenantid < 2 ^ 16 ∧ m.pingtype < 2 ^ 8 ∧
  m.cookie.length < 2 ^ 32 ∧ Bytes m.cookie

/-- `MessagePing::Serialize`. -/
def MessagePing.serialize (m : MessagePing) : List Nat :=
  putFixed8 mPing ++ putFixed16 m.tenantid ++
  putFixed8 m.pingtype ++ putLengthPrefixedSlice m.cookie

/-- `MessagePing::DeSerialize`. -/
def MessagePing.deSerialize (l : List Nat) :
    Option (MessagePing × List Nat) :=
  match getFixed8 l with
  | none => none
  | some (_, l1) =>
    match getFixed16 l1 with
    | none => none
    | some (tenant, l2) =>
      match getFixed8 l2 with
      | none => none
      | some (pt, l3) =>
        match getLengthPrefixedSlice l3 with
        | none => none
        | some (cookie, l4) => some (⟨tenant, pt, cookie⟩, l4)

theorem MessagePing.deSerialize_serialize_ping (m : MessagePing) (h : m.wf)
    (r : List Nat) :
    MessagePing.deSerialize (m.serialize ++ r) = some (m, r) := by
  obtain ⟨h1, h2, h3, _⟩ := h
  unfold MessagePing.deSerialize MessagePing.serialize
  simp only [List.append_assoc]
  simp [getFixed8_put mPing (by decide), getFixed16_put m.tenantid h1,
    getFixed8_put m.pingtype h2, getLengthPrefixedSlice_put m.cookie h3]

/-! ### MessageGoodbye -/

structure MessageGoodbye where
  tenantid : Nat
  code : Nat
  origin_type : Nat
deriving DecidableEq

def MessageGoodbye.wf (m : MessageGoodbye) : Prop :=
  m.tenantid < 2 ^ 16 ∧ m.code < 2 ^ 8 ∧ m.origin_type < 2 ^ 8

/-- `MessageGoodbye::Serialize`. -/
def MessageGoodbye.serialize (m : MessageGoodbye) : List Nat :=
  putFixed8 mGoodbye ++ putFixed16 m.tenantid ++
  putFixed8 m.code ++ putFixed8 m.origin_type

/-- `MessageGoodbye::DeSerialize`. -/
def MessageGoodbye.deSerialize (l : List Nat) :
    Option (MessageGoodbye × List Nat) :=
  match getFixed8 l with
  | none => none
  | some (_, l1) =>
    match getFixed16 l1 with
    | none => none
    | some (tenant, l2) =>
      match getFixed8 l2 with
      | none => none
      | some (code, l3) =>
        match getFixed8 l3 with
        | none => none
        | some (ot, l4) => some (⟨tenant, code, ot⟩, l4)

theorem MessageGoodbye.deSerialize_serialize_goodbye (m : MessageGoodbye) (h : m.wf)
    (r : List Nat) :
    MessageGoodbye.deSerialize (m.serialize ++ r) = some (m, r) := by
  obtain ⟨h1, h2, h3⟩ := h
  unfold MessageGoodbye.deSerialize MessageGoodbye.serialize
  simp only [List.append_assoc]
  simp [getFixed8_put mGoodbye (by decide), getFixed16_put m.tenantid h1,
    getFixed8_put m.code h2, getFixed8_put m.origin_type h3]

/-! ### MessageGap -/

structure MessageGap where
  tenantid : Nat
  namespace_id : List Nat
  topic_name : List Nat
  gap_type : Nat
  gap_from : Nat
  gap_to : Nat
deriving DecidableEq

def MessageGap.wf (m : MessageGap) : Prop :=
  m.tenantid < 2 ^ 16 ∧
  m.namespace_id.length < 2 ^ 32 ∧ Bytes m.namespace_id ∧
  m.topic_name.length < 2 ^ 32 ∧ Bytes m.topic_name ∧
  m.gap_type < 2 ^ 8 ∧ m.gap_from < 2 ^ 64 ∧ m.gap_to < 2 ^ 64

/-- `MessageGap::Serialize`. -/
def MessageGap.serialize (m : MessageGap) : List Nat :=
  putFixed8 mGap ++ putFixed16 m.tenantid ++
  putTopicID m.namespace_id m.topic_name ++
  putFixed8 m.gap_type ++ putVarint64 m.gap_from ++ putVarint64 m.gap_to

/-- `MessageGap::DeSerialize`. -/
def MessageGap.deSerialize (l : List Nat) :
    Option (MessageGap × List Nat) :=
  match getFixed8 l with
  | none => none
  | some (_, l1) =>
    match getFixed16 l1 with
    | none => none
    | some (tenant, l2) =>
      match getTopicID l2 with
      | none => none
      | some ((ns, t), l3) =>
        match getFixed8 l3 with
        | none => none
        | some (gt, l4) =>
          match getVarint64 l4 with
          | none => none
          | some (gfrom, l5) =>
            match getVarint64 l5 with
            | none => none
            | some (gto, l6) => some (⟨tenant, ns, t, gt, gfrom, gto⟩, l6)

theorem MessageGap.deSerialize_serialize_gap (m : MessageGap) (h : m.wf)
    (r : List Nat) :
    MessageGap.deSerialize (m.serialize ++ r) = some (m, r) := by
  obtain ⟨h1, h2, _, h3, _, h4, h5, h6⟩ := h
  unfold MessageGap.deSerialize MessageGap.serialize
  simp only [List.append_assoc]
  simp [getFixed8_put mGap (by decide), getFixed16_put m.tenantid h1,
    getTopicID_put m.namespace_id m.topic_name h2 h3,
    getFixed8_put m.gap_type h4, getVarint64_put m.gap_from h5,
    getVarint64_put m.gap_to h6]

/-! ### MessageFindTailSeqno -/

structure MessageFindTailSeqno where
  tenantid : Nat
  namespace_id : List Nat
  topic_name : List Nat
deriving DecidableEq

def MessageFindTailSeqno.wf (m : MessageFindTailSeqno) : Prop :=
  m.tenantid < 2 ^ 16 ∧
  m.namespace_id.length < 2 ^ 32 ∧ Bytes m.namespace_id ∧
  m.topic_name.length < 2 ^ 32 ∧ Bytes m.topic_name

/-- `MessageFindTailSeqno::Serialize`. -/
def MessageFindTailSeqno.serialize (m : MessageFindTailSeqno) : List Nat :=
  messageSerializeBase mFindTailSeqno m.tenantid ++
  putTopicID m.namespace_id m.topic_name

/-- `MessageFindTailSeqno::DeSerialize`. -/
def MessageFindTailSeqno.deSerialize (l : List Nat) :
    Option (MessageFindTailSeqno × List Nat) :=
  match messageDeSerializeBase l with
  | none => none
  | some (tenant, l1) =>
    match getTopicID l1 with
    | none => none
    | some ((ns, t), l2) => some (⟨tenant, ns, t⟩, l2)

theorem MessageFindTailSeqno.deSerialize_serialize_find_tail (m : MessageFindTailSeqno)
    (h : m.wf) (r : List Nat) :
    MessageFindTailSeqno.deSerialize (m.serialize ++ r) = some (m, r) := by
  obtain ⟨h1, h2, _, h3, _⟩ := h
  unfold MessageFindTailSeqno.deSerialize MessageFindTailSeqno.serialize
  simp only [List.append_assoc]
  simp [messageDeSerializeBase_put mFindTailSeqno m.tenantid h1,
    getTopicID_put m.namespace_id m.topic_name h2 h3]

/-! ### MessageTailSeqno -/

structure MessageTailSeqno where
  tenantid : Nat
  namespace_id : List Nat
  topic_name : List Nat
  seqno : Nat
deriving DecidableEq

def MessageTailSeqno.wf (m : MessageTailSeqno) : Prop :=
  m.tenantid < 2 ^ 16 ∧
  m.namespace_id.length < 2 ^ 32 ∧ Bytes m.namespace_id ∧
  m.topic_name.length < 2 ^ 32 ∧ Bytes m.topic_name ∧
  m.seqno < 2 ^ 64

/-- `MessageTailSeqno::Serialize`. -/
def MessageTailSeqno.serialize (m : MessageTailSeqno) : List Nat :=
  messageSerializeBase mTailSeqno m.tenantid ++
  putTopicID m.namespace_id m.topic_name ++ putVarint64 m.seqno

/-- `MessageTailSeqno::DeSerialize`. -/
def MessageTailSeqno.deSerialize (l : List Nat) :
    Option (MessageTailSeqno × List Nat) :=
  match messageDeSerializeBase l with
  | none => none
  | some (tenant, l1) =>
    match getTopicID l1 with
    | none => none
    | some ((ns, t), l2) =>
      match getVarint64 l2 with
      | none => none
      | some (seqno, l3) => some (⟨tenant, ns, t, seqno⟩, l3)

theorem MessageTailSeqno.deSerialize_serialize_tail_seqno (m : MessageTailSeqno)
    (h : m.wf) (r : List Nat) :
    MessageTailSeqno.deSerialize (m.serialize ++ r) = some (m, r) := by
  obtain ⟨h1, h2, _, h3, _, h4⟩ := h
  unfold MessageTailSeqno.deSerialize MessageTailSeqno.serialize
  simp only [List.append_assoc]
  simp [messageDeSerializeBase_put mTailSeqno m.tenantid h1,
    getTopicID_put m.namespace_id m.topic_name h2 h3,
    getVarint64_put m.seqno h4]

/-! ### MessageUnsubscribe -/

structure MessageUnsubscribe where
  tenantid : Nat
  sub_id : Nat
  reason : Nat
  namespace_id : List Nat
  topic_name : List Nat
deriving DecidableEq

def MessageUnsubscribe.wf (m : MessageUnsubscribe) : Prop :=
  m.tenantid < 2 ^ 16 ∧ m.sub_id < 2 ^ 64 ∧ m.reason < 2 ^ 8 ∧
  m.namespace_id.length < 2 ^ 32 ∧ Bytes m.namespace_id ∧
  m.topic_name.length < 2 ^ 32 ∧ Bytes m.topic_name

/-- `MessageUnsubscribe::Serialize`. -/
def MessageUnsubscribe.serialize (m : MessageUnsubscribe) : List Nat :=
  messageSerializeBase mUnsubscribe m.tenantid ++
  encodeSubscriptionID m.sub_id ++ putFixed8 m.reason ++
  putTopicID m.namespace_id m.topic_name

/-- `MessageUnsubscribe::DeSerialize`; a missing topic ID is tolerated for
backwards compatibility by clearing both fields. -/
def MessageUnsubscribe.deSerialize (l : List Nat) :
    Option (MessageUnsubscribe × List Nat) :=
  match messageDeSerializeBase l with
  | none => none
  | some (tenant, l1) =>
    match decodeSubscriptionID l1 with
    | none => none
    | some (sub, l2) =>
      match getFixed8 l2 with
      | none => none
      | some (reason, l3) =>
        match getTopicID l3 with
        | none => some (⟨tenant, sub, reason, [], []⟩, l3)
        | some ((ns, t), l4) => some (⟨tenant, sub, reason, ns, t⟩, l4)

theorem MessageUnsubscribe.deSerialize_serialize_unsubscribe (m : MessageUnsubscribe)
    (h : m.wf) (r : List Nat) :
    MessageUnsubscribe.deSerialize (m.serialize ++ r) = some (m, r) := by
  obtain ⟨h1, h2, h3, h4, _, h5, _⟩ := h
  unfold MessageUnsubscribe.deSerialize MessageUnsubscribe.serialize
  simp only [List.append_assoc]
  simp [messageDeSerializeBase_put mUnsubscribe m.tenantid h1,
    decodeSubscriptionID_encode m.sub_id h2, getFixed8_put m.reason h3,
    getTopicID_put m.namespace_id m.topic_name h4 h5]

/-! ### MessageData (tags mPublish / mDeliver)

`MessageData::Serialize` writes the tag and both sequence numbers, then
`SerializeInternal` writes the part that goes into log storage (tenant,
topic ID, the 16 `MsgId` bytes length-prefixed, and the payload).  The
storage part is also parsed on its own by `LogRecordMessageData`
(log_tailer.cc), so it is embedded as a separate pair. -/

/-- The fields written by `MessageData::SerializeInternal`. -/
structure StorageBody where
  tenantid : Nat
  namespace_id : List Nat
  topic_name : List Nat
  msgid : List Nat
  payload : List Nat
deriving DecidableEq

def StorageBody.wf (b : StorageBody) : Prop :=
  b.tenantid < 2 ^ 16 ∧
  b.namespace_id.length < 2 ^ 32 ∧ Bytes b.namespace_id ∧
  b.topic_name.length < 2 ^ 32 ∧ Bytes b.topic_name ∧
  b.msgid.length = 16 ∧ Bytes b.msgid ∧
  b.payload.length < 2 ^ 32 ∧ Bytes b.payload

/-- `MessageData::SerializeInternal`. -/
def serializeInternal (b : StorageBody) : List Nat :=
  putFixed16 b.tenantid ++ putTopicID b.namespace_id b.topic_name ++
  putLengthPrefixedSlice b.msgid ++ putLengthPrefixedSlice b.payload

/-- `MessageData::DeSerializeStorage`: tenant, topic ID, a length-prefixed
slice of at least `sizeof(msgid_) = 16` bytes (of which the first 16 are
the message ID), then the length-prefixed payload. -/
def deSerializeStorage (l : List Nat) : Option (StorageBody × List Nat) :=
  match getFixed16 l with
  | none => none
  | some (tenant, l1) =>
    match getTopicID l1 with
    | none => none
    | some ((ns, t), l2) =>
      match getLengthPrefixedSlice l2 with
      | none => none
      | some (idSlice, l3) =>
        if idSlice.length < 16 then none
        else
          match getLengthPrefixedSlice l3 with
          | none => none
          | some (payload, l4) =>
            some (⟨tenant, ns, t, idSlice.take 16, payload⟩, l4)

theorem deSerializeStorage_serialize (b : StorageBody) (h : b.wf)
    (r : List Nat) :
    deSerializeStorage (serializeInternal b ++ r) = some (b, r) := by
  obtain ⟨h1, h2, _, h3, _, h4, _, h5, _⟩ := h
  unfold deSerializeStorage serializeInternal
  simp only [List.append_assoc]
  simp [getFixed16_put b.tenantid h1,
    getTopicID_put b.namespace_id b.topic_name h2 h3,
    getLengthPrefixedSlice_put b.msgid (by omega),
    getLengthPrefixedSlice_put b.payload h5, h4,
    List.take_of_length_le (le_of_eq h4)]

structure MessageData where
  /-- The wire tag; `mPublish` or `mDeliver` (both construct this class). -/
  mtype : Nat
  body : StorageBody
  seqno_prev : Nat
  seqno : Nat
deriving DecidableEq

def MessageData.wf (m : MessageData) : Prop :=
  (m.mtype = mPublish ∨ m.mtype = mDeliver) ∧ m.body.wf ∧
  m.seqno_prev < 2 ^ 64 ∧ m.seqno < 2 ^ 64

/-- `MessageData::Serialize`. -/
def MessageData.serialize (m : MessageData) : List Nat :=
  putFixed8 m.mtype ++ putVarint64 m.seqno_prev ++ putVarint64 m.seqno ++
  serializeInternal m.body

/-- `MessageData::DeSerialize`; the tag byte read from the wire is kept as
`type_`. -/
def MessageData.deSerialize (l : List Nat) :
    Option (MessageData × List Nat) :=
  match getFixed8 l with
  | none => none
  | some (tag, l1) =>
    match getVarint64 l1 with
    | none => none
    | some (prev, l2) =>
      match getVarint64 l2 with
      | none => none
      | some (seqno, l3) =>
        match deSerializeStorage l3 with
        | none => none
        | some (body, l4) => some (⟨tag, body, prev, seqno⟩, l4)

theorem MessageData.deSerialize_serialize_data (m : MessageData) (h : m.wf)
    (r : List Nat) :
    MessageData.deSerialize (m.serialize ++ r) = some (m, r) := by
  obtain ⟨htag, hbody, h1, h2⟩ := h
  unfold MessageData.deSerialize MessageData.serialize
  simp only [List.append_assoc]
  have htag8 : m.mtype < 2 ^ 8 := by
    rcases htag with h | h <;> rw [h] <;> decide
  simp [getFixed8_put m.mtype htag8, getVarint64_put m.seqno_prev h1,
    getVarint64_put m.seqno h2, deSerializeStorage_serialize m.body hbody]

/-! ### MessageDeliver (common header of DeliverGap / DeliverData)

`MessageDeliver` is the abstract base: tag and tenant (`Message`), then
the subscription ID, the previous sequence number, and the difference
`seqno_ - seqno_prev_` (computed in `uint64_t`, hence modulo `2^64`).
Deserialization reconstructs `seqno_ = seqno_prev_ + seqno_diff`, again
modulo `2^64`. -/

structure MessageDeliver where
  tenantid : Nat
  sub_id : Nat
  seqno_prev : Nat
  seqno : Nat
deriving DecidableEq

def MessageDeliver.wf (m : MessageDeliver) : Prop :=
  m.tenantid < 2 ^ 16 ∧ m.sub_id < 2 ^ 64 ∧
  m.seqno_prev ≤ m.seqno ∧ m.seqno < 2 ^ 64

/-- `MessageDeliver::Serialize` (the tag is supplied by the concrete
subclass constructor). -/
def MessageDeliver.serialize (tag : Nat) (m : MessageDeliver) : List Nat :=
  messageSerializeBase tag m.tenantid ++ encodeSubscriptionID m.sub_id ++
  putVarint64 m.seqno_prev ++
  putVarint64 ((m.seqno + 2 ^ 64 - m.seqno_prev) % 2 ^ 64)

/-- `MessageDeliver::DeSerialize`. -/
def MessageDeliver.deSerialize (l : List Nat) :
    Option (MessageDeliver × List Nat) :=
  match messageDeSerializeBase l with
  | none => none
  | some (tenant, l1) =>
    match decodeSubscriptionID l1 with
    | none => none
    | some (sub, l2) =>
      match getVarint64 l2 with
      | none => none
      | some (prev, l3) =>
        match getVarint64 l3 with
        | none => none
        | some (diff, l4) =>
          some (⟨tenant, sub, prev, (prev + diff) % 2 ^ 64⟩, l4)

theorem MessageDeliver.deSerialize_serialize_deliver (tag : Nat) (htag : tag < 2 ^ 8)
    (m : MessageDeliver) (h : m.wf) (r : List Nat) :
    MessageDeliver.deSerialize (MessageDeliver.serialize tag m ++ r) =
      some (m, r) := by
  obtain ⟨h1, h2, h3, h4⟩ := h
  unfold MessageDeliver.deSerialize MessageDeliver.serialize
  simp only [List.append_assoc]
  have hseq : (m.seqno_prev +
      (m.seqno + 2 ^ 64 - m.seqno_prev) % 2 ^ 64) % 2 ^ 64 = m.seqno := by
    omega
  simp only [messageDeSerializeBase_put tag m.tenantid h1,
    decodeSubscriptionID_encode m.sub_id h2,
    getVarint64_put m.seqno_prev (by omega),
    getVarint64_put ((m.seqno + 2 ^ 64 - m.seqno_prev) % 2 ^ 64) (by omega),
    hseq]

/-! ### MessageDeliverGap -/

structure MessageDeliverGap where
  hdr : MessageDeliver
  gap_type : Nat
  namespace_id : List Nat
  topic : List Nat
  source : List Nat
deriving DecidableEq

def MessageDeliverGap.wf (m : MessageDeliverGap) : Prop :=
  m.hdr.wf ∧ m.gap_type < 2 ^ 8 ∧
  m.namespace_id.length < 2 ^ 32 ∧ Bytes m.namespace_id ∧
  m.topic.length < 2 ^ 32 ∧ Bytes m.topic ∧
  m.source.length < 2 ^ 32 ∧ Bytes m.source

/-- `MessageDeliverGap::Serialize`. -/
def MessageDeliverGap.serialize (m : MessageDeliverGap) : List Nat :=
  MessageDeliver.serialize mDeliverGap m.hdr ++ putFixed8 m.gap_type ++
  putTopicID m.namespace_id m.topic ++ putLengthPrefixedSlice m.source

/-- `MessageDeliverGap::DeSerialize`; a missing topic ID or source is
tolerated for backwards compatibility (fields cleared). -/
def MessageDeliverGap.deSerialize (l : List Nat) :
    Option (MessageDeliverGap × List Nat) :=
  match MessageDeliver.deSerialize l with
  | none => none
  | some (hdr, l1) =>
    match getFixed8 l1 with
    | none => none
    | some (gt, l2) =>
      match getTopicID l2 with
      | none =>
        match getLengthPrefixedSlice l2 with
        | none => some (⟨hdr, gt, [], [], []⟩, l2)
        | some (src, l3) => some (⟨hdr, gt, [], [], src⟩, l3)
      | some ((ns, t), l3) =>
        match getLengthPrefixedSlice l3 with
        | none => some (⟨hdr, gt, ns, t, []⟩, l3)
        | some (src, l4) => some (⟨hdr, gt, ns, t, src⟩, l4)

theorem MessageDeliverGap.deSerialize_serialize_deliver_gap (m : MessageDeliverGap)
    (h : m.wf) (r : List Nat) :
    MessageDeliverGap.deSerialize (m.serialize ++ r) = some (m, r) := by
  obtain ⟨h0, h1, h2, _, h3, _, h4, _⟩ := h
  unfold MessageDeliverGap.deSerialize MessageDeliverGap.serialize
  simp only [List.append_assoc]
  simp only [MessageDeliver.deSerialize_serialize_deliver mDeliverGap (by decide)
      m.hdr h0,
    getFixed8_put m.gap_type h1,
    getTopicID_put m.namespace_id m.topic h2 h3,
    getLengthPrefixedSlice_put m.source h4]

/-! ### MessageDeliverData -/

structure MessageDeliverData where
  hdr : MessageDeliver
  message_id : List Nat
  payload : List Nat
  namespace_id : List Nat
  topic : List Nat
  source : List Nat
deriving DecidableEq

def MessageDeliverData.wf (m : MessageDeliverData) : Prop :=
  m.hdr.wf ∧ m.message_id.length = 16 ∧ Bytes m.message_id ∧
  m.payload.length < 2 ^ 32 ∧ Bytes m.payload ∧
  m.namespace_id.length < 2 ^ 32 ∧ Bytes m.namespace_id ∧
  m.topic.length < 2 ^ 32 ∧ Bytes m.topic ∧
  m.source.length < 2 ^ 32 ∧ Bytes m.source

/-- `MessageDeliverData::Serialize`. -/
def MessageDeliverData.serialize (m : MessageDeliverData) : List Nat :=
  MessageDeliver.serialize mDeliverData m.hdr ++
  putLengthPrefixedSlice m.message_id ++ putLengthPrefixedSlice m.payload ++
  putTopicID m.namespace_id m.topic ++ putLengthPrefixedSlice m.source

/-- `MessageDeliverData::DeSerialize`; a missing topic ID or source is
tolerated for backwards compatibility (fields cleared). -/
def MessageDeliverData.deSerialize (l : List Nat) :
    Option (MessageDeliverData × List Nat) :=
  match MessageDeliver.deSerialize l with
  | none => none
  | some (hdr, l1) =>
    match getLengthPrefixedSlice l1 with
    | none => none
    | some (idSlice, l2) =>
      if idSlice.length < 16 then none
      else
        match getLengthPrefixedSlice l2 with
        | none => none
        | some (payload, l3) =>
          match getTopicID l3 with
          | none =>
            match getLengthPrefixedSlice l3 with
            | none =>
              some (⟨hdr, idSlice.take 16, payload, [], [], []⟩, l3)
            | some (src, l4) =>
              some (⟨hdr, idSlice.take 16, payload, [], [], src⟩, l4)
          | some ((ns, t), l4) =>
            match getLengthPrefixedSlice l4 with
            | none =>
              some (⟨hdr, idSlice.take 16, payload, ns, t, []⟩, l4)
            | some (src, l5) =>
              some (⟨hdr, idSlice.take 16, payload, ns, t, src⟩, l5)

theorem MessageDeliverData.deSerialize_serialize_deliver_data (m : MessageDeliverData)
    (h : m.wf) (r : List Nat) :
    MessageDeliverData.deSerialize (m.serialize ++ r) = some (m, r) := by
  obtain ⟨h0, h1, _, h2, _, h3, _, h4, _, h5, _⟩ := h
  unfold MessageDeliverData.deSerialize MessageDeliverData.serialize
  simp only [List.append_assoc]
  simp only [MessageDeliver.deSerialize_serialize_deliver mDeliverData (by decide)
      m.hdr h0,
    getLengthPrefixedSlice_put m.message_id (by omega),
    getLengthPrefixedSlice_put m.payload h2,
    getTopicID_put m.namespace_id m.topic h3 h4,
    getLengthPrefixedSlice_put m.source h5]
  rw [if_neg (by omega), List.take_of_length_le (le_of_eq h1)]

/-! ### MessageBacklogQuery -/

structure MessageBacklogQuery where
  tenantid : Nat
  sub_id : Nat
  namespace_id : List Nat
  topic : List Nat
  source : List Nat
  seqno : Nat
deriving DecidableEq

def MessageBacklogQuery.wf (m : MessageBacklogQuery) : Prop :=
  m.tenantid < 2 ^ 16 ∧ m.sub_id < 2 ^ 64 ∧
  m.namespace_id.length < 2 ^ 32 ∧ Bytes m.namespace_id ∧
  m.topic.length < 2 ^ 32 ∧ Bytes m.topic ∧
  m.source.length < 2 ^ 32 ∧ Bytes m.source ∧ m.seqno < 2 ^ 64

/-- `MessageBacklogQuery::Serialize`. -/
def MessageBacklogQuery.serialize (m : MessageBacklogQuery) : List Nat :=
  putFixed8 mBacklogQuery ++ putFixed16 m.tenantid ++
  encodeSubscriptionID m.sub_id ++ putTopicID m.namespace_id m.topic ++
  putLengthPrefixedSlice m.source ++ putVarint64 m.seqno

/-- `MessageBacklogQuery::DeSerialize`. -/
def MessageBacklogQuery.deSerialize (l : List Nat) :
    Option (MessageBacklogQuery × List Nat) :=
  match getFixed8 l with
  | none => none
  | some (_, l1) =>
    match getFixed16 l1 with
    | none => none
    | some (tenant, l2) =>
      match decodeSubscriptionID l2 with
      | none => none
      | some (sub, l3) =>
        match getTopicID l3 with
        | none => none
        | some ((ns, t), l4) =>
          match getLengthPrefixedSlice l4 with
          | none => none
          | some (src, l5) =>
            match getVarint64 l5 with
            | none => none
            | some (seqno, l6) => some (⟨tenant, sub, ns, t, src, seqno⟩, l6)

theorem MessageBacklogQuery.deSerialize_serialize_backlog_query (m : MessageBacklogQuery)
    (h : m.wf) (r : List Nat) :
    MessageBacklogQuery.deSerialize (m.serialize ++ r) = some (m, r) := by
  obtain ⟨h1, h2, h3, _, h4, _, h5, _, h6⟩ := h
  unfold MessageBacklogQuery.deSerialize MessageBacklogQuery.serialize
  simp only [List.append_assoc]
  simp only [getFixed8_put mBacklogQuery (by decide),
    getFixed16_put m.tenantid h1, decodeSubscriptionID_encode m.sub_id h2,
    getTopicID_put m.namespace_id m.topic h3 h4,
    getLengthPrefixedSlice_put m.source h5, getVarint64_put m.seqno h6]

/-! ### MessageBacklogFill -/

structure MessageBacklogFill where
  tenantid : Nat
  namespace_id : List Nat
  topic : List Nat
  source : List Nat
  prev_seqno : Nat
  next_seqno : Nat
  result : Nat
  info : List Nat
deriving DecidableEq

def MessageBacklogFill.wf (m : MessageBacklogFill) : Prop :=
  m.tenantid < 2 ^ 16 ∧
  m.namespace_id.length < 2 ^ 32 ∧ Bytes m.namespace_id ∧
  m.topic.length < 2 ^ 32 ∧ Bytes m.topic ∧
  m.source.length < 2 ^ 32 ∧ Bytes m.source ∧
  m.prev_seqno < 2 ^ 64 ∧ m.next_seqno < 2 ^ 64 ∧
  m.result < 2 ^ 8 ∧ m.info.length < 2 ^ 32 ∧ Bytes m.info

/-- `MessageBacklogFill::Serialize`. -/
def MessageBacklogFill.serialize (m : MessageBacklogFill) : List Nat :=
  putFixed8 mBacklogFill ++ putFixed16 m.tenantid ++
  putTopicID m.namespace_id m.topic ++ putLengthPrefixedSlice m.source ++
  putVarint64 m.prev_seqno ++ putVarint64 m.next_seqno ++
  putFixed8 m.result ++ putLengthPrefixedSlice m.info

/-- `MessageBacklogFill::DeSerialize`; a missing info field is tolerated
for backwards compatibility (cleared). -/
def MessageBacklogFill.deSerialize (l : List Nat) :
    Option (MessageBacklogFill × List Nat) :=
  match getFixed8 l with
  | none => none
  | some (_, l1) =>
    match getFixed16 l1 with
    | none => none
    | some (tenant, l2) =>
      match getTopicID l2 with
      | none => none
      | some ((ns, t), l3) =>
        match getLengthPrefixedSlice l3 with
        | none => none
        | some (src, l4) =>
          match getVarint64 l4 with
          | none => none
          | some (prev, l5) =>
            match getVarint64 l5 with
            | none => none
            | some (next, l6) =>
              match getFixed8 l6 with
              | none => none
              | some (result, l7) =>
                match getLengthPrefixedSlice l7 with
                | none =>
                  some (⟨tenant, ns, t, src, prev, next, result, []⟩, l7)
                | some (info, l8) =>
                  some (⟨tenant, ns, t, src, prev, next, result, info⟩, l8)

theorem MessageBacklogFill.deSerialize_serialize_backlog_fill (m : MessageBacklogFill)
    (h : m.wf) (r : List Nat) :
    MessageBacklogFill.deSerialize (m.serialize ++ r) = some (m, r) := by
  obtain ⟨h1, h2, _, h3, _, h4, _, h5, h6, h7, h8, _⟩ := h
  unfold MessageBacklogFill.deSerialize MessageBacklogFill.serialize
  simp only [List.append_assoc]
  simp only [getFixed8_put mBacklogFill (by decide),
    getFixed16_put m.tenantid h1,
    getTopicID_put m.namespace_id m.topic h2 h3,
    getLengthPrefixedSlice_put m.source h4, getVarint64_put m.prev_seqno h5,
    getVarint64_put m.next_seqno h6, getFixed8_put m.result h7,
    getLengthPrefixedSlice_put m.info h8]

/-! ### Cursors (MessageSubscribe / MessageSubAck) -/

structure Cursor where
  source : List Nat
  seqno : Nat
deriving DecidableEq

def Cursor.wf (c : Cursor) : Prop :=
  c.source.length < 2 ^ 32 ∧ Bytes c.source ∧ c.seqno < 2 ^ 64

/-- The first serialization loop: every cursor source, length-prefixed. -/
def putCursorSources : List Cursor → List Nat
  | [] => []
  | c :: rest => putLengthPrefixedSlice c.source ++ putCursorSources rest

/-- The second serialization loop: every cursor seqno, as a varint. -/
def putCursorSeqnos : List Cursor → List Nat
  | [] => []
  | c :: rest => putVarint64 c.seqno ++ putCursorSeqnos rest

/-- The first deserialization loop: `num_cursors` length-prefixed sources. -/
def getSources : Nat → List Nat → Option (List (List Nat) × List Nat)
  | 0, l => some ([], l)
  | n + 1, l =>
    match getLengthPrefixedSlice l with
    | none => none
    | some (src, l1) =>
      match getSources n l1 with
      | none => none
      | some (srcs, l2) => some (src :: srcs, l2)

/-- The second deserialization loop: `num_cursors` varint seqnos. -/
def getSeqnos : Nat → List Nat → Option (List Nat × List Nat)
  | 0, l => some ([], l)
  | n + 1, l =>
    match getVarint64 l with
    | none => none
    | some (v, l1) =>
      match getSeqnos n l1 with
      | none => none
      | some (vs, l2) => some (v :: vs, l2)

theorem getSources_put (cs : List Cursor) (h : ∀ c ∈ cs, c.wf)
    (r : List Nat) :
    getSources cs.length (putCursorSources cs ++ r) =
      some (cs.map Cursor.source, r) := by
  induction cs with
  | nil => simp [getSources, putCursorSources]
  | cons c rest ih =>
    have hc := h c (by simp)
    have hrest : ∀ x ∈ rest, x.wf := fun x hx => h x (by simp [hx])
    simp only [putCursorSources, List.length_cons, List.map_cons,
      List.append_assoc, getSources,
      getLengthPrefixedSlice_put c.source hc.1, ih hrest]

theorem getSeqnos_put (cs : List Cursor) (h : ∀ c ∈ cs, c.wf)
    (r : List Nat) :
    getSeqnos cs.length (putCursorSeqnos cs ++ r) =
      some (cs.map Cursor.seqno, r) := by
  induction cs with
  | nil => simp [getSeqnos, putCursorSeqnos]
  | cons c rest ih =>
    have hc := h c (by simp)
    have hrest : ∀ x ∈ rest, x.wf := fun x hx => h x (by simp [hx])
    simp only [putCursorSeqnos, List.length_cons, List.map_cons,
      List.append_assoc, getSeqnos,
      getVarint64_put c.seqno hc.2.2, ih hrest]

theorem zip_sources_seqnos (cs : List Cursor) :
    List.zipWith Cursor.mk (cs.map Cursor.source) (cs.map Cursor.seqno)
      = cs := by
  induction cs with
  | nil => rfl
  | cons c rest ih => simp [ih]

/-! ### MessageDataAck -/

structure Ack where
  status : Nat
  msgid : List Nat
  seqno : Nat
deriving DecidableEq

def Ack.wf (a : Ack) : Prop :=
  a.status < 2 ^ 8 ∧ a.msgid.length = 16 ∧ Bytes a.msgid ∧
  a.seqno < 2 ^ 64

structure MessageDataAck where
  tenantid : Nat
  acks : List Ack
deriving DecidableEq

def MessageDataAck.wf (m : MessageDataAck) : Prop :=
  m.tenantid < 2 ^ 16 ∧ m.acks.length < 2 ^ 32 ∧ ∀ a ∈ m.acks, a.wf

/-- The per-ack serialization loop of `MessageDataAck::Serialize`. -/
def putAcks : List Ack → List Nat
  | [] => []
  | a :: rest =>
    putFixed8 a.status ++ putBytes a.msgid ++ putVarint64 a.seqno ++
    putAcks rest

/-- The per-ack deserialization loop of `MessageDataAck::DeSerialize`:
status, 16 raw `MsgId` bytes, varint seqno. -/
def getAcks : Nat → List Nat → Option (List Ack × List Nat)
  | 0, l => some ([], l)
  | n + 1, l =>
    match getFixed8 l with
    | none => none
    | some (st, l1) =>
      match getBytes 16 l1 with
      | none => none
      | some (id, l2) =>
        match getVarint64 l2 with
        | none => none
        | some (seqno, l3) =>
          match getAcks n l3 with
          | none => none
          | some (acks, l4) => some (⟨st, id, seqno⟩ :: acks, l4)

theorem getAcks_put (acks : List Ack) (h : ∀ a ∈ acks, a.wf)
    (r : List Nat) :
    getAcks acks.length (putAcks acks ++ r) = some (acks, r) := by
  induction acks with
  | nil => simp [getAcks, putAcks]
  | cons a rest ih =>
    have ha := h a (by simp)
    have hrest : ∀ x ∈ rest, x.wf := fun x hx => h x (by simp [hx])
    have hid : getBytes 16 (putBytes a.msgid ++ (putVarint64 a.seqno ++
        (putAcks rest ++ r))) = some (a.msgid,
          putVarint64 a.seqno ++ (putAcks rest ++ r)) := by
      have := getBytes_put a.msgid (putVarint64 a.seqno ++ (putAcks rest ++ r))
      rwa [ha.2.1] at this
    simp only [putAcks, List.length_cons, List.append_assoc, getAcks,
      getFixed8_put a.status ha.1, hid, getVarint64_put a.seqno ha.2.2.2,
      ih hrest]

/-- `MessageDataAck::Serialize`: the ack count is written as
`static_cast<uint32_t>(acks_.size())`. -/
def MessageDataAck.serialize (m : MessageDataAck) : List Nat :=
  putFixed8 mDataAck ++ putFixed16 m.tenantid ++
  encodeVarint32 (m.acks.length % 2 ^ 32) ++ putAcks m.acks

/-- `MessageDataAck::DeSerialize`. -/
def MessageDataAck.deSerialize (l : List Nat) :
    Option (MessageDataAck × List Nat) :=
  match getFixed8 l with
  | none => none
  | some (_, l1) =>
    match getFixed16 l1 with
    | none => none
    | some (tenant, l2) =>
      match getVarint32 l2 with
      | none => none
      | some (num, l3) =>
        match getAcks num l3 with
        | none => none
        | some (acks, l4) => some (⟨tenant, acks⟩, l4)

theorem MessageDataAck.deSerialize_serialize_data_ack (m : MessageDataAck) (h : m.wf)
    (r : List Nat) :
    MessageDataAck.deSerialize (m.serialize ++ r) = some (m, r) := by
  obtain ⟨h1, h2, h3⟩ := h
  unfold MessageDataAck.deSerialize MessageDataAck.serialize
  simp only [List.append_assoc]
  rw [Nat.mod_eq_of_lt h2]
  simp only [getFixed8_put mDataAck (by decide), getFixed16_put m.tenantid h1,
    getVarint32_put m.acks.length h2, getAcks_put m.acks h3]

/-! ### MessageSubscribe -/

/-- The legacy seqno field: `start_[0].seqno` when any cursor exists,
otherwise `0` (backwards compat; used to be the only seqno). -/
def legacySeqno : List Cursor → Nat
  | [] => 0
  | c :: _ => c.seqno

structure MessageSubscribe where
  tenantid : Nat
  namespace_id : List Nat
  topic_name : List Nat
  sub_id : Nat
  start : List Cursor
deriving DecidableEq

def MessageSubscribe.wf (m : MessageSubscribe) : Prop :=
  m.tenantid < 2 ^ 16 ∧
  m.namespace_id.length < 2 ^ 32 ∧ Bytes m.namespace_id ∧
  m.topic_name.length < 2 ^ 32 ∧ Bytes m.topic_name ∧
  m.sub_id < 2 ^ 64 ∧ m.start.length < 2 ^ 64 ∧ ∀ c ∈ m.start, c.wf

/-- `MessageSubscribe::Serialize`. -/
def MessageSubscribe.serialize (m : MessageSubscribe) : List Nat :=
  messageSerializeBase mSubscribe m.tenantid ++
  putTopicID m.namespace_id m.topic_name ++
  putVarint64 (legacySeqno m.start) ++
  encodeSubscriptionID m.sub_id ++
  putVarint64 m.start.length ++
  putCursorSources m.start ++ putCursorSeqnos m.start

/-- `MessageSubscribe::DeSerialize`; if the cursor count is missing the
old format is assumed and the single legacy seqno becomes a cursor with
an empty source. -/
def MessageSubscribe.deSerialize (l : List Nat) :
    Option (MessageSubscribe × List Nat) :=
  match messageDeSerializeBase l with
  | none => none
  | some (tenant, l1) =>
    match getTopicID l1 with
    | none => none
    | some ((ns, t), l2) =>
      match getVarint64 l2 with
      | none => none
      | some (start_seqno, l3) =>
        match decodeSubscriptionID l3 with
        | none => none
        | some (sub, l4) =>
          match getVarint64 l4 with
          | none => some (⟨tenant, ns, t, sub, [⟨[], start_seqno⟩]⟩, l4)
          | some (num, l5) =>
            match getSources num l5 with
            | none => none
            | some (srcs, l6) =>
              match getSeqnos num l6 with
              | none => none
              | some (seqs, l7) =>
                some (⟨tenant, ns, t, sub,
                  List.zipWith Cursor.mk srcs seqs⟩, l7)

theorem MessageSubscribe.deSerialize_serialize_subscribe (m : MessageSubscribe)
    (h : m.wf) (r : List Nat) :
    MessageSubscribe.deSerialize (m.serialize ++ r) = some (m, r) := by
  obtain ⟨h1, h2, _, h3, _, h4, h5, h6⟩ := h
  unfold MessageSubscribe.deSerialize MessageSubscribe.serialize
  simp only [List.append_assoc]
  have hleg : legacySeqno m.start < 2 ^ 64 := by
    cases hs : m.start with
    | nil => simp [legacySeqno]
    | cons c rest =>
      have := h6 c (by simp [hs])
      simpa [legacySeqno] using this.2.2
  simp only [messageDeSerializeBase_put mSubscribe m.tenantid h1,
    getTopicID_put m.namespace_id m.topic_name h2 h3,
    getVarint64_put (legacySeqno m.start) hleg,
    decodeSubscriptionID_encode m.sub_id h4,
    getVarint64_put m.start.length h5,
    getSources_put m.start h6, getSeqnos_put m.start h6,
    zip_sources_seqnos]

/-! ### MessageSubAck -/

structure MessageSubAck where
  tenantid : Nat
  namespace_id : List Nat
  topic : List Nat
  sub_id : Nat
  cursors : List Cursor
deriving DecidableEq

def MessageSubAck.wf (m : MessageSubAck) : Prop :=
  m.tenantid < 2 ^ 16 ∧
  m.namespace_id.length < 2 ^ 32 ∧ Bytes m.namespace_id ∧
  m.topic.length < 2 ^ 32 ∧ Bytes m.topic ∧
  m.sub_id < 2 ^ 64 ∧ m.cursors.length < 2 ^ 64 ∧ ∀ c ∈ m.cursors, c.wf

/-- `MessageSubAck::Serialize`. -/
def MessageSubAck.serialize (m : MessageSubAck) : List Nat :=
  messageSerializeBase mSubAck m.tenantid ++
  putTopicID m.namespace_id m.topic ++
  encodeSubscriptionID m.sub_id ++
  putVarint64 m.cursors.length ++
  putCursorSources m.cursors ++ putCursorSeqnos m.cursors

/-- `MessageSubAck::DeSerialize`; a missing cursor count leaves the cursor
vector empty (backwards compat). -/
def MessageSubAck.deSerialize (l : List Nat) :
    Option (MessageSubAck × List Nat) :=
  match messageDeSerializeBase l with
  | none => none
  | some (tenant, l1) =>
    match getTopicID l1 with
    | none => none
    | some ((ns, t), l2) =>
      match decodeSubscriptionID l2 with
      | none => none
      | some (sub, l3) =>
        match getVarint64 l3 with
        | none => some (⟨tenant, ns, t, sub, []⟩, l3)
        | some (num, l4) =>
          match getSources num l4 with
          | none => none
          | some (srcs, l5) =>
            match getSeqnos num l5 with
            | none => none
            | some (seqs, l6) =>
              some (⟨tenant, ns, t, sub,
                List.zipWith Cursor.mk srcs seqs⟩, l6)

theorem MessageSubAck.deSerialize_serialize_sub_ack (m : MessageSubAck)
    (h : m.wf) (r : List Nat) :
    MessageSubAck.deSerialize (m.serialize ++ r) = some (m, r) := by
  obtain ⟨h1, h2, _, h3, _, h4, h5, h6⟩ := h
  unfold MessageSubAck.deSerialize MessageSubAck.serialize
  simp only [List.append_assoc]
  simp only [messageDeSerializeBase_put mSubAck m.tenantid h1,
    getTopicID_put m.namespace_id m.topic h2 h3,
    decodeSubscriptionID_encode m.sub_id h4,
    getVarint64_put m.cursors.length h5,
    getSources_put m.cursors h6, getSeqnos_put m.cursors h6,
    zip_sources_seqnos]

/-! ### MessageHeartbeat -/

/-- The per-shard serialization loop: each healthy stream as a varint32. -/
def putShards : List Nat → List Nat
  | [] => []
  | v :: rest => encodeVarint32 v ++ putShards rest

/-- The `while (GetVarint32(in, &shard))` loop: read shards until a parse
fails (in particular at end of input).  The C++ loop terminates because a
successful parse consumes at least one byte, so fuel of the input length
suffices. -/
def getShards : Nat → List Nat → List Nat × List Nat
  | 0, l => ([], l)
  | fuel + 1, l =>
    match getVarint32 l with
    | none => ([], l)
    | some (v, l1) =>
      match getShards fuel l1 with
      | (vs, l2) => (v :: vs, l2)

theorem encodeVarint32_length_pos (v : Nat) :
    1 ≤ (encodeVarint32 v).length := by
  unfold encodeVarint32
  split
  · simp
  · split
    · simp
    · split
      · simp
      · split
        · simp
        · simp

theorem putShards_length_ge (shards : List Nat) :
    shards.length ≤ (putShards shards).length := by
  induction shards with
  | nil => simp [putShards]
  | cons v rest ih =>
    have := encodeVarint32_length_pos v
    simp only [putShards, List.length_cons, List.length_append]
    omega

theorem getShards_put (shards : List Nat) (h : ∀ v ∈ shards, v < 2 ^ 32) :
    ∀ fuel, shards.length ≤ fuel →
    getShards fuel (putShards shards) = (shards, []) := by
  induction shards with
  | nil =>
    intro fuel _
    cases fuel with
    | zero => rfl
    | succ n => simp [getShards, putShards, getVarint32, getVarintLoop]
  | cons v rest ih =>
    intro fuel hfuel
    cases fuel with
    | zero => simp at hfuel
    | succ n =>
      have hv := h v (by simp)
      have hrest : ∀ x ∈ rest, x < 2 ^ 32 := fun x hx => h x (by simp [hx])
      have henc : putShards (v :: rest) = encodeVarint32 v ++ putShards rest :=
        rfl
      simp only [getShards, henc, getVarint32_put v hv,
        ih hrest n (by simpa using hfuel)]

structure MessageHeartbeat where
  tenantid : Nat
  /-- Milliseconds since epoch of the source timestamp. -/
  timestamp_ms : Nat
  healthy_streams : List Nat
deriving DecidableEq

def MessageHeartbeat.wf (m : MessageHeartbeat) : Prop :=
  m.tenantid < 2 ^ 16 ∧ m.timestamp_ms < 2 ^ 64 ∧
  (∀ v ∈ m.healthy_streams, v < 2 ^ 32) ∧
  List.Chain' (· < ·) m.healthy_streams

/-- `MessageHeartbeat::Serialize`: tag, tenant, 8-byte source-ms timestamp,
then varint32 shard IDs until the end of the message. -/
def MessageHeartbeat.serialize (m : MessageHeartbeat) : List Nat :=
  putFixed8 mHeartbeat ++ putFixed16 m.tenantid ++
  putFixed64 m.timestamp_ms ++ putShards m.healthy_streams

/-- `MessageHeartbeat::DeSerialize`: an empty body after the tenant is
accepted for backwards compatibility (fields left default). -/
def MessageHeartbeat.deSerialize (l : List Nat) :
    Option (MessageHeartbeat × List Nat) :=
  match getFixed8 l with
  | none => none
  | some (_, l1) =>
    match getFixed16 l1 with
    | none => none
    | some (tenant, l2) =>
      if l2.length = 0 then some (⟨tenant, 0, []⟩, [])
      else
        match getFixed64 l2 with
        | none => none
        | some (ms, l3) =>
          match getShards l3.length l3 with
          | (shards, l4) => some (⟨tenant, ms, shards⟩, l4)

/-- Round-trip for `MessageHeartbeat` on an exact message buffer (the
shard loop consumes until the end of input, so no trailing slack is
allowed). -/
theorem MessageHeartbeat.deSerialize_serialize_heartbeat (m : MessageHeartbeat)
    (h : m.wf) :
    MessageHeartbeat.deSerialize m.serialize = some (m, []) := by
  obtain ⟨h1, h2, h3, _⟩ := h
  unfold MessageHeartbeat.deSerialize MessageHeartbeat.serialize
  simp only [List.append_assoc]
  rw [show putFixed8 mHeartbeat ++ (putFixed16 m.tenantid ++
    (putFixed64 m.timestamp_ms ++ putShards m.healthy_streams)) =
    putFixed8 mHeartbeat ++ ((putFixed16 m.tenantid ++
    (putFixed64 m.timestamp_ms ++ putShards m.healthy_streams)) ++ []) by
      simp]
  simp only [getFixed8_put mHeartbeat (by decide)]
  rw [show (putFixed16 m.tenantid ++
    (putFixed64 m.timestamp_ms ++ putShards m.healthy_streams)) ++ [] =
    putFixed16 m.tenantid ++
    ((putFixed64 m.timestamp_ms ++ putShards m.healthy_streams) ++ []) by
      simp]
  simp only [getFixed16_put m.tenantid h1]
  have hne : ((putFixed64 m.timestamp_ms ++ putShards m.healthy_streams)
      ++ ([] : List Nat)).length ≠ 0 := by
    simp [putFixed64]
  rw [if_neg hne]
  rw [show (putFixed64 m.timestamp_ms ++ putShards m.healthy_streams) ++
    ([] : List Nat) = putFixed64 m.timestamp_ms ++
    (putShards m.healthy_streams ++ []) by simp]
  simp only [getFixed64_put m.timestamp_ms h2]
  rw [List.append_nil]
  rw [getShards_put m.healthy_streams h3 _ (putShards_length_ge _)]

/-! ### MessageHeartbeatDelta -/

/-- The count-bounded shard loop of `MessageHeartbeatDelta::DeSerialize`. -/
def getNShards : Nat → List Nat → Option (List Nat × List Nat)
  | 0, l => some ([], l)
  | n + 1, l =>
    match getVarint32 l with
    | none => none
    | some (v, l1) =>
      match getNShards n l1 with
      | none => none
      | some (vs, l2) => some (v :: vs, l2)

theorem getNShards_put (shards : List Nat) (h : ∀ v ∈ shards, v < 2 ^ 32)
    (r : List Nat) :
    getNShards shards.length (putShards shards ++ r) = some (shards, r) := by
  induction shards with
  | nil => simp [getNShards, putShards]
  | cons v rest ih =>
    have hv := h v (by simp)
    have hrest : ∀ x ∈ rest, x < 2 ^ 32 := fun x hx => h x (by simp [hx])
    simp only [putShards, List.length_cons, List.append_assoc, getNShards,
      getVarint32_put v hv, ih hrest]

structure MessageHeartbeatDelta where
  tenantid : Nat
  timestamp_ms : Nat
  added_healthy : List Nat
  removed_healthy : List Nat
deriving DecidableEq

def MessageHeartbeatDelta.wf (m : MessageHeartbeatDelta) : Prop :=
  m.tenantid < 2 ^ 16 ∧ m.timestamp_ms < 2 ^ 64 ∧
  m.added_healthy.length < 2 ^ 64 ∧
  (∀ v ∈ m.added_healthy, v < 2 ^ 32) ∧
  List.Chain' (· < ·) m.added_healthy ∧
  m.removed_healthy.length < 2 ^ 64 ∧
  (∀ v ∈ m.removed_healthy, v < 2 ^ 32) ∧
  List.Chain' (· < ·) m.removed_healthy

/-- `MessageHeartbeatDelta::Serialize`. -/
def MessageHeartbeatDelta.serialize (m : MessageHeartbeatDelta) : List Nat :=
  putFixed8 mHeartbeatDelta ++ putFixed16 m.tenantid ++
  putFixed64 m.timestamp_ms ++
  putVarint64 m.added_healthy.length ++ putShards m.added_healthy ++
  putVarint64 m.removed_healthy.length ++ putShards m.removed_healthy

/-- `MessageHeartbeatDelta::DeSerialize`. -/
def MessageHeartbeatDelta.deSerialize (l : List Nat) :
    Option (MessageHeartbeatDelta × List Nat) :=
  match getFixed8 l with
  | none => none
  | some (_, l1) =>
    match getFixed16 l1 with
    | none => none
    | some (tenant, l2) =>
      match getFixed64 l2 with
      | none => none
      | some (ms, l3) =>
        match getVarint64 l3 with
        | none => none
        | some (num_added, l4) =>
          match getNShards num_added l4 with
          | none => none
          | some (added, l5) =>
            match getVarint64 l5 with
            | none => none
            | some (num_removed, l6) =>
              match getNShards num_removed l6 with
              | none => none
              | some (removed, l7) =>
                some (⟨tenant, ms, added, removed⟩, l7)

theorem MessageHeartbeatDelta.deSerialize_serialize_heartbeat_delta
    (m : MessageHeartbeatDelta) (h : m.wf) (r : List Nat) :
    MessageHeartbeatDelta.deSerialize (m.serialize ++ r) = some (m, r) := by
  obtain ⟨h1, h2, h3, h4, _, h5, h6, _⟩ := h
  unfold MessageHeartbeatDelta.deSerialize MessageHeartbeatDelta.serialize
  simp only [List.append_assoc]
  simp only [getFixed8_put mHeartbeatDelta (by decide),
    getFixed16_put m.tenantid h1, getFixed64_put m.timestamp_ms h2,
    getVarint64_put m.added_healthy.length h3,
    getNShards_put m.added_healthy h4,
    getVarint64_put m.removed_healthy.length h5,
    getNShards_put m.removed_healthy h6]

/-! ### MessageIntroduction -/

/-- The property-map serialization loop: each key and value
length-prefixed.  The C++ container is a map iterated in its own order;
it is modelled as the association list in iteration order (keys distinct,
see `MessageIntroduction.wf`). -/
def putProps : List (List Nat × List Nat) → List Nat
  | [] => []
  | (k, v) :: rest =>
    putLengthPrefixedSlice k ++ putLengthPrefixedSlice v ++ putProps rest

/-- The property-map deserialization loop. -/
def getProps : Nat → List Nat → Option (List (List Nat × List Nat) × List Nat)
  | 0, l => some ([], l)
  | n + 1, l =>
    match getLengthPrefixedSlice l with
    | none => none
    | some (k, l1) =>
      match getLengthPrefixedSlice l1 with
      | none => none
      | some (v, l2) =>
        match getProps n l2 with
        | none => none
        | some (ps, l3) => some ((k, v) :: ps, l3)

def PropsWf (ps : List (List Nat × List Nat)) : Prop :=
  ps.length < 2 ^ 64 ∧ (ps.map Prod.fst).Nodup ∧
  ∀ p ∈ ps, p.1.length < 2 ^ 32 ∧ Bytes p.1 ∧ p.2.length < 2 ^ 32 ∧ Bytes p.2

theorem getProps_put (ps : List (List Nat × List Nat))
    (h : ∀ p ∈ ps, p.1.length < 2 ^ 32 ∧ Bytes p.1 ∧ p.2.length < 2 ^ 32 ∧
      Bytes p.2) (r : List Nat) :
    getProps ps.length (putProps ps ++ r) = some (ps, r) := by
  induction ps with
  | nil => simp [getProps, putProps]
  | cons p rest ih =>
    have hp := h p (by simp)
    have hrest : ∀ x ∈ rest, x.1.length < 2 ^ 32 ∧ Bytes x.1 ∧
        x.2.length < 2 ^ 32 ∧ Bytes x.2 := fun x hx => h x (by simp [hx])
    obtain ⟨hk, _, hv, _⟩ := hp
    cases p with
    | mk k v =>
      simp only [putProps, List.length_cons, List.append_assoc, getProps,
        getLengthPrefixedSlice_put k hk, getLengthPrefixedSlice_put v hv,
        ih hrest]

structure MessageIntroduction where
  tenantid : Nat
  stream_properties : List (List Nat × List Nat)
  client_properties : List (List Nat × List Nat)
deriving DecidableEq

def MessageIntroduction.wf (m : MessageIntroduction) : Prop :=
  m.tenantid < 2 ^ 16 ∧ PropsWf m.stream_properties ∧
  PropsWf m.client_properties

/-- `MessageIntroduction::Serialize`. -/
def MessageIntroduction.serialize (m : MessageIntroduction) : List Nat :=
  messageSerializeBase mIntroduction m.tenantid ++
  putVarint64 m.stream_properties.length ++ putProps m.stream_properties ++
  putVarint64 m.client_properties.length ++ putProps m.client_properties

/-- `MessageIntroduction::DeSerialize`. -/
def MessageIntroduction.deSerialize (l : List Nat) :
    Option (MessageIntroduction × List Nat) :=
  match messageDeSerializeBase l with
  | none => none
  | some (tenant, l1) =>
    match getVarint64 l1 with
    | none => none
    | some (len_stream, l2) =>
      match getProps len_stream l2 with
      | none => none
      | some (sprops, l3) =>
        match getVarint64 l3 with
        | none => none
        | some (len_client, l4) =>
          match getProps len_client l4 with
          | none => none
          | some (cprops, l5) => some (⟨tenant, sprops, cprops⟩, l5)

theorem MessageIntroduction.deSerialize_serialize_introduction (m : MessageIntroduction)
    (h : m.wf) (r : List Nat) :
    MessageIntroduction.deSerialize (m.serialize ++ r) = some (m, r) := by
  obtain ⟨h1, ⟨hs1, _, hs3⟩, ⟨hc1, _, hc3⟩⟩ := h
  unfold MessageIntroduction.deSerialize MessageIntroduction.serialize
  simp only [List.append_assoc]
  simp only [messageDeSerializeBase_put mIntroduction m.tenantid h1,
    getVarint64_put m.stream_properties.length hs1,
    getProps_put m.stream_properties hs3,
    getVarint64_put m.client_properties.length hc1,
    getProps_put m.client_properties hc3]

/-! ### MessageDeliverBatch -/

/-- The batch serialization loop: each `MessageDeliverData` serialized into
its own buffer, written length-prefixed. -/
def putBatch : List MessageDeliverData → List Nat
  | [] => []
  | msg :: rest =>
    putLengthPrefixedSlice msg.serialize ++ putBatch rest

/-- The batch deserialization loop: read a length-prefixed sub-buffer and
deserialize one `MessageDeliverData` from it (surplus bytes of the
sub-buffer are ignored). -/
def getBatch : Nat → List Nat → Option (List MessageDeliverData × List Nat)
  | 0, l => some ([], l)
  | n + 1, l =>
    match getLengthPrefixedSlice l with
    | none => none
    | some (one, l1) =>
      match MessageDeliverData.deSerialize one with
      | none => none
      | some (msg, _) =>
        match getBatch n l1 with
        | none => none
        | some (msgs, l2) => some (msg :: msgs, l2)

def BatchWf (msgs : List MessageDeliverData) : Prop :=
  ∀ msg ∈ msgs, msg.wf ∧ msg.serialize.length < 2 ^ 32

theorem getBatch_put (msgs : List MessageDeliverData) (h : BatchWf msgs)
    (r : List Nat) :
    getBatch msgs.length (putBatch msgs ++ r) = some (msgs, r) := by
  induction msgs with
  | nil => simp [getBatch, putBatch]
  | cons msg rest ih =>
    have hm := h msg (by simp)
    have hrest : BatchWf rest := fun x hx => h x (by simp [hx])
    have hsub : MessageDeliverData.deSerialize msg.serialize =
        some (msg, []) := by
      have := MessageDeliverData.deSerialize_serialize_deliver_data msg hm.1 []
      simpa using this
    simp only [putBatch, List.length_cons, List.append_assoc, getBatch,
      getLengthPrefixedSlice_put msg.serialize hm.2, hsub, ih hrest]

structure MessageDeliverBatch where
  tenantid : Nat
  messages : List MessageDeliverData
deriving DecidableEq

def MessageDeliverBatch.wf (m : MessageDeliverBatch) : Prop :=
  m.tenantid < 2 ^ 16 ∧ m.messages.length < 2 ^ 64 ∧ BatchWf m.messages

/-- `MessageDeliverBatch::Serialize`. -/
def MessageDeliverBatch.serialize (m : MessageDeliverBatch) : List Nat :=
  messageSerializeBase mDeliverBatch m.tenantid ++
  putVarint64 m.messages.length ++ putBatch m.messages

/-- `MessageDeliverBatch::DeSerialize`. -/
def MessageDeliverBatch.deSerialize (l : List Nat) :
    Option (MessageDeliverBatch × List Nat) :=
  match messageDeSerializeBase l with
  | none => none
  | some (tenant, l1) =>
    match getVarint64 l1 with
    | none => none
    | some (len, l2) =>
      match getBatch len l2 with
      | none => none
      | some (msgs, l3) => some (⟨tenant, msgs⟩, l3)

theorem MessageDeliverBatch.deSerialize_serialize_deliver_batch (m : MessageDeliverBatch)
    (h : m.wf) (r : List Nat) :
    MessageDeliverBatch.deSerialize (m.serialize ++ r) = some (m, r) := by
  obtain ⟨h1, h2, h3⟩ := h
  unfold MessageDeliverBatch.deSerialize MessageDeliverBatch.serialize
  simp only [List.append_assoc]
  simp only [messageDeSerializeBase_put mDeliverBatch m.tenantid h1,
    getVarint64_put m.messages.length h2, getBatch_put m.messages h3]

/-! ### Message::CreateNewInstance (the codec entry point) -/

/-- The sum of all message kinds handled by `Message::CreateNewInstance`
(the deprecated `mMetadata` has no case there). -/
inductive WireMessage
  | ping (m : MessagePing)
  | data (m : MessageData)
  | dataAck (m : MessageDataAck)
  | gap (m : MessageGap)
  | goodbye (m : MessageGoodbye)
  | subscribe (m : MessageSubscribe)
  | unsubscribe (m : MessageUnsubscribe)
  | deliverGap (m : MessageDeliverGap)
  | deliverData (m : MessageDeliverData)
  | findTailSeqno (m : MessageFindTailSeqno)
  | tailSeqno (m : MessageTailSeqno)
  | deliverBatch (m : MessageDeliverBatch)
  | heartbeat (m : MessageHeartbeat)
  | heartbeatDelta (m : MessageHeartbeatDelta)
  | backlogQuery (m : MessageBacklogQuery)
  | backlogFill (m : MessageBacklogFill)
  | introduction (m : MessageIntroduction)
  | subAck (m : MessageSubAck)
deriving DecidableEq

/-- A message is well-formed when its fields respect the machine widths
they are serialized at (and the structural invariants the serializers
assert: `seqno ≥ prev_seqno`, sorted heartbeat shards, 16-byte MsgIds). -/
def WireMessage.wf : WireMessage → Prop
  | ping m => m.wf
  | data m => m.wf
  | dataAck m => m.wf
  | gap m => m.wf
  | goodbye m => m.wf
  | subscribe m => m.wf
  | unsubscribe m => m.wf
  | deliverGap m => m.wf
  | deliverData m => m.wf
  | findTailSeqno m => m.wf
  | tailSeqno m => m.wf
  | deliverBatch m => m.wf
  | heartbeat m => m.wf
  | heartbeatDelta m => m.wf
  | backlogQuery m => m.wf
  | backlogFill m => m.wf
  | introduction m => m.wf
  | subAck m => m.wf

def WireMessage.serialize : WireMessage → List Nat
  | ping m => m.serialize
  | data m => m.serialize
  | dataAck m => m.serialize
  | gap m => m.serialize
  | goodbye m => m.serialize
  | subscribe m => m.serialize
  | unsubscribe m => m.serialize
  | deliverGap m => m.serialize
  | deliverData m => m.serialize
  | findTailSeqno m => m.serialize
  | tailSeqno m => m.serialize
  | deliverBatch m => m.serialize
  | heartbeat m => m.serialize
  | heartbeatDelta m => m.serialize
  | backlogQuery m => m.serialize
  | backlogFill m => m.serialize
  | introduction m => m.serialize
  | subAck m => m.serialize

/-- `Message::CreateNewInstance`: peek the type tag (`ReadMessageType`
does not consume it), then run the matching per-type `DeSerialize` on the
whole buffer.  Returns `nullptr` (here `none`) on parse failure or an
unknown tag. -/
def createNewInstance (l : List Nat) : Option WireMessage :=
  match l.head? with
  | none => none
  | some tag =>
    if tag = mPing then
      match MessagePing.deSerialize l with
      | some (m, _) => some (.ping m)
      | none => none
    else if tag = mPublish ∨ tag = mDeliver then
      match MessageData.deSerialize l with
      | some (m, _) => some (.data m)
      | none => none
    else if tag = mDataAck then
      match MessageDataAck.deSerialize l with
      | some (m, _) => some (.dataAck m)
      | none => none
    else if tag = mGap then
      match MessageGap.deSerialize l with
      | some (m, _) => some (.gap m)
      | none => none
    else if tag = mGoodbye then
      match MessageGoodbye.deSerialize l with
      | some (m, _) => some (.goodbye m)
      | none => none
    else if tag = mSubscribe then
      match MessageSubscribe.deSerialize l with
      | some (m, _) => some (.subscribe m)
      | none => none
    else if tag = mUnsubscribe then
      match MessageUnsubscribe.deSerialize l with
      | some (m, _) => some (.unsubscribe m)
      | none => none
    else if tag = mDeliverGap then
      match MessageDeliverGap.deSerialize l with
      | some (m, _) => some (.deliverGap m)
      | none => none
    else if tag = mDeliverData then
      match MessageDeliverData.deSerialize l with
      | some (m, _) => some (.deliverData m)
      | none => none
    else if tag = mFindTailSeqno then
      match MessageFindTailSeqno.deSerialize l with
      | some (m, _) => some (.findTailSeqno m)
      | none => none
    else if tag = mTailSeqno then
      match MessageTailSeqno.deSerialize l with
      | some (m, _) => some (.tailSeqno m)
      | none => none
    else if tag = mDeliverBatch then
      match MessageDeliverBatch.deSerialize l with
      | some (m, _) => some (.deliverBatch m)
      | none => none
    else if tag = mHeartbeat then
      match MessageHeartbeat.deSerialize l with
      | some (m, _) => some (.heartbeat m)
      | none => none
    else if tag = mHeartbeatDelta then
      match MessageHeartbeatDelta.deSerialize l with
      | some (m, _) => some (.heartbeatDelta m)
      | none => none
    else if tag = mBacklogQuery then
      match MessageBacklogQuery.deSerialize l with
      | some (m, _) => some (.backlogQuery m)
      | none => none
    else if tag = mBacklogFill then
      match MessageBacklogFill.deSerialize l with
      | some (m, _) => some (.backlogFill m)
      | none => none
    else if tag = mIntroduction then
      match MessageIntroduction.deSerialize l with
      | some (m, _) => some (.introduction m)
      | none => none
    else if tag = mSubAck then
      match MessageSubAck.deSerialize l with
      | some (m, _) => some (.subAck m)
      | none => none
    else none

/-- C1: for every well-formed message of every kind, deserialising the
serialised bytes through `Message::CreateNewInstance` (which dispatches on
the type tag to the per-type `DeSerialize`) reconstructs the message. -/
theorem deserialize_serialize_roundtrip (m : WireMessage) (h : m.wf) :
    createNewInstance m.serialize = some m := by
  cases m with
  | ping m =>
    have h1 : MessagePing.deSerialize (MessagePing.serialize m) = some (m, []) := by
      simpa using MessagePing.deSerialize_serialize_ping m h []
    have hh : (MessagePing.serialize m).head? = some mPing := rfl
    simp [WireMessage.serialize, createNewInstance, hh, h1,
      mPing, mPublish, mDataAck, mGap, mDeliver, mGoodbye, mSubscribe,
      mUnsubscribe, mDeliverGap, mDeliverData, mFindTailSeqno, mTailSeqno,
      mDeliverBatch, mHeartbeat, mHeartbeatDelta, mBacklogQuery,
      mBacklogFill, mIntroduction, mSubAck]
  | dataAck m =>
    have h1 : MessageDataAck.deSerialize (MessageDataAck.serialize m) = some (m, []) := by
      simpa using MessageDataAck.deSerialize_serialize_data_ack m h []
    have hh : (MessageDataAck.serialize m).head? = some mDataAck := rfl
    simp [WireMessage.serialize, createNewInstance, hh, h1,
      mPing, mPublish, mDataAck, mGap, mDeliver, mGoodbye, mSubscribe,
      mUnsubscribe, mDeliverGap, mDeliverData, mFindTailSeqno, mTailSeqno,
      mDeliverBatch, mHeartbeat, mHeartbeatDelta, mBacklogQuery,
      mBacklogFill, mIntroduction, mSubAck]
  | gap m =>
    have h1 : MessageGap.deSerialize (MessageGap.serialize m) = some (m, []) := by
      simpa using MessageGap.deSerialize_serialize_gap m h []
    have hh : (MessageGap.serialize m).head? = some mGap := rfl
    simp [WireMessage.serialize, createNewInstance, hh, h1,
      mPing, mPublish, mDataAck, mGap, mDeliver, mGoodbye, mSubscribe,
      mUnsubscribe, mDeliverGap, mDeliverData, mFindTailSeqno, mTailSeqno,
      mDeliverBatch, mHeartbeat, mHeartbeatDelta, mBacklogQuery,
      mBacklogFill, mIntroduction, mSubAck]
  | goodbye m =>
    have h1 : MessageGoodbye.deSerialize (MessageGoodbye.serialize m) = some (m, []) := by
      simpa using MessageGoodbye.deSerialize_serialize_goodbye m h []
    have hh : (MessageGoodbye.serialize m).head? = some mGoodbye := rfl
    simp [WireMessage.serialize, createNewInstance, hh, h1,
      mPing, mPublish, mDataAck, mGap, mDeliver, mGoodbye, mSubscribe,
      mUnsubscribe, mDeliverGap, mDeliverData, mFindTailSeqno, mTailSeqno,
      mDeliverBatch, mHeartbeat, mHeartbeatDelta, mBacklogQuery,
      mBacklogFill, mIntroduction, mSubAck]
  | subscribe m =>
    have h1 : MessageSubscribe.deSerialize (MessageSubscribe.serialize m) = some (m, []) := by
      simpa using MessageSubscribe.deSerialize_serialize_subscribe m h []
    have hh : (MessageSubscribe.serialize m).head? = some mSubscribe := rfl
    simp [WireMessage.serialize, createNewInstance, hh, h1,
      mPing, mPublish, mDataAck, mGap, mDeliver, mGoodbye, mSubscribe,
      mUnsubscribe, mDeliverGap, mDeliverData, mFindTailSeqno, mTailSeqno,
      mDeliverBatch, mHeartbeat, mHeartbeatDelta, mBacklogQuery,
      mBacklogFill, mIntroduction, mSubAck]
  | unsubscribe m =>
    have h1 : MessageUnsubscribe.deSerialize (MessageUnsubscribe.serialize m) = some (m, []) := by
      simpa using MessageUnsubscribe.deSerialize_serialize_unsubscribe m h []
    have hh : (MessageUnsubscribe.serialize m).head? = some mUnsubscribe := rfl
    simp [WireMessage.serialize, createNewInstance, hh, h1,
      mPing, mPublish, mDataAck, mGap, mDeliver, mGoodbye, mSubscribe,
      mUnsubscribe, mDeliverGap, mDeliverData, mFindTailSeqno, mTailSeqno,
      mDeliverBatch, mHeartbeat, mHeartbeatDelta, mBacklogQuery,
      mBacklogFill, mIntroduction, mSubAck]
  | deliverGap m =>
    have h1 : MessageDeliverGap.deSerialize (MessageDeliverGap.serialize m) = some (m, []) := by
      simpa using MessageDeliverGap.deSerialize_serialize_deliver_gap m h []
    have hh : (MessageDeliverGap.serialize m).head? = some mDeliverGap := rfl
    simp [WireMessage.serialize, createNewInstance, hh, h1,
      mPing, mPublish, mDataAck, mGap, mDeliver, mGoodbye, mSubscribe,
      mUnsubscribe, mDeliverGap, mDeliverData, mFindTailSeqno, mTailSeqno,
      mDeliverBatch, mHeartbeat, mHeartbeatDelta, mBacklogQuery,
      mBacklogFill, mIntroduction, mSubAck]
  | deliverData m =>
    have h1 : MessageDeliverData.deSerialize (MessageDeliverData.serialize m) = some (m, []) := by
      simpa using MessageDeliverData.deSerialize_serialize_deliver_data m h []
    have hh : (MessageDeliverData.serialize m).head? = some mDeliverData := rfl
    simp [WireMessage.serialize, createNewInstance, hh, h1,
      mPing, mPublish, mDataAck, mGap, mDeliver, mGoodbye, mSubscribe,
      mUnsubscribe, mDeliverGap, mDeliverData, mFindTailSeqno, mTailSeqno,
      mDeliverBatch, mHeartbeat, mHeartbeatDelta, mBacklogQuery,
      mBacklogFill, mIntroduction, mSubAck]
  | findTailSeqno m =>
    have h1 : MessageFindTailSeqno.deSerialize (MessageFindTailSeqno.serialize m) = some (m, []) := by
      simpa using MessageFindTailSeqno.deSerialize_serialize_find_tail m h []
    have hh : (MessageFindTailSeqno.serialize m).head? = some mFindTailSeqno := rfl
    simp [WireMessage.serialize, createNewInstance, hh, h1,
      mPing, mPublish, mDataAck, mGap, mDeliver, mGoodbye, mSubscribe,
      mUnsubscribe, mDeliverGap, mDeliverData, mFindTailSeqno, mTailSeqno,
      mDeliverBatch, mHeartbeat, mHeartbeatDelta, mBacklogQuery,
      mBacklogFill, mIntroduction, mSubAck]
  | tailSeqno m =>
    have h1 : MessageTailSeqno.deSerialize (MessageTailSeqno.serialize m) = some (m, []) := by
      simpa using MessageTailSeqno.deSerialize_serialize_tail_seqno m h []
    have hh : (MessageTailSeqno.serialize m).head? = some mTailSeqno := rfl
    simp [WireMessage.serialize, createNewInstance, hh, h1,
      mPing, mPublish, mDataAck, mGap, mDeliver, mGoodbye, mSubscribe,
      mUnsubscribe, mDeliverGap, mDeliverData, mFindTailSeqno, mTailSeqno,
      mDeliverBatch, mHeartbeat, mHeartbeatDelta, mBacklogQuery,
      mBacklogFill, mIntroduction, mSubAck]
  | deliverBatch m =>
    have h1 : MessageDeliverBatch.deSerialize (MessageDeliverBatch.serialize m) = some (m, []) := by
      simpa using MessageDeliverBatch.deSerialize_serialize_deliver_batch m h []
    have hh : (MessageDeliverBatch.serialize m).head? = some mDeliverBatch := rfl
    simp [WireMessage.serialize, createNewInstance, hh, h1,
      mPing, mPublish, mDataAck, mGap, mDeliver, mGoodbye, mSubscribe,
      mUnsubscribe, mDeliverGap, mDeliverData, mFindTailSeqno, mTailSeqno,
      mDeliverBatch, mHeartbeat, mHeartbeatDelta, mBacklogQuery,
      mBacklogFill, mIntroduction, mSubAck]
  | heartbeatDelta m =>
    have h1 : MessageHeartbeatDelta.deSerialize (MessageHeartbeatDelta.serialize m) = some (m, []) := by
      simpa using MessageHeartbeatDelta.deSerialize_serialize_heartbeat_delta m h []
    have hh : (MessageHeartbeatDelta.serialize m).head? = some mHeartbeatDelta := rfl
    simp [WireMessage.serialize, createNewInstance, hh, h1,
      mPing, mPublish, mDataAck, mGap, mDeliver, mGoodbye, mSubscribe,
      mUnsubscribe, mDeliverGap, mDeliverData, mFindTailSeqno, mTailSeqno,
      mDeliverBatch, mHeartbeat, mHeartbeatDelta, mBacklogQuery,
      mBacklogFill, mIntroduction, mSubAck]
  | backlogQuery m =>
    have h1 : MessageBacklogQuery.deSerialize (MessageBacklogQuery.serialize m) = some (m, []) := by
      simpa using MessageBacklogQuery.deSerialize_serialize_backlog_query m h []
    have hh : (MessageBacklogQuery.serialize m).head? = some mBacklogQuery := rfl
    simp [WireMessage.serialize, createNewInstance, hh, h1,
      mPing, mPublish, mDataAck, mGap, mDeliver, mGoodbye, mSubscribe,
      mUnsubscribe, mDeliverGap, mDeliverData, mFindTailSeqno, mTailSeqno,
      mDeliverBatch, mHeartbeat, mHeartbeatDelta, mBacklogQuery,
      mBacklogFill, mIntroduction, mSubAck]
  | backlogFill m =>
    have h1 : MessageBacklogFill.deSerialize (MessageBacklogFill.serialize m) = some (m, []) := by
      simpa using MessageBacklogFill.deSerialize_serialize_backlog_fill m h []
    have hh : (MessageBacklogFill.serialize m).head? = some mBacklogFill := rfl
    simp [WireMessage.serialize, createNewInstance, hh, h1,
      mPing, mPublish, mDataAck, mGap, mDeliver, mGoodbye, mSubscribe,
      mUnsubscribe, mDeliverGap, mDeliverData, mFindTailSeqno, mTailSeqno,
      mDeliverBatch, mHeartbeat, mHeartbeatDelta, mBacklogQuery,
      mBacklogFill, mIntroduction, mSubAck]
  | introduction m =>
    have h1 : MessageIntroduction.deSerialize (MessageIntroduction.serialize m) = some (m, []) := by
      simpa using MessageIntroduction.deSerialize_serialize_introduction m h []
    have hh : (MessageIntroduction.serialize m).head? = some mIntroduction := rfl
    simp [WireMessage.serialize, createNewInstance, hh, h1,
      mPing, mPublish, mDataAck, mGap, mDeliver, mGoodbye, mSubscribe,
      mUnsubscribe, mDeliverGap, mDeliverData, mFindTailSeqno, mTailSeqno,
      mDeliverBatch, mHeartbeat, mHeartbeatDelta, mBacklogQuery,
      mBacklogFill, mIntroduction, mSubAck]
  | subAck m =>
    have h1 : MessageSubAck.deSerialize (MessageSubAck.serialize m) = some (m, []) := by
      simpa using MessageSubAck.deSerialize_serialize_sub_ack m h []
    have hh : (MessageSubAck.serialize m).head? = some mSubAck := rfl
    simp [WireMessage.serialize, createNewInstance, hh, h1,
      mPing, mPublish, mDataAck, mGap, mDeliver, mGoodbye, mSubscribe,
      mUnsubscribe, mDeliverGap, mDeliverData, mFindTailSeqno, mTailSeqno,
      mDeliverBatch, mHeartbeat, mHeartbeatDelta, mBacklogQuery,
      mBacklogFill, mIntroduction, mSubAck]
  | heartbeat m =>
    have h1 : MessageHeartbeat.deSerialize (MessageHeartbeat.serialize m) =
        some (m, []) := MessageHeartbeat.deSerialize_serialize_heartbeat m h
    have hh : (MessageHeartbeat.serialize m).head? = some mHeartbeat := rfl
    simp [WireMessage.serialize, createNewInstance, hh, h1,
      mPing, mPublish, mDataAck, mGap, mDeliver, mGoodbye, mSubscribe,
      mUnsubscribe, mDeliverGap, mDeliverData, mFindTailSeqno, mTailSeqno,
      mDeliverBatch, mHeartbeat, mHeartbeatDelta, mBacklogQuery,
      mBacklogFill, mIntroduction, mSubAck]
  | data m =>
    have h1 : MessageData.deSerialize (MessageData.serialize m) =
        some (m, []) := by
      simpa using MessageData.deSerialize_serialize_data m h []
    obtain ⟨htag, -, -, -⟩ := h
    have htag8 : m.mtype < 256 := by
      rcases htag with h2 | h2 <;> simp [h2, mPublish, mDeliver]
    have hh : (MessageData.serialize m).head? = some m.mtype := by
      unfold MessageData.serialize putFixed8
      simp [Nat.mod_eq_of_lt htag8]
    rcases htag with h2 | h2 <;>
      simp [WireMessage.serialize, createNewInstance, hh, h1, h2,
        mPing, mPublish, mDataAck, mGap, mDeliver, mGoodbye, mSubscribe,
      mUnsubscribe, mDeliverGap, mDeliverData, mFindTailSeqno, mTailSeqno,
      mDeliverBatch, mHeartbeat, mHeartbeatDelta, mBacklogQuery,
      mBacklogFill, mIntroduction, mSubAck]

/-! Decidability of the well-formedness predicates (used to evaluate
concrete witnesses). -/

instance (m : MessagePing) : Decidable m.wf := by
  unfold MessagePing.wf; infer_instance

instance (m : MessageGoodbye) : Decidable m.wf := by
  unfold MessageGoodbye.wf; infer_instance

instance (m : MessageGap) : Decidable m.wf := by
  unfold MessageGap.wf; infer_instance

instance (m : MessageFindTailSeqno) : Decidable m.wf := by
  unfold MessageFindTailSeqno.wf; infer_instance

instance (m : MessageTailSeqno) : Decidable m.wf := by
  unfold MessageTailSeqno.wf; infer_instance

instance (m : MessageUnsubscribe) : Decidable m.wf := by
  unfold MessageUnsubscribe.wf; infer_instance

instance (b : StorageBody) : Decidable b.wf := by
  unfold StorageBody.wf; infer_instance

instance (m : MessageData) : Decidable m.wf := by
  unfold MessageData.wf; infer_instance

instance (m : MessageDeliver) : Decidable m.wf := by
  unfold MessageDeliver.wf; infer_instance

instance (m : MessageDeliverGap) : Decidable m.wf := by
  unfold MessageDeliverGap.wf; infer_instance

instance (m : MessageDeliverData) : Decidable m.wf := by
  unfold MessageDeliverData.wf; infer_instance

instance (m : MessageBacklogQuery) : Decidable m.wf := by
  unfold MessageBacklogQuery.wf; infer_instance

instance (m : MessageBacklogFill) : Decidable m.wf := by
  unfold MessageBacklogFill.wf; infer_instance

instance (c : Cursor) : Decidable c.wf := by
  unfold Cursor.wf; infer_instance

instance (a : Ack) : Decidable a.wf := by
  unfold Ack.wf; infer_instance

instance (m : MessageDataAck) : Decidable m.wf := by
  unfold MessageDataAck.wf Ack.wf; infer_instance

instance (m : MessageSubscribe) : Decidable m.wf := by
  unfold MessageSubscribe.wf Cursor.wf; infer_instance

instance (m : MessageSubAck) : Decidable m.wf := by
  unfold MessageSubAck.wf Cursor.wf; infer_instance

instance (m : MessageHeartbeat) : Decidable m.wf := by
  unfold MessageHeartbeat.wf; infer_instance

instance (m : MessageHeartbeatDelta) : Decidable m.wf := by
  unfold MessageHeartbeatDelta.wf; infer_instance

instance (ps : List (List Nat × List Nat)) : Decidable (PropsWf ps) := by
  unfold PropsWf; infer_instance

instance (m : MessageIntroduction) : Decidable m.wf := by
  unfold MessageIntroduction.wf; infer_instance

instance (msgs : List MessageDeliverData) : Decidable (BatchWf msgs) := by
  unfold BatchWf MessageDeliverData.wf MessageDeliver.wf; infer_instance

instance (m : MessageDeliverBatch) : Decidable m.wf := by
  unfold MessageDeliverBatch.wf; infer_instance

instance (m : WireMessage) : Decidable m.wf := by
  cases m <;> (unfold WireMessage.wf; infer_instance)

/-- Witness for C1: the round-trip evaluated at a concrete well-formed
message. -/
theorem deserialize_serialize_roundtrip_witness :
    (WireMessage.ping ⟨102, 0, [99, 111, 111, 107]⟩).wf ∧
    createNewInstance (WireMessage.ping ⟨102, 0, [99, 111, 111, 107]⟩).serialize
      = some (WireMessage.ping ⟨102, 0, [99, 111, 111, 107]⟩) :=
  ⟨by decide, deserialize_serialize_roundtrip _ (by decide)⟩

/-! ### C7: the `seqno_ ≥ seqno_prev_` assertion in MessageDeliver

`MessageDeliver::DeSerialize` computes `seqno_ = seqno_prev_ + seqno_diff`
in `uint64_t` and then asserts `seqno_ >= seqno_prev_`.  The addition can
wrap: an input encoding `seqno_prev_ = 2^64 - 1` and `seqno_diff = 1` is
accepted (`Status::OK`) yet reconstructs `seqno_ = 0 < seqno_prev_`,
violating the assertion. -/

/-- A concrete wire body: tag `mDeliverGap`, tenant `0`, sub_id `0`,
`seqno_prev = 2^64 - 1` (ten varint bytes), `seqno_diff = 1`. -/
def deliverWrapInput : List Nat :=
  [mDeliverGap, 0, 0, 0] ++
  [255, 255, 255, 255, 255, 255, 255, 255, 255, 1] ++ [1]

/-- C7 (refuted as stated): `MessageDeliver::DeSerialize` accepts
`deliverWrapInput` and reconstructs a message with
`seqno < seqno_prev` — the asserted invariant `seqno_ ≥ seqno_prev_`
fails on this input. -/
theorem MessageDeliver.deSerialize_wraps_seqno :
    MessageDeliver.deSerialize deliverWrapInput =
      some (⟨0, 0, 2 ^ 64 - 1, 0⟩, []) ∧
    ((2 ^ 64 - 1 : Nat) ≤ 0 → False) := by
  constructor
  · decide
  · decide

/-- C7 (the part that does hold): on inputs whose decoded
`seqno_prev + seqno_diff` does not overflow `uint64_t`, an accepted
`MessageDeliver::DeSerialize` yields `seqno ≥ prev_seqno`; symmetrically,
for well-formed messages (`seqno ≥ prev_seqno`) `Serialize` encodes the
exact difference so that the pair round-trips. -/
theorem MessageDeliver.deSerialize_seqno_ge_of_no_overflow
    (l rest : List Nat) (m : MessageDeliver)
    (hacc : MessageDeliver.deSerialize l = some (m, rest))
    (hnof : m.seqno_prev + (m.seqno + 2 ^ 64 - m.seqno_prev) % 2 ^ 64 <
      2 ^ 64) :
    m.seqno_prev ≤ m.seqno := by
  unfold MessageDeliver.deSerialize at hacc
  repeat' split at hacc
  all_goals try (exfalso; exact Option.noConfusion hacc)
  all_goals
    simp only [Option.some.injEq, Prod.mk.injEq] at hacc
    obtain ⟨hm, -⟩ := hacc
    subst hm
    dsimp only at hnof ⊢
    omega

/-! ## Log tailer (src/controltower/log_tailer.cc)

Per-(reader, log) ordering filter.  A reader's `log_state` maps each open
`LogID` to the next expected sequence number; records and gaps arriving
from storage are dropped (and counted) unless they start exactly at the
expected seqno, which then advances.  `log_state` (a `std::unordered_map`)
is modelled as an association list. -/

inductive GapType
  | benign
  | retention
  | dataLoss
deriving DecidableEq

def lookupLog : List (Nat × Nat) → Nat → Option Nat
  | [], _ => none
  | (k, v) :: rest, log => if k = log then some v else lookupLog rest log

def setLog : List (Nat × Nat) → Nat → Nat → List (Nat × Nat)
  | [], _, _ => []
  | (k, v) :: rest, log, s =>
    if k = log then (k, s) :: rest else (k, v) :: setLog rest log s

/-- The per-reader state of `LogTailer::Reader` that the ordering filter
touches: `log_state` plus the two out-of-order drop counters. -/
structure Reader where
  log_state : List (Nat × Nat)
  records_out_of_order : Nat
  gap_records_out_of_order : Nat
deriving DecidableEq

/-- A storage callback event: a record at a seqno, or a gap `[from, to]`. -/
inductive TailerEvent
  | record (log : Nat) (seqno : Nat)
  | gap (log : Nat) (t : GapType) (gfrom : Nat) (gto : Nat)
deriving DecidableEq

/-- `LogTailer::RecordCallback` / `LogTailer::GapCallback`: returns the
updated reader state and the event passed to the user callback
(`reader.on_record` / `reader.on_gap`), or `none` when the event was
dropped. -/
def processEvent (r : Reader) : TailerEvent → Reader × Option TailerEvent
  | .record log seqno =>
    match lookupLog r.log_state log with
    | none =>
      ({ r with records_out_of_order := r.records_out_of_order + 1 }, none)
    | some expected =>
      if expected ≠ seqno then
        ({ r with records_out_of_order := r.records_out_of_order + 1 }, none)
      else
        ({ r with log_state := setLog r.log_state log (seqno + 1) },
          some (.record log seqno))
  | .gap log t gfrom gto =>
    match lookupLog r.log_state log with
    | none =>
      ({ r with gap_records_out_of_order :=
        r.gap_records_out_of_order + 1 }, none)
    | some expected =>
      if expected ≠ gfrom then
        ({ r with gap_records_out_of_order :=
          r.gap_records_out_of_order + 1 }, none)
      else
        ({ r with log_state := setLog r.log_state log (gto + 1) },
          some (.gap log t gfrom gto))

/-- Run a sequence of storage events; collect the forwarded ones. -/
def runTailer (r : Reader) : List TailerEvent → Reader × List TailerEvent
  | [] => (r, [])
  | e :: rest =>
    match processEvent r e with
    | (r1, none) => runTailer r1 rest
    | (r1, some f) =>
      match runTailer r1 rest with
      | (r2, fs) => (r2, f :: fs)

def TailerEvent.logOf : TailerEvent → Nat
  | .record log _ => log
  | .gap log _ _ _ => log

def TailerEvent.startOf : TailerEvent → Nat
  | .record _ seqno => seqno
  | .gap _ _ gfrom _ => gfrom

def TailerEvent.endOf : TailerEvent → Nat
  | .record _ seqno => seqno
  | .gap _ _ _ gto => gto

/-- The forwarded stream of one log is seqno-contiguous from `s0`: each
forwarded event starts exactly where the previous one ended plus one. -/
def Contiguous : Nat → List TailerEvent → Prop
  | _, [] => True
  | s0, e :: rest => e.startOf = s0 ∧ Contiguous (e.endOf + 1) rest

instance (s0 : Nat) (evs : List TailerEvent) : Decidable (Contiguous s0 evs) := by
  induction evs generalizing s0 with
  | nil => exact isTrue trivial
  | cons e rest ih =>
    unfold Contiguous
    have := ih (e.endOf + 1)
    exact instDecidableAnd

theorem lookupLog_setLog_other (ls : List (Nat × Nat)) (l s log : Nat)
    (hl : l ≠ log) :
    lookupLog (setLog ls l s) log = lookupLog ls log := by
  induction ls with
  | nil => rfl
  | cons p rest ih =>
    cases p with
    | mk k v =>
      by_cases hk : k = l
      · subst hk
        simp [setLog, lookupLog, hl]
      · simp [setLog, lookupLog, hk, ih]

theorem lookupLog_setLog_self (ls : List (Nat × Nat)) (log s v : Nat)
    (h : lookupLog ls log = some v) :
    lookupLog (setLog ls log s) log = some s := by
  induction ls with
  | nil => simp [lookupLog] at h
  | cons p rest ih =>
    cases p with
    | mk k w =>
      by_cases hk : k = log
      · subst hk
        simp [setLog, lookupLog]
      · simp only [lookupLog, if_neg hk] at h
        simp [setLog, lookupLog, hk, ih h]

/-- The per-log forwarded stream is contiguous: starting from the expected
seqno currently stored for `log`, every forwarded event for `log` starts
exactly at the stored expectation, which advances past its end. -/
theorem runTailer_contiguous (evs : List TailerEvent) :
    ∀ (r : Reader) (log s0 : Nat),
    lookupLog r.log_state log = some s0 →
    Contiguous s0 ((runTailer r evs).2.filter (fun e => e.logOf = log)) := by
  induction evs with
  | nil =>
    intro r log s0 _
    simp [runTailer, Contiguous]
  | cons e rest ih =>
    intro r log s0 hs
    cases e with
    | record l seqno =>
      rcases hlk : lookupLog r.log_state l with _ | expected
      · have hpe : processEvent r (TailerEvent.record l seqno) =
            ({ r with records_out_of_order := r.records_out_of_order + 1 }, none) := by
          simp [processEvent, hlk]
        simp only [runTailer, hpe]
        exact ih { r with records_out_of_order := r.records_out_of_order + 1 }
          log s0 hs
      · by_cases hx : expected = seqno
        · have hpe : processEvent r (TailerEvent.record l seqno) =
              ({ r with log_state := setLog r.log_state l (seqno + 1) },
                some (TailerEvent.record l seqno)) := by
            simp [processEvent, hlk, hx]
          simp only [runTailer, hpe]
          by_cases hl : l = log
          · subst hl
            have hs0 : s0 = seqno := by
              rw [hlk] at hs
              have := (Option.some.injEq _ _).mp hs.symm
              omega
            have hs1 : lookupLog (setLog r.log_state l (seqno + 1)) l =
                some (seqno + 1) := lookupLog_setLog_self _ _ _ _ hlk
            have hrest := ih
              { r with log_state := setLog r.log_state l (seqno + 1) }
              l (seqno + 1) hs1
            cases hrun : runTailer
                { r with log_state := setLog r.log_state l (seqno + 1) }
                rest with
            | mk r2 fs =>
              rw [hrun] at hrest
              simp only [hrun, List.filter_cons, TailerEvent.logOf,
                decide_True, if_true]
              refine ⟨by simp [TailerEvent.startOf, hs0], ?_⟩
              simpa [TailerEvent.endOf] using hrest
          · have hs1 : lookupLog (setLog r.log_state l (seqno + 1)) log =
                some s0 := by
              rw [lookupLog_setLog_other _ _ _ _ hl]
              exact hs
            have hrest := ih
              { r with log_state := setLog r.log_state l (seqno + 1) }
              log s0 hs1
            cases hrun : runTailer
                { r with log_state := setLog r.log_state l (seqno + 1) }
                rest with
            | mk r2 fs =>
              rw [hrun] at hrest
              simp only [hrun, List.filter_cons, TailerEvent.logOf]
              rw [if_neg (by simpa using hl)]
              exact hrest
        · have hpe : processEvent r (TailerEvent.record l seqno) =
              ({ r with records_out_of_order := r.records_out_of_order + 1 }, none) := by
            simp [processEvent, hlk, hx]
          simp only [runTailer, hpe]
          exact ih
            { r with records_out_of_order := r.records_out_of_order + 1 }
            log s0 hs
    | gap l t gfrom gto =>
      rcases hlk : lookupLog r.log_state l with _ | expected
      · have hpe : processEvent r (TailerEvent.gap l t gfrom gto) =
            ({ r with gap_records_out_of_order := r.gap_records_out_of_order + 1 }, none) := by
          simp [processEvent, hlk]
        simp only [runTailer, hpe]
        exact ih
          { r with gap_records_out_of_order := r.gap_records_out_of_order + 1 }
          log s0 hs
      · by_cases hx : expected = gfrom
        · have hpe : processEvent r (TailerEvent.gap l t gfrom gto) =
              ({ r with log_state := setLog r.log_state l (gto + 1) },
                some (TailerEvent.gap l t gfrom gto)) := by
            simp [processEvent, hlk, hx]
          simp only [runTailer, hpe]
          by_cases hl : l = log
          · subst hl
            have hs0 : s0 = gfrom := by
              rw [hlk] at hs
              have := (Option.some.injEq _ _).mp hs.symm
              omega
            have hs1 : lookupLog (setLog r.log_state l (gto + 1)) l =
                some (gto + 1) := lookupLog_setLog_self _ _ _ _ hlk
            have hrest := ih
              { r with log_state := setLog r.log_state l (gto + 1) }
              l (gto + 1) hs1
            cases hrun : runTailer
                { r with log_state := setLog r.log_state l (gto + 1) }
                rest with
            | mk r2 fs =>
              rw [hrun] at hrest
              simp only [hrun, List.filter_cons, TailerEvent.logOf,
                decide_True, if_true]
              refine ⟨by simp [TailerEvent.startOf, hs0], ?_⟩
              simpa [TailerEvent.endOf] using hrest
          · have hs1 : lookupLog (setLog r.log_state l (gto + 1)) log =
                some s0 := by
              rw [lookupLog_setLog_other _ _ _ _ hl]
              exact hs
            have hrest := ih
              { r with log_state := setLog r.log_state l (gto + 1) }
              log s0 hs1
            cases hrun : runTailer
                { r with log_state := setLog r.log_state l (gto + 1) }
                rest with
            | mk r2 fs =>
              rw [hrun] at hrest
              simp only [hrun, List.filter_cons, TailerEvent.logOf]
              rw [if_neg (by simpa using hl)]
              exact hrest
        · have hpe : processEvent r (TailerEvent.gap l t gfrom gto) =
              ({ r with gap_records_out_of_order := r.gap_records_out_of_order + 1 }, none) := by
            simp [processEvent, hlk, hx]
          simp only [runTailer, hpe]
          exact ih
            { r with gap_records_out_of_order := r.gap_records_out_of_order + 1 }
            log s0 hs

/-- C4: per-(reader, log) ordering of the log tailer.  Events for a log
absent from `log_state` are dropped and counted; records (gaps) whose
seqno (`from`) differs from the stored expectation are dropped and counted
as out-of-order, with the user callback not invoked; an accepted record
advances the expectation to `seqno + 1` (gaps to `to + 1`) and only then
is the user callback invoked with the event.  Consequently the forwarded
per-log stream is seqno-contiguous (for record-only traces: strictly
consecutive seqnos). -/
theorem logTailer_per_log_ordering :
    (∀ (r : Reader) (log seqno : Nat),
      lookupLog r.log_state log = none →
      processEvent r (.record log seqno) =
        ({ r with records_out_of_order := r.records_out_of_order + 1 },
          none)) ∧
    (∀ (r : Reader) (log : Nat) (t : GapType) (gfrom gto : Nat),
      lookupLog r.log_state log = none →
      processEvent r (.gap log t gfrom gto) =
        ({ r with gap_records_out_of_order :=
          r.gap_records_out_of_order + 1 }, none)) ∧
    (∀ (r : Reader) (log seqno expected : Nat),
      lookupLog r.log_state log = some expected → expected ≠ seqno →
      processEvent r (.record log seqno) =
        ({ r with records_out_of_order := r.records_out_of_order + 1 },
          none)) ∧
    (∀ (r : Reader) (log : Nat) (t : GapType) (gfrom gto expected : Nat),
      lookupLog r.log_state log = some expected → expected ≠ gfrom →
      processEvent r (.gap log t gfrom gto) =
        ({ r with gap_records_out_of_order :=
          r.gap_records_out_of_order + 1 }, none)) ∧
    (∀ (r : Reader) (log seqno : Nat),
      lookupLog r.log_state log = some seqno →
      processEvent r (.record log seqno) =
        ({ r with log_state := setLog r.log_state log (seqno + 1) },
          some (.record log seqno))) ∧
    (∀ (r : Reader) (log : Nat) (t : GapType) (gfrom gto : Nat),
      lookupLog r.log_state log = some gfrom →
      processEvent r (.gap log t gfrom gto) =
        ({ r with log_state := setLog r.log_state log (gto + 1) },
          some (.gap log t gfrom gto))) ∧
    (∀ (evs : List TailerEvent) (r : Reader) (log s0 : Nat),
      lookupLog r.log_state log = some s0 →
      Contiguous s0 ((runTailer r evs).2.filter (fun e => e.logOf = log))) := by
  refine ⟨?_, ?_, ?_, ?_, ?_, ?_, runTailer_contiguous⟩
  · intro r log seqno h
    simp [processEvent, h]
  · intro r log t gfrom gto h
    simp [processEvent, h]
  · intro r log seqno expected h hne
    simp [processEvent, h, hne]
  · intro r log t gfrom gto expected h hne
    simp [processEvent, h, hne]
  · intro r log seqno h
    simp [processEvent, h]
  · intro r log t gfrom gto h
    simp [processEvent, h]

/-- Witness for C4: the spec's own scenario — records 10, 12, 11 arriving
on an open log expecting 10 forward exactly 10 and then 11 (12 is
dropped), a contiguous stream. -/
theorem logTailer_per_log_ordering_witness :
    lookupLog (Reader.mk [(7, 10)] 0 0).log_state 7 = some 10 ∧
    Contiguous 10 ((runTailer (Reader.mk [(7, 10)] 0 0)
      [.record 7 10, .record 7 12, .record 7 11]).2.filter
        (fun e => e.logOf = 7)) :=
  ⟨by decide,
    logTailer_per_log_ordering.2.2.2.2.2.2
      [.record 7 10, .record 7 12, .record 7 11]
      (Reader.mk [(7, 10)] 0 0) 7 10 (by decide)⟩

/-! ### C8: corrupt payloads become single-seqno DataLoss gaps

The `record_cb` lambda in `LogTailer::CreateReader` builds a
`LogRecordMessageData` (which runs `DeSerializeStorage` on the record's
payload and sets the sequence numbers `(seqno - 1, seqno)`, computed in
`uint64_t`); on a deserialization failure it forwards a
`GapCallback(kDataLoss, seqno, seqno)` instead of a record. -/

/-- What `record_cb` hands to `TryForward` for one storage record. -/
inductive TailerForward
  | recordMsg (log : Nat) (msg : MessageData)
  | gapLoss (log : Nat) (t : GapType) (gfrom : Nat) (gto : Nat)
deriving DecidableEq

/-- The `record_cb` lambda of `LogTailer::CreateReader`. -/
def recordCb (log_id seqno : Nat) (payload : List Nat) : TailerForward :=
  match deSerializeStorage payload with
  | none => .gapLoss log_id GapType.dataLoss seqno seqno
  | some (body, _) =>
    .recordMsg log_id ⟨mDeliver, body, (seqno + 2 ^ 64 - 1) % 2 ^ 64, seqno⟩

/-- C8: when a storage record's payload fails to deserialise, no data
message is forwarded for it; the forwarded event is a `DataLoss` gap for
the same log covering exactly the record's sequence number. -/
theorem corrupt_payload_single_dataLoss_gap (log seqno : Nat)
    (payload : List Nat) (hbad : deSerializeStorage payload = none) :
    recordCb log seqno payload =
      .gapLoss log GapType.dataLoss seqno seqno ∧
    ∀ (lg : Nat) (msg : MessageData),
      recordCb log seqno payload ≠ .recordMsg lg msg := by
  constructor
  · simp [recordCb, hbad]
  · intro lg msg
    simp [recordCb, hbad]

/-- Witness for C8: the empty payload fails to deserialise and yields the
single-seqno DataLoss gap. -/
theorem corrupt_payload_single_dataLoss_gap_witness :
    deSerializeStorage [] = none ∧
    recordCb 5 9 [] = .gapLoss 5 GapType.dataLoss 9 9 :=
  ⟨by decide, (corrupt_payload_single_dataLoss_gap 5 9 [] (by decide)).1⟩

/-! ## Rocketeer server (src/engine/rocketeer_server.cc)

`CommunicationRocketeer` keeps, per stream, a map from subscription ID to
`InboundSubscription { tenant_id, prev_seqno }`.  `Deliver`/`Advance`
enforce monotonicity: a seqno not strictly above `prev_seqno` is dropped
and counted.  The two levels of `std::unordered_map` are modelled as
association lists. -/

def lookupA {β : Type} : List (Nat × β) → Nat → Option β
  | [], _ => none
  | (k, v) :: rest, key => if k = key then some v else lookupA rest key

def setA {β : Type} : List (Nat × β) → Nat → β → List (Nat × β)
  | [], _, _ => []
  | (k, v) :: rest, key, nv =>
    if k = key then (k, nv) :: rest else (k, v) :: setA rest key nv

structure InboundSubscription where
  tenant_id : Nat
  prev_seqno : Nat
deriving DecidableEq

/-- `InboundID` designates one subscription: (stream, sub_id) (the worker
index plays no role inside one `CommunicationRocketeer`). -/
structure InboundID where
  stream_id : Nat
  sub_id : Nat
deriving DecidableEq

structure CommunicationRocketeer where
  inbound_subscriptions : List (Nat × List (Nat × InboundSubscription))
  subscribes : Nat
  inbound_count : Int
  dropped_reordered : Nat
deriving DecidableEq

/-- `CommunicationRocketeer::Find`. -/
def CommunicationRocketeer.find (s : CommunicationRocketeer)
    (id : InboundID) : Option InboundSubscription :=
  match lookupA s.inbound_subscriptions id.stream_id with
  | none => none
  | some subs => lookupA subs id.sub_id

/-- Overwrite the subscription record of an existing (stream, sub_id). -/
def CommunicationRocketeer.updateSub (s : CommunicationRocketeer)
    (id : InboundID) (v : InboundSubscription) : CommunicationRocketeer :=
  { s with inbound_subscriptions :=
      match lookupA s.inbound_subscriptions id.stream_id with
      | none => s.inbound_subscriptions
      | some subs => setA s.inbound_subscriptions id.stream_id
          (setA subs id.sub_id v) }

/-- A message sent back on the stream by `Deliver` or `Advance` (payload
and message ID omitted; only the sequence numbers matter here). -/
inductive SentMsg
  | deliverData (id : InboundID) (prev : Nat) (seqno : Nat)
  | deliverGap (id : InboundID) (t : GapType) (prev : Nat) (seqno : Nat)
deriving DecidableEq

def SentMsg.idOf : SentMsg → InboundID
  | .deliverData id _ _ => id
  | .deliverGap id _ _ _ => id

def SentMsg.seqnoOf : SentMsg → Nat
  | .deliverData _ _ seqno => seqno
  | .deliverGap _ _ _ seqno => seqno

/-- `CommunicationRocketeer::Deliver`: if the subscription exists and
`prev_seqno < seqno`, send a `DeliverData` carrying `(prev_seqno, seqno)`
and update `prev_seqno = seqno`; otherwise send nothing (counting the
attempt as dropped/reordered when the subscription exists). -/
def CommunicationRocketeer.deliver (s : CommunicationRocketeer)
    (id : InboundID) (seqno : Nat) :
    CommunicationRocketeer × Option SentMsg :=
  match s.find id with
  | none => (s, none)
  | some sub =>
    if sub.prev_seqno < seqno then
      (CommunicationRocketeer.updateSub s id ⟨sub.tenant_id, seqno⟩,
        some (.deliverData id sub.prev_seqno seqno))
    else
      ({ s with dropped_reordered := s.dropped_reordered + 1 }, none)

/-- `CommunicationRocketeer::Advance`: same monotonicity check, sending a
`Benign` `DeliverGap` with `(prev_seqno, seqno)`. -/
def CommunicationRocketeer.advance (s : CommunicationRocketeer)
    (id : InboundID) (seqno : Nat) :
    CommunicationRocketeer × Option SentMsg :=
  match s.find id with
  | none => (s, none)
  | some sub =>
    if sub.prev_seqno < seqno then
      (CommunicationRocketeer.updateSub s id ⟨sub.tenant_id, seqno⟩,
        some (.deliverGap id GapType.benign sub.prev_seqno seqno))
    else
      ({ s with dropped_reordered := s.dropped_reordered + 1 }, none)

inductive RocketeerCall
  | deliver (id : InboundID) (seqno : Nat)
  | advance (id : InboundID) (seqno : Nat)
deriving DecidableEq

def runRocketeer (s : CommunicationRocketeer) :
    List RocketeerCall → CommunicationRocketeer × List SentMsg
  | [] => (s, [])
  | c :: rest =>
    let step := match c with
      | .deliver id seqno => s.deliver id seqno
      | .advance id seqno => s.advance id seqno
    match step with
    | (s1, none) => runRocketeer s1 rest
    | (s1, some msg) =>
      match runRocketeer s1 rest with
      | (s2, msgs) => (s2, msg :: msgs)

/-- `l` is strictly increasing and strictly above `b`. -/
def StrictAbove : Nat → List Nat → Prop
  | _, [] => True
  | b, x :: rest => b < x ∧ StrictAbove x rest

instance (b : Nat) (l : List Nat) : Decidable (StrictAbove b l) := by
  induction l generalizing b with
  | nil => exact isTrue trivial
  | cons x rest ih =>
    unfold StrictAbove
    have := ih x
    exact instDecidableAnd

theorem lookupA_setA_self {β : Type} (l : List (Nat × β)) (k : Nat)
    (v w : β) (h : lookupA l k = some w) :
    lookupA (setA l k v) k = some v := by
  induction l with
  | nil => simp [lookupA] at h
  | cons p rest ih =>
    cases p with
    | mk k0 v0 =>
      by_cases hk : k0 = k
      · subst hk
        simp [setA, lookupA]
      · simp only [lookupA, if_neg hk] at h
        simp [setA, lookupA, hk, ih h]

theorem lookupA_setA_other {β : Type} (l : List (Nat × β)) (k key : Nat)
    (v : β) (h : key ≠ k) : lookupA (setA l k v) key = lookupA l key := by
  induction l with
  | nil => rfl
  | cons p rest ih =>
    cases p with
    | mk k0 v0 =>
      by_cases hk : k0 = k
      · subst hk
        have hne : k0 ≠ key := Ne.symm h
        simp [setA, lookupA, hne]
      · simp [setA, lookupA, hk, ih]

theorem find_updateSub_self (s : CommunicationRocketeer) (id : InboundID)
    (v w : InboundSubscription) (h : s.find id = some w) :
    (CommunicationRocketeer.updateSub s id v).find id = some v := by
  unfold CommunicationRocketeer.find at h ⊢
  unfold CommunicationRocketeer.updateSub
  cases hst : lookupA s.inbound_subscriptions id.stream_id with
  | none => simp [hst] at h
  | some subs =>
    simp only [hst] at h
    simp only [lookupA_setA_self s.inbound_subscriptions id.stream_id
      (setA subs id.sub_id v) subs hst]
    exact lookupA_setA_self subs id.sub_id v w h

theorem find_updateSub_other (s : CommunicationRocketeer)
    (id id' : InboundID) (v : InboundSubscription) (h : id' ≠ id) :
    (CommunicationRocketeer.updateSub s id v).find id' = s.find id' := by
  unfold CommunicationRocketeer.find CommunicationRocketeer.updateSub
  cases hst : lookupA s.inbound_subscriptions id.stream_id with
  | none => rfl
  | some subs =>
    by_cases hstream : id'.stream_id = id.stream_id
    · have hsub : id'.sub_id ≠ id.sub_id := by
        intro hsid
        apply h
        cases id
        cases id'
        simp_all
      rw [hstream]
      rw [lookupA_setA_self s.inbound_subscriptions id.stream_id
        (setA subs id.sub_id v) subs hst, hst]
      exact lookupA_setA_other subs id.sub_id id'.sub_id v hsub
    · rw [lookupA_setA_other s.inbound_subscriptions id.stream_id
        id'.stream_id (setA subs id.sub_id v) hstream]

/-- Sent-stream monotonicity of one subscription across any sequence of
`Deliver`/`Advance` calls: if the subscription exists with some
`prev_seqno`, every message sent for it carries a strictly larger seqno
than its predecessor (and than the initial `prev_seqno`); if it does not
exist, nothing is sent for it. -/
theorem runRocketeer_mono (calls : List RocketeerCall) :
    ∀ (s : CommunicationRocketeer) (id : InboundID),
    (∀ sub, s.find id = some sub →
      StrictAbove sub.prev_seqno
        (((runRocketeer s calls).2.filter
          (fun m => m.idOf = id)).map SentMsg.seqnoOf)) ∧
    (s.find id = none →
      (runRocketeer s calls).2.filter (fun m => m.idOf = id) = []) := by
  induction calls with
  | nil =>
    intro s id
    constructor
    · intro sub _
      simp [runRocketeer, StrictAbove]
    · intro _
      simp [runRocketeer]
  | cons c rest ih =>
    intro s id
    cases c with
    | deliver id0 q =>
      rcases hf0 : s.find id0 with _ | sub0
      · have hstep : s.deliver id0 q = (s, none) := by
          simp [CommunicationRocketeer.deliver, hf0]
        simp only [runRocketeer, hstep]
        exact ih s id
      · by_cases hlt : sub0.prev_seqno < q
        · have hstep : s.deliver id0 q =
              (CommunicationRocketeer.updateSub s id0 ⟨sub0.tenant_id, q⟩,
                some (.deliverData id0 sub0.prev_seqno q)) := by
            simp [CommunicationRocketeer.deliver, hf0, hlt]
          simp only [runRocketeer, hstep]
          cases hrun : runRocketeer
              (CommunicationRocketeer.updateSub s id0 ⟨sub0.tenant_id, q⟩)
              rest with
          | mk s2 msgs =>
            constructor
            · intro sub hfind
              by_cases hid : id0 = id
              · subst hid
                rw [hf0] at hfind
                injection hfind with he
                subst he
                have hrec := (ih _ id0).1 ⟨sub0.tenant_id, q⟩
                  (find_updateSub_self s id0 ⟨sub0.tenant_id, q⟩ sub0 hf0)
                rw [hrun] at hrec
                simp only [hrun, List.filter_cons, SentMsg.idOf,
                  decide_True, if_true, List.map_cons, SentMsg.seqnoOf]
                exact ⟨hlt, hrec⟩
              · have hrec := (ih _ id).1 sub (by
                  rw [find_updateSub_other s id0 id ⟨sub0.tenant_id, q⟩
                    (Ne.symm hid)]
                  exact hfind)
                rw [hrun] at hrec
                simp only [hrun, List.filter_cons, SentMsg.idOf]
                rw [if_neg (by simpa using hid)]
                exact hrec
            · intro hnone
              by_cases hid : id0 = id
              · subst hid
                rw [hf0] at hnone
                exact Option.noConfusion hnone
              · have hrec := (ih _ id).2 (by
                  rw [find_updateSub_other s id0 id ⟨sub0.tenant_id, q⟩
                    (Ne.symm hid)]
                  exact hnone)
                rw [hrun] at hrec
                simp only [hrun, List.filter_cons, SentMsg.idOf]
                rw [if_neg (by simpa using hid)]
                exact hrec
        · have hstep : s.deliver id0 q =
              ({ s with dropped_reordered := s.dropped_reordered + 1 },
                none) := by
            simp [CommunicationRocketeer.deliver, hf0, hlt]
          simp only [runRocketeer, hstep]
          exact ih { s with dropped_reordered := s.dropped_reordered + 1 } id
    | advance id0 q =>
      rcases hf0 : s.find id0 with _ | sub0
      · have hstep : s.advance id0 q = (s, none) := by
          simp [CommunicationRocketeer.advance, hf0]
        simp only [runRocketeer, hstep]
        exact ih s id
      · by_cases hlt : sub0.prev_seqno < q
        · have hstep : s.advance id0 q =
              (CommunicationRocketeer.updateSub s id0 ⟨sub0.tenant_id, q⟩,
                some (.deliverGap id0 GapType.benign sub0.prev_seqno q)) := by
            simp [CommunicationRocketeer.advance, hf0, hlt]
          simp only [runRocketeer, hstep]
          cases hrun : runRocketeer
              (CommunicationRocketeer.updateSub s id0 ⟨sub0.tenant_id, q⟩)
              rest with
          | mk s2 msgs =>
            constructor
            · intro sub hfind
              by_cases hid : id0 = id
              · subst hid
                rw [hf0] at hfind
                injection hfind with he
                subst he
                have hrec := (ih _ id0).1 ⟨sub0.tenant_id, q⟩
                  (find_updateSub_self s id0 ⟨sub0.tenant_id, q⟩ sub0 hf0)
                rw [hrun] at hrec
                simp only [hrun, List.filter_cons, SentMsg.idOf,
                  decide_True, if_true, List.map_cons, SentMsg.seqnoOf]
                exact ⟨hlt, hrec⟩
              · have hrec := (ih _ id).1 sub (by
                  rw [find_updateSub_other s id0 id ⟨sub0.tenant_id, q⟩
                    (Ne.symm hid)]
                  exact hfind)
                rw [hrun] at hrec
                simp only [hrun, List.filter_cons, SentMsg.idOf]
                rw [if_neg (by simpa using hid)]
                exact hrec
            · intro hnone
              by_cases hid : id0 = id
              · subst hid
                rw [hf0] at hnone
                exact Option.noConfusion hnone
              · have hrec := (ih _ id).2 (by
                  rw [find_updateSub_other s id0 id ⟨sub0.tenant_id, q⟩
                    (Ne.symm hid)]
                  exact hnone)
                rw [hrun] at hrec
                simp only [hrun, List.filter_cons, SentMsg.idOf]
                rw [if_neg (by simpa using hid)]
                exact hrec
        · have hstep : s.advance id0 q =
              ({ s with dropped_reordered := s.dropped_reordered + 1 },
                none) := by
            simp [CommunicationRocketeer.advance, hf0, hlt]
          simp only [runRocketeer, hstep]
          exact ih { s with dropped_reordered := s.dropped_reordered + 1 } id

/-- C5: `Deliver(seqno)` on an existing inbound subscription with
`seqno > prev_seqno` sends a `DeliverData` carrying `(prev_seqno, seqno)`
and updates `prev_seqno = seqno`; with `seqno ≤ prev_seqno` it sends
nothing, leaves `prev_seqno` unchanged and counts the attempt as
dropped/reordered.  `Advance` behaves identically, sending a Benign
`DeliverGap`.  Consequently the seqnos sent on one subscription are
strictly increasing. -/
theorem rocketeer_deliver_monotonic :
    (∀ (s : CommunicationRocketeer) (id : InboundID)
        (sub : InboundSubscription) (seqno : Nat),
      s.find id = some sub → sub.prev_seqno < seqno →
      s.deliver id seqno =
        (CommunicationRocketeer.updateSub s id ⟨sub.tenant_id, seqno⟩,
          some (.deliverData id sub.prev_seqno seqno)) ∧
      (s.deliver id seqno).1.find id = some ⟨sub.tenant_id, seqno⟩) ∧
    (∀ (s : CommunicationRocketeer) (id : InboundID)
        (sub : InboundSubscription) (seqno : Nat),
      s.find id = some sub → ¬ sub.prev_seqno < seqno →
      s.deliver id seqno =
        ({ s with dropped_reordered := s.dropped_reordered + 1 }, none) ∧
      (s.deliver id seqno).1.find id = some sub) ∧
    (∀ (s : CommunicationRocketeer) (id : InboundID)
        (sub : InboundSubscription) (seqno : Nat),
      s.find id = some sub → sub.prev_seqno < seqno →
      s.advance id seqno =
        (CommunicationRocketeer.updateSub s id ⟨sub.tenant_id, seqno⟩,
          some (.deliverGap id GapType.benign sub.prev_seqno seqno)) ∧
      (s.advance id seqno).1.find id = some ⟨sub.tenant_id, seqno⟩) ∧
    (∀ (s : CommunicationRocketeer) (id : InboundID)
        (sub : InboundSubscription) (seqno : Nat),
      s.find id = some sub → ¬ sub.prev_seqno < seqno →
      s.advance id seqno =
        ({ s with dropped_reordered := s.dropped_reordered + 1 }, none) ∧
      (s.advance id seqno).1.find id = some sub) ∧
    (∀ (calls : List RocketeerCall) (s : CommunicationRocketeer)
        (id : InboundID) (sub : InboundSubscription),
      s.find id = some sub →
      StrictAbove sub.prev_seqno
        (((runRocketeer s calls).2.filter
          (fun m => m.idOf = id)).map SentMsg.seqnoOf)) := by
  refine ⟨?_, ?_, ?_, ?_, ?_⟩
  · intro s id sub seqno h hlt
    have he : s.deliver id seqno =
        (CommunicationRocketeer.updateSub s id ⟨sub.tenant_id, seqno⟩,
          some (.deliverData id sub.prev_seqno seqno)) := by
      simp [CommunicationRocketeer.deliver, h, hlt]
    exact ⟨he, by rw [he]; exact find_updateSub_self s id _ sub h⟩
  · intro s id sub seqno h hlt
    have he : s.deliver id seqno =
        ({ s with dropped_reordered := s.dropped_reordered + 1 }, none) := by
      simp [CommunicationRocketeer.deliver, h, hlt]
    exact ⟨he, by rw [he]; exact h⟩
  · intro s id sub seqno h hlt
    have he : s.advance id seqno =
        (CommunicationRocketeer.updateSub s id ⟨sub.tenant_id, seqno⟩,
          some (.deliverGap id GapType.benign sub.prev_seqno seqno)) := by
      simp [CommunicationRocketeer.advance, h, hlt]
    exact ⟨he, by rw [he]; exact find_updateSub_self s id _ sub h⟩
  · intro s id sub seqno h hlt
    have he : s.advance id seqno =
        ({ s with dropped_reordered := s.dropped_reordered + 1 }, none) := by
      simp [CommunicationRocketeer.advance, h, hlt]
    exact ⟨he, by rw [he]; exact h⟩
  · intro calls s id sub h
    exact (runRocketeer_mono calls s id).1 sub h

/-- Witness for C5: a subscription at `prev_seqno = 5` receiving
Deliver 9, Deliver 7 (dropped), Advance 12 sends seqnos 9, 12 —
strictly above 5 and increasing. -/
theorem rocketeer_deliver_monotonic_witness :
    (CommunicationRocketeer.mk [(3, [(7, ⟨11, 5⟩)])] 0 0 0).find ⟨3, 7⟩ =
      some ⟨11, 5⟩ ∧
    StrictAbove 5
      (((runRocketeer (CommunicationRocketeer.mk [(3, [(7, ⟨11, 5⟩)])] 0 0 0)
        [.deliver ⟨3, 7⟩ 9, .deliver ⟨3, 7⟩ 7, .advance ⟨3, 7⟩ 12]).2.filter
          (fun m => m.idOf = ⟨3, 7⟩)).map SentMsg.seqnoOf) :=
  ⟨by decide,
    rocketeer_deliver_monotonic.2.2.2.2
      [.deliver ⟨3, 7⟩ 9, .deliver ⟨3, 7⟩ 7, .advance ⟨3, 7⟩ 12]
      (CommunicationRocketeer.mk [(3, [(7, ⟨11, 5⟩)])] 0 0 0)
      ⟨3, 7⟩ ⟨11, 5⟩ (by decide)⟩

/-! ### C10: duplicate MessageSubscribe on a stream -/

/-- The parameters handed to the application's `HandleNewSubscription`. -/
structure SubscriptionParameters where
  tenant_id : Nat
  namespace_id : List Nat
  topic_name : List Nat
  start_seqno : Nat
deriving DecidableEq

/-- `inbound_subscriptions_[origin].emplace(sub_id, ...)`: appends the new
subscription, creating the per-stream map when the stream is new. -/
def insertSub (m : List (Nat × List (Nat × InboundSubscription)))
    (origin sub_id : Nat) (v : InboundSubscription) :
    List (Nat × List (Nat × InboundSubscription)) :=
  match lookupA m origin with
  | none => m ++ [(origin, [(sub_id, v)])]
  | some subs => setA m origin (subs ++ [(sub_id, v)])

/-- `CommunicationRocketeer::Receive(MessageSubscribe)`: try to emplace an
`InboundSubscription` with `prev_seqno = start == 0 ? start : start - 1`;
on a duplicated (stream, sub_id) log a warning and return with no other
effect.  On success, call the application's `HandleNewSubscription` (the
returned `some` value) and bump the subscription counters. -/
def CommunicationRocketeer.receiveSubscribe (s : CommunicationRocketeer)
    (origin : Nat) (msg : MessageSubscribe) :
    CommunicationRocketeer × Option (InboundID × SubscriptionParameters) :=
  let start := legacySeqno msg.start
  match lookupA ((lookupA s.inbound_subscriptions origin).getD [])
      msg.sub_id with
  | some _ => (s, none)
  | none =>
    ({ s with
        inbound_subscriptions := insertSub s.inbound_subscriptions origin
          msg.sub_id ⟨msg.tenantid, if start = 0 then start else start - 1⟩,
        subscribes := s.subscribes + 1,
        inbound_count := s.inbound_count + 1 },
      some (⟨origin, msg.sub_id⟩,
        ⟨msg.tenantid, msg.namespace_id, msg.topic_name, start⟩))

/-- C10: a `MessageSubscribe` carrying a sub_id that already exists on the
same stream has no effect: the state (in particular the existing
subscription's `tenant_id` and `prev_seqno`) is unchanged, no counters are
bumped, and `HandleNewSubscription` is not invoked. -/
theorem duplicate_subscribe_no_effect (s : CommunicationRocketeer)
    (origin : Nat) (msg : MessageSubscribe) (sub : InboundSubscription)
    (hdup : s.find ⟨origin, msg.sub_id⟩ = some sub) :
    s.receiveSubscribe origin msg = (s, none) ∧
    (s.receiveSubscribe origin msg).1.find ⟨origin, msg.sub_id⟩ =
      some sub := by
  have hg : lookupA ((lookupA s.inbound_subscriptions origin).getD [])
      msg.sub_id = some sub := by
    simp only [CommunicationRocketeer.find] at hdup
    cases hst : lookupA s.inbound_subscriptions origin with
    | none => simp [hst] at hdup
    | some subs =>
      simp only [hst] at hdup
      simpa [hst] using hdup
  have he : s.receiveSubscribe origin msg = (s, none) := by
    simp [CommunicationRocketeer.receiveSubscribe, hg]
  exact ⟨he, by rw [he]; exact hdup⟩

/-- Witness for C10: a duplicate subscribe (stream 3, sub_id 7) against a
state that already holds that subscription leaves everything unchanged. -/
theorem duplicate_subscribe_no_effect_witness :
    (CommunicationRocketeer.mk [(3, [(7, ⟨11, 5⟩)])] 0 0 0).find ⟨3, 7⟩ =
      some ⟨11, 5⟩ ∧
    (CommunicationRocketeer.mk [(3, [(7, ⟨11, 5⟩)])] 0 0 0).receiveSubscribe
      3 ⟨11, [], [], 7, []⟩ =
      ((CommunicationRocketeer.mk [(3, [(7, ⟨11, 5⟩)])] 0 0 0), none) :=
  ⟨by decide,
    (duplicate_subscribe_no_effect
      (CommunicationRocketeer.mk [(3, [(7, ⟨11, 5⟩)])] 0 0 0)
      3 ⟨11, [], [], 7, []⟩ ⟨11, 5⟩ (by decide)).1⟩

/-! ## Topic manager (src/controltower/topic.h)

Only the declarations of `TopicManager` are under src/ (topic.h and the
control-room caller); the member definitions are not.  The data model
follows the header (`topic_map_ : unordered_map<TopicUUID, TopicList>`,
`TopicList = autovector<TopicSubscription>`); the operations are modelled
from the spec. -/

structure TopicSubscription where
  hostnum : Nat
  seqno : Nat
deriving DecidableEq

/-- `topic_map_`, keyed by the topic UUID byte string. -/
abbrev TopicManager := List (List Nat × List TopicSubscription)

def lookupTopic : TopicManager → List Nat → Option (List TopicSubscription)
  | [], _ => none
  | (k, v) :: rest, topic => if k = topic then some v else lookupTopic rest topic

def setTopic : TopicManager → List Nat → List TopicSubscription → TopicManager
  | [], _, _ => []
  | (k, v) :: rest, topic, nv =>
    if k = topic then (k, nv) :: rest else (k, v) :: setTopic rest topic nv

/-- The subscriber set currently recorded for a topic. -/
def subscribersOf (tm : TopicManager) (topic : List Nat) :
    List TopicSubscription :=
  (lookupTopic tm topic).getD []

/-- Modelled from the spec: within one topic's list, a host that is
already subscribed has its next-expected seqno updated; a new host is
appended (`TopicList` holds one entry per subscriber host). -/
def updateHost : List TopicSubscription → Nat → Nat → List TopicSubscription
  | [], host, start => [⟨host, start⟩]
  | sub :: rest, host, start =>
    if sub.hostnum = host then ⟨host, start⟩ :: rest
    else sub :: updateHost rest host start

/-- Modelled from the spec: `AddSubscriber(topic, seqno, host)` records the
subscriber under the topic and "returns true iff the subscriber set
transitioned from empty" (§4.9: the caller then starts tailing the
underlying log; the header doc reads "@return true iff new subscriber"). -/
def addSubscriber (tm : TopicManager) (topic : List Nat) (start host : Nat) :
    TopicManager × Bool :=
  match lookupTopic tm topic with
  | none => (tm ++ [(topic, [⟨host, start⟩])], true)
  | some list => (setTopic tm topic (updateHost list host start), list.isEmpty)

theorem lookupTopic_append_of_none (tm : TopicManager) (topic : List Nat)
    (l : List TopicSubscription) (h : lookupTopic tm topic = none) :
    lookupTopic (tm ++ [(topic, l)]) topic = some l := by
  induction tm with
  | nil => simp [lookupTopic]
  | cons p rest ih =>
    cases p with
    | mk k v =>
      by_cases hk : k = topic
      · simp [lookupTopic, hk] at h
      · simp only [lookupTopic, if_neg hk] at h
        simp [lookupTopic, hk, ih h]

theorem lookupTopic_setTopic_self (tm : TopicManager) (topic : List Nat)
    (nv l : List TopicSubscription) (h : lookupTopic tm topic = some l) :
    lookupTopic (setTopic tm topic nv) topic = some nv := by
  induction tm with
  | nil => simp [lookupTopic] at h
  | cons p rest ih =>
    cases p with
    | mk k v =>
      by_cases hk : k = topic
      · subst hk
        simp [setTopic, lookupTopic]
      · simp only [lookupTopic, if_neg hk] at h
        simp [setTopic, lookupTopic, hk, ih h]

theorem updateHost_ne_nil (l : List TopicSubscription) (host start : Nat) :
    updateHost l host start ≠ [] := by
  cases l with
  | nil => simp [updateHost]
  | cons sub rest =>
    unfold updateHost
    split <;> simp

/-- C9: `TopicManager::AddSubscriber(topic, seqno, host)` returns true iff
the topic's subscriber set transitioned from empty to non-empty, i.e. iff
the call added the first subscriber on that topic; adding a subscriber to
a topic that already has subscribers returns false. -/
theorem addSubscriber_true_iff_first (tm : TopicManager) (topic : List Nat)
    (start host : Nat) :
    ((addSubscriber tm topic start host).2 = true ↔
      subscribersOf tm topic = []) ∧
    subscribersOf (addSubscriber tm topic start host).1 topic ≠ [] := by
  unfold addSubscriber subscribersOf
  cases h : lookupTopic tm topic with
  | none =>
    simp [lookupTopic_append_of_none tm topic _ h]
  | some list =>
    simp only [Option.getD_some]
    constructor
    · simpa using List.isEmpty_iff
    · simp [lookupTopic_setTopic_self tm topic _ list h,
        updateHost_ne_nil]

/-! ## TopicToSubscriptionMap (src/client/topic_subscription_map.cc)

A linear-probing open-addressed table of `SubscriptionID`s; entry `0`
(`kReservedSubscriptionID`) is the gap sentinel.  The key of a stored ID
is recovered through the externally supplied `get_state` callback; per the
usage contract, for every live ID it returns a state whose namespace and
topic equal the key the ID was inserted under, so it is modelled as a
fixed function `get_key : SubscriptionID → (namespace, topic)`.
`FindOptimalPosition` hashes namespace ∥ topic with XXH64 (seed
0x57933c4a28a735b0) modulo the vector size; XXH64 itself is an external
pure function of the key bytes and is kept abstract (`xxh`): every theorem
below holds for an arbitrary hash function.

Loops in the C++ (`do { ... } while (position != optimal_position)` and
the backward-shift loop of `Remove`) inspect at most `vector_.size()`
slots per cycle; they are embedded with an explicit fuel of
`vector.length`, which the invariant proofs show is never exhausted on
contract-legal states. -/

/-- A map key: the (namespace_id, topic_name) pair, passed as two
arguments in C++. -/
abbrev TopicKey := List Nat × List Nat

structure TopicToSubscriptionMap where
  vector : List Nat
  sub_count_low : Nat
  sub_count_high : Nat
  sub_count : Nat
deriving DecidableEq

/-- `TopicToSubscriptionMap()` constructor: empty vector, zero counters. -/
def TopicToSubscriptionMap.init : TopicToSubscriptionMap := ⟨[], 0, 0, 0⟩

/-- `FindOptimalPosition`: XXH64 of namespace ∥ topic modulo the size. -/
def findOptimalPosition (xxh : TopicKey → Nat) (n : Nat) (k : TopicKey) :
    Nat := xxh k % n

/-- The scan loop of `Find`: from the optimal position until a gap, a
matching entry, or one full circle (`fuel = n`). -/
def scanFind (get_key : Nat → TopicKey) (vector : List Nat) (k : TopicKey) :
    Nat → Nat → Nat
  | _, 0 => 0
  | pos, fuel + 1 =>
    let id := vector.getD pos 0
    if id = 0 then 0
    else if get_key id = k then id
    else scanFind get_key vector k ((pos + 1) % vector.length) fuel

/-- `TopicToSubscriptionMap::Find`: returns the found subscription ID (0
for a miss) and the state (`get_state` result) for a hit. -/
def TopicToSubscriptionMap.find (get_key : Nat → TopicKey)
    (xxh : TopicKey → Nat) (m : TopicToSubscriptionMap) (k : TopicKey) :
    Nat × Option TopicKey :=
  if m.vector.length = 0 then (0, none)
  else
    let id := scanFind get_key m.vector k
      (findOptimalPosition xxh m.vector.length k) m.vector.length
    (id, if id = 0 then none else some (get_key id))

/-- The scan loop of `InsertInternal`: from the optimal position, a
duplicate ID is a no-op (asserted in C++), the first gap receives the ID;
returns the new vector and whether an insertion happened. -/
def scanInsert (vector : List Nat) (id : Nat) : Nat → Nat → List Nat × Bool
  | _, 0 => (vector, false)
  | pos, fuel + 1 =>
    let cur := vector.getD pos 0
    if cur = id then (vector, false)
    else if cur = 0 then (vector.set pos id, true)
    else scanInsert vector id ((pos + 1) % vector.length) fuel

/-- `TopicToSubscriptionMap::InsertInternal`. -/
def TopicToSubscriptionMap.insertInternal (xxh : TopicKey → Nat)
    (m : TopicToSubscriptionMap) (k : TopicKey) (id : Nat) :
    TopicToSubscriptionMap :=
  match scanInsert m.vector id
      (findOptimalPosition xxh m.vector.length k) m.vector.length with
  | (v, inserted) =>
    { m with
        vector := v
        sub_count := m.sub_count + (if inserted then 1 else 0) }

/-- `TopicToSubscriptionMap::NeedsRehash`. -/
def TopicToSubscriptionMap.needsRehash (m : TopicToSubscriptionMap) : Bool :=
  m.sub_count_low > m.sub_count || m.sub_count ≥ m.sub_count_high

/-- `TopicToSubscriptionMap::Rehash`: when the load leaves
`[low, high)`, rebuild at `new_size = count / kLoadFOpt` with
`kLoadFOpt = 0.375 = 3/8`, clamped to a minimum of 16 (dropping the low
watermark to 0 at minimum size), and reinsert every entry.  The C++
computes the sizes in `double`; `0.375`, `0.25` and `0.5` are exact binary
fractions, so the truncated results equal the integer formulas
`8·count/3`, `size/4` and `size/2` used here. -/
def TopicToSubscriptionMap.rehash (get_key : Nat → TopicKey)
    (xxh : TopicKey → Nat) (m : TopicToSubscriptionMap) :
    TopicToSubscriptionMap :=
  if ¬ m.needsRehash then m
  else
    let size0 := 8 * m.sub_count / 3
    let low0 := size0 / 4
    let new_size := if size0 ≤ 16 then 16 else size0
    let low := if size0 ≤ 16 then 0 else low0
    let high := new_size / 2
    m.vector.foldl
      (fun acc id =>
        if id ≠ 0 then acc.insertInternal xxh (get_key id) id
        else acc)
      { vector := List.replicate new_size 0,
        sub_count_low := low, sub_count_high := high, sub_count := 0 }

/-- `TopicToSubscriptionMap::Insert`: rehash if needed, then insert. -/
def TopicToSubscriptionMap.insert (get_key : Nat → TopicKey)
    (xxh : TopicKey → Nat) (m : TopicToSubscriptionMap) (k : TopicKey)
    (id : Nat) : TopicToSubscriptionMap :=
  (m.rehash get_key xxh).insertInternal xxh k id

/-- The `do-while` loop of `Remove` that locates the entry holding `id`:
stop at a gap or at `id`; a full circle ends back at the optimal
position. -/
def scanFindId (vector : List Nat) (id : Nat) : Nat → Nat → Nat
  | pos, 0 => pos
  | pos, fuel + 1 =>
    let cur := vector.getD pos 0
    if cur = 0 ∨ cur = id then pos
    else scanFindId vector id ((pos + 1) % vector.length) fuel

/-- The backward-shift loop of `Remove`: clear the gap, walk forward; an
entry whose optimal position lies in the cyclic interval
`(gap, current]` is left in place, any other entry is moved back into the
gap (which then moves to the entry's old slot); stop at the next gap. -/
def shiftLoop (get_key : Nat → TopicKey) (xxh : TopicKey → Nat)
    (vector : List Nat) (gap current : Nat) : Nat → List Nat
  | 0 => vector
  | fuel + 1 =>
    let v := vector.set gap 0
    let cur_pos := (current + 1) % v.length
    let cur_id := v.getD cur_pos 0
    if cur_id = 0 then v
    else
      let x := findOptimalPosition xxh v.length (get_key cur_id)
      if (if gap ≤ cur_pos then gap < x ∧ x ≤ cur_pos
          else gap < x ∨ x ≤ cur_pos) then
        shiftLoop get_key xxh v gap cur_pos fuel
      else
        shiftLoop get_key xxh (v.set gap cur_id) cur_pos cur_pos fuel

/-- `TopicToSubscriptionMap::Remove`.  (On an empty vector the C++
asserts inside `FindOptimalPosition`; the model returns `false`.) -/
def TopicToSubscriptionMap.remove (get_key : Nat → TopicKey)
    (xxh : TopicKey → Nat) (m : TopicToSubscriptionMap) (k : TopicKey)
    (id : Nat) : TopicToSubscriptionMap × Bool :=
  if m.vector.length = 0 then (m, false)
  else
    let optimal := findOptimalPosition xxh m.vector.length k
    let position := scanFindId m.vector id optimal m.vector.length
    if m.vector.getD position 0 ≠ id then (m, false)
    else
      let v := shiftLoop get_key xxh m.vector position position
        m.vector.length
      ((TopicToSubscriptionMap.rehash get_key xxh
        { m with vector := v, sub_count := m.sub_count - 1 }), true)

/-! ### Cyclic-distance toolkit

Positions in the probe vector live on a cycle of length `n`; `dist n a b`
is the number of forward steps from `a` to `b`. -/

def dist (n a b : Nat) : Nat := if a ≤ b then b - a else b + n - a

def countNonzero (v : List Nat) : Nat := (v.filter (· ≠ 0)).length

theorem dist_self (n a : Nat) : dist n a a = 0 := by simp [dist]

theorem dist_lt (n a b : Nat) (ha : a < n) (hb : b < n) : dist n a b < n := by
  unfold dist
  split <;> omega

theorem dist_eq_zero_iff (n a b : Nat) (ha : a < n) (hb : b < n) :
    dist n a b = 0 ↔ a = b := by
  unfold dist
  split <;> omega

theorem add_dist_mod (n a b : Nat) (ha : a < n) (hb : b < n) :
    (a + dist n a b) % n = b := by
  unfold dist
  split
  · rw [show a + (b - a) = b by omega]
    exact Nat.mod_eq_of_lt hb
  · rw [show a + (b + n - a) = b + n by omega, Nat.add_mod_right]
    exact Nat.mod_eq_of_lt hb

theorem dist_inj (n a b c : Nat) (ha : a < n) (hb : b < n) (hc : c < n)
    (h : dist n a b = dist n a c) : b = c := by
  have h1 := add_dist_mod n a b ha hb
  have h2 := add_dist_mod n a c ha hc
  rw [← h1, ← h2, h]

theorem step_mod (n c : Nat) (h : c < n) :
    (c + 1) % n = if c + 1 = n then 0 else c + 1 := by
  split
  · simp_all
  · exact Nat.mod_eq_of_lt (by omega)

theorem dist_step (n a c : Nat) (hn : 0 < n) (ha : a < n) (hc : c < n)
    (h : (c + 1) % n ≠ a) : dist n a ((c + 1) % n) = dist n a c + 1 := by
  by_cases hw : c + 1 = n
  · rw [step_mod n c hc, if_pos hw] at h ⊢
    unfold dist
    split <;> split <;> omega
  · rw [step_mod n c hc, if_neg hw] at h ⊢
    unfold dist
    split <;> split <;> omega

theorem dist_step_wrap (n a c : Nat) (hn : 0 < n) (ha : a < n) (hc : c < n)
    (h : (c + 1) % n = a) : dist n a c = n - 1 := by
  rw [step_mod n c hc] at h
  unfold dist
  split at h <;> split <;> omega

theorem dist_step_start (n c z : Nat) (hn : 0 < n) (hc : c < n) (hz : z < n)
    (h : 1 ≤ dist n c z) : dist n ((c + 1) % n) z = dist n c z - 1 := by
  rw [step_mod n c hc]
  unfold dist at h ⊢
  split at h <;> split <;> split <;> omega

theorem mod_lt_of_pos (n c : Nat) (hn : 0 < n) : (c + 1) % n < n :=
  Nat.mod_lt _ hn

/-- Decomposition: if `b` lies on the walk from `a` to `c`, the walk
splits exactly at `b`. -/
theorem dist_decomp (n a b c : Nat) (ha : a < n) (hb : b < n) (hc : c < n)
    (h : dist n a b ≤ dist n a c) :
    dist n a c = dist n a b + dist n b c := by
  unfold dist at h ⊢
  split at h <;> split at h <;> (repeat' split) <;> omega

/-- Two antipodal walks cover the whole cycle. -/
theorem dist_symm (n a b : Nat) (ha : a < n) (hb : b < n) (h : a ≠ b) :
    dist n a b + dist n b a = n := by
  unfold dist
  split <;> split <;> omega

theorem dist_triangle (n o g x : Nat) (ho : o < n) (hg : g < n)
    (hx : x < n) : dist n o x ≤ dist n o g + dist n g x := by
  unfold dist
  repeat' split
  all_goals omega

/-- A point on the walk from `o` to `p` taken after `g` (where `g` is also
on that walk) lies on the walk from `g`. -/
theorem dist_through (n o g x p : Nat) (ho : o < n) (hg : g < n) (hx : x < n)
    (hp : p < n) (hog : dist n o g ≤ dist n o p)
    (hgx : dist n g x ≤ dist n g p) : dist n o x ≤ dist n o p := by
  have h1 := dist_decomp n o g p ho hg hp hog
  have h2 := dist_triangle n o g x ho hg hx
  omega

/-- If an entry's optimum `o` lies strictly inside the interval `(g, p]`,
then `g` is not on the walk from `o` to `p`. -/
theorem path_avoids_gap (n g o p : Nat) (hg : g < n) (ho : o < n)
    (hp : p < n) (h1 : 1 ≤ dist n g o) (h2 : dist n g o ≤ dist n g p)
    (h3 : dist n o g ≤ dist n o p) : False := by
  have hne : g ≠ o := by
    intro h; rw [h, dist_self] at h1; omega
  have hdec := dist_decomp n g o p hg ho hp h2
  have hsym := dist_symm n g o hg ho hne
  have hlt := dist_lt n g p hg hp
  omega

/-! ### List access and permutation helpers -/

theorem getD_mem (v : List Nat) (p : Nat) (h : p < v.length) :
    v.getD p 0 ∈ v := by
  induction v generalizing p with
  | nil => simp at h
  | cons a tl ih =>
    cases p with
    | zero => simp [List.getD]
    | succ q =>
      simp only [List.length_cons] at h
      exact List.mem_cons_of_mem a (ih q (by omega))

theorem getD_set_self (v : List Nat) (p : Nat) (x : Nat)
    (h : p < v.length) : (v.set p x).getD p 0 = x := by
  induction v generalizing p with
  | nil => simp at h
  | cons a tl ih =>
    cases p with
    | zero => simp [List.set, List.getD]
    | succ q =>
      simp only [List.length_cons] at h
      simpa [List.set, List.getD] using ih q (by omega)

theorem getD_set_ne (v : List Nat) (p q : Nat) (x : Nat) (h : q ≠ p) :
    (v.set p x).getD q 0 = v.getD q 0 := by
  induction v generalizing p q with
  | nil => simp [List.set]
  | cons a tl ih =>
    cases p with
    | zero =>
      cases q with
      | zero => omega
      | succ q' => simp [List.set, List.getD]
    | succ p' =>
      cases q with
      | zero => simp [List.set, List.getD]
      | succ q' => simpa [List.set, List.getD] using ih p' q' (by omega)

theorem perm_filter_set_zero (v : List Nat) (p x : Nat) (hp : p < v.length)
    (hzero : v.getD p 0 = 0) (hx : x ≠ 0) :
    List.Perm ((v.set p x).filter (· ≠ 0)) (x :: v.filter (· ≠ 0)) := by
  induction v generalizing p with
  | nil => simp at hp
  | cons a tl ih =>
    cases p with
    | zero =>
      rw [List.getD_cons_zero] at hzero
      subst hzero
      simp [List.set, List.filter_cons, hx]
    | succ q =>
      simp only [List.length_cons] at hp
      rw [List.getD_cons_succ] at hzero
      have hperm := ih q (by omega) hzero
      have hset : (a :: tl).set (q + 1) x = a :: tl.set q x := rfl
      rw [hset]
      by_cases ha : a = 0
      · subst ha
        simpa [List.filter_cons] using hperm
      · rw [List.filter_cons, List.filter_cons, if_pos (by simpa using ha),
          if_pos (by simpa using ha)]
        exact (hperm.cons a).trans (List.Perm.swap x a _)

theorem perm_filter_set_to_zero (v : List Nat) (p : Nat) (hp : p < v.length)
    (hnz : v.getD p 0 ≠ 0) :
    List.Perm (v.getD p 0 :: (v.set p 0).filter (· ≠ 0))
      (v.filter (· ≠ 0)) := by
  induction v generalizing p with
  | nil => simp at hp
  | cons a tl ih =>
    cases p with
    | zero =>
      rw [List.getD_cons_zero] at hnz ⊢
      have hset : (a :: tl).set 0 0 = 0 :: tl := rfl
      rw [hset, List.filter_cons, List.filter_cons, if_neg (by simp),
        if_pos (by simpa using hnz)]
    | succ q =>
      simp only [List.length_cons] at hp
      rw [List.getD_cons_succ] at hnz ⊢
      have hperm := ih q (by omega) hnz
      have hset : (a :: tl).set (q + 1) 0 = a :: tl.set q 0 := rfl
      rw [hset]
      by_cases ha : a = 0
      · subst ha
        simpa [List.filter_cons] using hperm
      · rw [List.filter_cons, List.filter_cons, if_pos (by simpa using ha),
          if_pos (by simpa using ha)]
        exact (List.Perm.swap a (tl.getD q 0) _).trans (hperm.cons a)

/-- Two distinct positions cannot hold the same nonzero entry when the
nonzero entries are distinct. -/
theorem getD_inj_of_nodup (v : List Nat)
    (hnd : (v.filter (· ≠ 0)).Nodup) (p q : Nat) (hp : p < v.length)
    (hq : q < v.length) (hne : v.getD p 0 ≠ 0)
    (heq : v.getD p 0 = v.getD q 0) : p = q := by
  induction v generalizing p q with
  | nil => simp at hp
  | cons a tl ih =>
    have hnd' : (tl.filter (· ≠ 0)).Nodup := by
      by_cases ha : a = 0
      · simpa [List.filter_cons, ha] using hnd
      · have h2 := hnd
        rw [List.filter_cons, if_pos (by simpa using ha)] at h2
        exact h2.of_cons
    cases p with
    | zero =>
      cases q with
      | zero => rfl
      | succ q' =>
        exfalso
        rw [List.getD_cons_zero] at hne heq
        rw [List.getD_cons_succ] at heq
        have hmem : a ∈ tl.filter (· ≠ 0) := by
          rw [List.mem_filter]
          refine ⟨?_, by simpa using hne⟩
          rw [heq]
          exact getD_mem tl q' (by simp at hq; omega)
        rw [List.filter_cons, if_pos (by simpa using hne)] at hnd
        exact (List.nodup_cons.mp hnd).1 hmem
    | succ p' =>
      cases q with
      | zero =>
        exfalso
        rw [List.getD_cons_succ] at hne heq
        rw [List.getD_cons_zero] at heq
        have hane : a ≠ 0 := by rw [← heq]; exact hne
        have hmem : a ∈ tl.filter (· ≠ 0) := by
          rw [List.mem_filter]
          refine ⟨?_, by simpa using hane⟩
          rw [← heq]
          exact getD_mem tl p' (by simp at hp; omega)
        rw [List.filter_cons, if_pos (by simpa using hane)] at hnd
        exact (List.nodup_cons.mp hnd).1 hmem
      | succ q' =>
        rw [List.getD_cons_succ] at hne heq
        rw [List.getD_cons_succ] at heq
        have := ih hnd' p' q' (by simp at hp; omega) (by simp at hq; omega)
          hne heq
        omega

theorem getD_ne_of_not_mem (v : List Nat) (id : Nat) (hid : id ≠ 0)
    (h : id ∉ v) (p : Nat) : v.getD p 0 ≠ id := by
  by_cases hp : p < v.length
  · intro heq
    exact h (heq ▸ getD_mem v p hp)
  · rw [List.getD_eq_default _ _ (by omega)]
    omega



/-! ### Abstract views of the table -/

/-- The live (non-sentinel) subscription IDs stored in the probe vector. -/
def liveIds (v : List Nat) : List Nat := v.filter (· ≠ 0)

/-- The optimal position of the entry stored at slot `p`. -/
def optOf (get_key : Nat → TopicKey) (xxh : TopicKey → Nat)
    (v : List Nat) (p : Nat) : Nat :=
  findOptimalPosition xxh v.length (get_key (v.getD p 0))

/-- The claimed invariant: every slot on the cyclic probe path from an
entry's optimal position to the slot it occupies is non-zero. -/
def NoGap (get_key : Nat → TopicKey) (xxh : TopicKey → Nat)
    (v : List Nat) : Prop :=
  ∀ p, p < v.length → v.getD p 0 ≠ 0 →
    ∀ q, q < v.length →
      dist v.length (optOf get_key xxh v p) q ≤
        dist v.length (optOf get_key xxh v p) p →
      v.getD q 0 ≠ 0

/-- Weakened no-gap invariant maintained inside the backward-shift loop:
the probe path of each entry may additionally pass through the moving
gap `g`. -/
def INVexcept (get_key : Nat → TopicKey) (xxh : TopicKey → Nat)
    (v : List Nat) (g : Nat) : Prop :=
  ∀ p, p < v.length → v.getD p 0 ≠ 0 →
    ∀ q, q < v.length →
      dist v.length (optOf get_key xxh v p) q ≤
        dist v.length (optOf get_key xxh v p) p →
      v.getD q 0 ≠ 0 ∨ q = g

theorem exists_zero_of_count_lt (v : List Nat)
    (h : countNonzero v < v.length) :
    ∃ z, z < v.length ∧ v.getD z 0 = 0 := by
  induction v with
  | nil => simp at h
  | cons a tl ih =>
    by_cases ha : a = 0
    · exact ⟨0, by simp, by simpa [List.getD_cons_zero] using ha⟩
    · unfold countNonzero at h ih
      rw [List.filter_cons, if_pos (by simpa using ha)] at h
      simp only [List.length_cons] at h
      obtain ⟨z, hz, hz0⟩ := ih (by omega)
      exact ⟨z + 1, by simp; omega, by simpa [List.getD_cons_succ] using hz0⟩

theorem getD_of_mem (v : List Nat) (a : Nat) (h : a ∈ v) :
    ∃ p, p < v.length ∧ v.getD p 0 = a := by
  induction v with
  | nil => simp at h
  | cons b tl ih =>
    rcases List.mem_cons.mp h with hb | htl
    · exact ⟨0, by simp, by simpa [List.getD_cons_zero] using hb.symm⟩
    · obtain ⟨p, hp, hpa⟩ := ih htl
      exact ⟨p + 1, by simp; omega, by simpa [List.getD_cons_succ] using hpa⟩

/-- The cyclic-interval test of the backward-shift loop, rephrased with
cyclic distances from the gap. -/
theorem shift_cond_iff (n g c x : Nat) (hg : g < n) (hc : c < n)
    (hx : x < n) (hne : g ≠ c) :
    (if g ≤ c then g < x ∧ x ≤ c else g < x ∨ x ≤ c) ↔
      (1 ≤ dist n g x ∧ dist n g x ≤ dist n g c) := by
  unfold dist
  repeat' split
  all_goals omega

/-- Characterisation of the insertion scan: started anywhere with a
reachable gap, an absent ID lands in the first gap on the probe path. -/
theorem scanInsert_spec (v : List Nat) (id : Nat) (hid : id ≠ 0)
    (hnotin : id ∉ v) :
    ∀ (fuel start : Nat), start < v.length →
    (∃ d, d < fuel ∧ v.getD ((start + d) % v.length) 0 = 0) →
    ∃ pos, pos < v.length ∧ v.getD pos 0 = 0 ∧
      scanInsert v id start fuel = (v.set pos id, true) ∧
      ∀ q, q < v.length →
        dist v.length start q < dist v.length start pos →
        v.getD q 0 ≠ 0 := by
  intro fuel
  induction fuel with
  | zero => intro start _ h; obtain ⟨d, hd, _⟩ := h; omega
  | succ fuel ih =>
    intro start hstart hzero
    have hcur : v.getD start 0 ≠ id :=
      getD_ne_of_not_mem v id hid hnotin start
    by_cases hsz : v.getD start 0 = 0
    · refine ⟨start, hstart, hsz, ?_, ?_⟩
      · simp only [scanInsert]
        rw [if_neg hcur, if_pos hsz]
      · intro q hq hdq
        rw [dist_self] at hdq
        omega
    · have hn : 0 < v.length := by omega
      obtain ⟨d, hd, hdz⟩ := hzero
      have hd0 : d ≠ 0 := by
        intro h
        subst h
        rw [Nat.add_zero, Nat.mod_eq_of_lt hstart] at hdz
        exact hsz hdz
      have hzero' : ∃ d', d' < fuel ∧
          v.getD (((start + 1) % v.length + d') % v.length) 0 = 0 := by
        refine ⟨d - 1, by omega, ?_⟩
        rw [Nat.mod_add_mod, show start + 1 + (d - 1) = start + d by omega]
        exact hdz
      obtain ⟨pos, hpos, hpz, hscan, hbefore⟩ :=
        ih ((start + 1) % v.length) (mod_lt_of_pos v.length start hn) hzero'
      have hne_pos : pos ≠ start := by
        intro h; rw [h] at hpz; exact hsz hpz
      refine ⟨pos, hpos, hpz, ?_, ?_⟩
      · simp only [scanInsert]
        rw [if_neg hcur, if_neg hsz]
        exact hscan
      · intro q hq hdq
        by_cases hqs : q = start
        · rw [hqs]; exact hsz
        · have h1 : 1 ≤ dist v.length start q := by
            rcases Nat.eq_zero_or_pos (dist v.length start q) with h0 | h0
            · exact absurd ((dist_eq_zero_iff _ _ _ hstart hq).mp h0)
                (fun h => hqs h.symm)
            · omega
          have h2 : 1 ≤ dist v.length start pos := by
            rcases Nat.eq_zero_or_pos (dist v.length start pos) with h0 | h0
            · exact absurd ((dist_eq_zero_iff _ _ _ hstart hpos).mp h0)
                (fun h => hne_pos h.symm)
            · omega
          have hq' := dist_step_start v.length start q hn hstart hq h1
          have hp' := dist_step_start v.length start pos hn hstart hpos h2
          exact hbefore q hq (by omega)


/-- `InsertInternal` on a legal input: the ID lands in the first gap on
its probe path; the count rises by one, the live set gains `id`, and the
no-gap invariant is preserved. -/
theorem insertInternal_step (get_key : Nat → TopicKey) (xxh : TopicKey → Nat)
    (m : TopicToSubscriptionMap) (k : TopicKey) (id : Nat)
    (hroom : countNonzero m.vector < m.vector.length)
    (hnogap : NoGap get_key xxh m.vector)
    (hid : id ≠ 0) (hnotin : id ∉ m.vector) (hkey : get_key id = k) :
    ∃ pos, pos < m.vector.length ∧ m.vector.getD pos 0 = 0 ∧
      m.insertInternal xxh k id =
        { m with vector := m.vector.set pos id,
                 sub_count := m.sub_count + 1 } ∧
      List.Perm (liveIds (m.vector.set pos id)) (id :: liveIds m.vector) ∧
      NoGap get_key xxh (m.vector.set pos id) := by
  have hn : 0 < m.vector.length := by omega
  have hstart : findOptimalPosition xxh m.vector.length k < m.vector.length :=
    Nat.mod_lt _ hn
  obtain ⟨z, hz, hz0⟩ := exists_zero_of_count_lt m.vector hroom
  have hzero : ∃ d, d < m.vector.length ∧
      m.vector.getD ((findOptimalPosition xxh m.vector.length k + d) %
        m.vector.length) 0 = 0 := by
    refine ⟨dist m.vector.length (findOptimalPosition xxh m.vector.length k) z,
      dist_lt _ _ _ hstart hz, ?_⟩
    rw [add_dist_mod _ _ _ hstart hz]
    exact hz0
  obtain ⟨pos, hpos, hpz, hscan, hbefore⟩ :=
    scanInsert_spec m.vector id hid hnotin m.vector.length
      (findOptimalPosition xxh m.vector.length k) hstart hzero
  have hlen : (m.vector.set pos id).length = m.vector.length :=
    List.length_set m.vector pos id
  refine ⟨pos, hpos, hpz, ?_, ?_, ?_⟩
  · simp only [TopicToSubscriptionMap.insertInternal, hscan, if_true]
  · exact perm_filter_set_zero m.vector pos id hpos hpz hid
  · intro p hp hpnz q hq hq_on
    rw [hlen] at hp hq
    by_cases hppos : p = pos
    · subst hppos
      have hentry : (m.vector.set p id).getD p 0 = id :=
        getD_set_self m.vector p id hp
      have hopt : optOf get_key xxh (m.vector.set p id) p =
          findOptimalPosition xxh m.vector.length k := by
        unfold optOf
        rw [hlen, hentry, hkey]
      rw [hopt, hlen] at hq_on
      by_cases hqpos : q = p
      · rw [hqpos, hentry]; exact hid
      · have hlt : dist m.vector.length
            (findOptimalPosition xxh m.vector.length k) q <
            dist m.vector.length
              (findOptimalPosition xxh m.vector.length k) p := by
          rcases Nat.lt_or_ge (dist m.vector.length
              (findOptimalPosition xxh m.vector.length k) q)
            (dist m.vector.length
              (findOptimalPosition xxh m.vector.length k) p) with h | h
          · exact h
          · exact absurd (dist_inj _ _ _ _ hstart hq hp (by omega)) hqpos
        rw [getD_set_ne m.vector p q id hqpos]
        exact hbefore q hq hlt
    · have hpv : (m.vector.set pos id).getD p 0 = m.vector.getD p 0 :=
        getD_set_ne m.vector pos p id hppos
      have hopt : optOf get_key xxh (m.vector.set pos id) p =
          optOf get_key xxh m.vector p := by
        unfold optOf
        rw [hlen, hpv]
      rw [hopt, hlen] at hq_on
      by_cases hqpos : q = pos
      · rw [hqpos, getD_set_self m.vector pos id hpos]
        exact hid
      · rw [getD_set_ne m.vector pos q id hqpos]
        exact hnogap p hp (hpv ▸ hpnz) q hq hq_on

theorem liveIds_replicate_zero (n : Nat) :
    liveIds (List.replicate n 0) = [] := by
  induction n with
  | zero => rfl
  | succ n ih => simpa [liveIds, List.replicate_succ, List.filter_cons]
      using ih

theorem getD_replicate_zero (n p : Nat) :
    (List.replicate n 0).getD p 0 = 0 := by
  induction n generalizing p with
  | zero => simp [List.getD]
  | succ n ih =>
    cases p with
    | zero => simp [List.replicate_succ]
    | succ q => simpa [List.replicate_succ, List.getD_cons_succ] using ih q

/-- The reinsertion fold of `Rehash` (the `foldl` in the C++ range
loop), named for reuse in proofs. -/
def foldIns (get_key : Nat → TopicKey) (xxh : TopicKey → Nat)
    (acc : TopicToSubscriptionMap) (xs : List Nat) :
    TopicToSubscriptionMap :=
  xs.foldl (fun acc id =>
    if id ≠ 0 then acc.insertInternal xxh (get_key id) id else acc) acc

/-- Reinserting a duplicate-free list of IDs into a table with enough
room preserves well-formedness and accumulates the live set. -/
theorem foldIns_spec (get_key : Nat → TopicKey) (xxh : TopicKey → Nat) :
    ∀ (xs : List Nat) (acc : TopicToSubscriptionMap),
    acc.sub_count = countNonzero acc.vector →
    NoGap get_key xxh acc.vector →
    (liveIds acc.vector ++ xs.filter (· ≠ 0)).Nodup →
    ((liveIds acc.vector ++ xs.filter (· ≠ 0)).map get_key).Nodup →
    countNonzero acc.vector + (xs.filter (· ≠ 0)).length <
      acc.vector.length →
    (foldIns get_key xxh acc xs).vector.length = acc.vector.length ∧
    (foldIns get_key xxh acc xs).sub_count_low = acc.sub_count_low ∧
    (foldIns get_key xxh acc xs).sub_count_high = acc.sub_count_high ∧
    (foldIns get_key xxh acc xs).sub_count =
      acc.sub_count + (xs.filter (· ≠ 0)).length ∧
    List.Perm (liveIds (foldIns get_key xxh acc xs).vector)
      (liveIds acc.vector ++ xs.filter (· ≠ 0)) ∧
    NoGap get_key xxh (foldIns get_key xxh acc xs).vector := by
  intro xs
  induction xs with
  | nil =>
    intro acc hcount hnogap hnd hknd hroom
    refine ⟨rfl, rfl, rfl, by simp [foldIns], ?_, hnogap⟩
    simp [foldIns]
  | cons x xs ih =>
    intro acc hcount hnogap hnd hknd hroom
    by_cases hx0 : x = 0
    · subst hx0
      have hstep : foldIns get_key xxh acc (0 :: xs) =
          foldIns get_key xxh acc xs := by
        simp [foldIns]
      have hfx : (0 :: xs).filter (· ≠ 0) = xs.filter (· ≠ 0) := by
        simp [List.filter_cons]
      rw [hfx] at hnd hknd hroom ⊢
      rw [hstep]
      exact ih acc hcount hnogap hnd hknd hroom
    · have hfx : (x :: xs).filter (· ≠ 0) = x :: xs.filter (· ≠ 0) := by
        rw [List.filter_cons, if_pos (by simpa using hx0)]
      rw [hfx] at hnd hknd hroom ⊢
      have hxmem : x ∉ acc.vector := by
        intro hmem
        have hlive : x ∈ liveIds acc.vector :=
          List.mem_filter.mpr ⟨hmem, by simpa using hx0⟩
        have hdisj := (List.nodup_append.mp hnd).2.2
        exact hdisj hlive (List.mem_cons_self x _)
      obtain ⟨pos, hpos, hpz, heq, hperm, hnogap'⟩ :=
        insertInternal_step get_key xxh acc (get_key x) x
          (by simp at hroom; omega) hnogap hx0 hxmem rfl
      have hstep : foldIns get_key xxh acc (x :: xs) =
          foldIns get_key xxh (acc.insertInternal xxh (get_key x) x) xs := by
        simp [foldIns, hx0]
      have hlen' : (acc.insertInternal xxh (get_key x) x).vector.length =
          acc.vector.length := by
        rw [heq]
        exact List.length_set acc.vector pos x
      have hvec' : (acc.insertInternal xxh (get_key x) x).vector =
          acc.vector.set pos x := by rw [heq]
      have hpermA : List.Perm
          (liveIds (acc.insertInternal xxh (get_key x) x).vector ++
            xs.filter (· ≠ 0))
          (liveIds acc.vector ++ x :: xs.filter (· ≠ 0)) := by
        rw [hvec']
        exact (hperm.append_right _).trans List.perm_middle.symm
      have hcn' : countNonzero (acc.insertInternal xxh (get_key x) x).vector =
          countNonzero acc.vector + 1 := by
        rw [hvec']
        unfold countNonzero
        have := hperm.length_eq
        unfold liveIds at this
        simpa using this
      obtain ⟨ihl, ihlow, ihhigh, ihcnt, ihperm, ihng⟩ :=
        ih (acc.insertInternal xxh (get_key x) x)
          (by
            rw [hcn', heq]
            show acc.sub_count + 1 = countNonzero acc.vector + 1
            rw [hcount])
          (by rw [hvec']; exact hnogap')
          ((hpermA.nodup_iff).mpr hnd)
          (by
            have := (hpermA.map get_key).nodup_iff
            rw [List.map_append, List.map_append] at this
            rw [List.map_append]
            exact this.mpr (by rw [← List.map_append]; exact hknd))
          (by rw [hcn', hlen']; simp at hroom ⊢; omega)
      rw [hstep] at *
      refine ⟨ihl.trans hlen', ?_, ?_, ?_, ?_, ihng⟩
      · rw [ihlow, heq]
      · rw [ihhigh, heq]
      · rw [ihcnt, heq]
        show acc.sub_count + 1 + (xs.filter (· ≠ 0)).length =
          acc.sub_count + (x :: xs.filter (· ≠ 0)).length
        simp [List.length_cons]
        omega
      · exact ihperm.trans hpermA

/-- Well-formedness of a proper (post-first-rehash) table.  `count` may
transiently equal `sub_count_high` right after an insertion. -/
structure TableWf (get_key : Nat → TopicKey) (xxh : TopicKey → Nat)
    (m : TopicToSubscriptionMap) : Prop where
  size16 : 16 ≤ m.vector.length
  high_eq : m.sub_count_high = m.vector.length / 2
  low_le : m.sub_count_low ≤ m.sub_count
  count_le : m.sub_count ≤ m.sub_count_high
  count_eq : m.sub_count = countNonzero m.vector
  nodup : (liveIds m.vector).Nodup
  keys_nodup : ((liveIds m.vector).map get_key).Nodup
  nogap : NoGap get_key xxh m.vector

/-- A reachable map state: the pristine constructor state or a proper
table. -/
def MapWf (get_key : Nat → TopicKey) (xxh : TopicKey → Nat)
    (m : TopicToSubscriptionMap) : Prop :=
  m = TopicToSubscriptionMap.init ∨ TableWf get_key xxh m

theorem rehash_room (c : Nat) :
    c < (if 8 * c / 3 ≤ 16 then 16 else 8 * c / 3) / 2 := by
  by_cases h : 8 * c / 3 ≤ 16 <;> simp [h] <;> omega

/-- `Rehash` restores a strictly-below-high proper table whenever its
input is the pristine state or a proper table, preserving the live set. -/
theorem rehash_spec (get_key : Nat → TopicKey) (xxh : TopicKey → Nat)
    (m : TopicToSubscriptionMap)
    (hm : m = TopicToSubscriptionMap.init ∨
      (16 ≤ m.vector.length ∧ m.sub_count_high = m.vector.length / 2 ∧
       m.sub_count ≤ m.sub_count_high ∧
       m.sub_count = countNonzero m.vector ∧
       (liveIds m.vector).Nodup ∧ ((liveIds m.vector).map get_key).Nodup ∧
       NoGap get_key xxh m.vector)) :
    TableWf get_key xxh (m.rehash get_key xxh) ∧
    (m.rehash get_key xxh).sub_count < (m.rehash get_key xxh).sub_count_high ∧
    (m.rehash get_key xxh).sub_count = m.sub_count ∧
    List.Perm (liveIds (m.rehash get_key xxh).vector) (liveIds m.vector) := by
  by_cases hnr : m.needsRehash
  · -- rebuild branch
    have hreh : m.rehash get_key xxh = foldIns get_key xxh
        { vector := List.replicate
            (if 8 * m.sub_count / 3 ≤ 16 then 16 else 8 * m.sub_count / 3) 0,
          sub_count_low :=
            if 8 * m.sub_count / 3 ≤ 16 then 0 else 8 * m.sub_count / 3 / 4,
          sub_count_high :=
            (if 8 * m.sub_count / 3 ≤ 16 then 16 else 8 * m.sub_count / 3) / 2,
          sub_count := 0 } m.vector := by
      unfold TopicToSubscriptionMap.rehash foldIns
      rw [if_neg (by simpa using hnr)]
    set new_size := if 8 * m.sub_count / 3 ≤ 16 then 16 else 8 * m.sub_count / 3 with hns
    set acc0 : TopicToSubscriptionMap :=
      { vector := List.replicate new_size 0,
        sub_count_low := if 8 * m.sub_count / 3 ≤ 16 then 0
          else 8 * m.sub_count / 3 / 4,
        sub_count_high := new_size / 2,
        sub_count := 0 } with hacc0
    have hlive0 : liveIds acc0.vector = [] := liveIds_replicate_zero new_size
    have hcn0 : countNonzero acc0.vector = 0 := by
      unfold countNonzero
      unfold liveIds at hlive0
      rw [hlive0]
      rfl
    have hng0 : NoGap get_key xxh acc0.vector := by
      intro p hp hpnz q hq hle
      exact absurd (getD_replicate_zero new_size p) hpnz
    have hcnm : (m.vector.filter (· ≠ 0)).length = m.sub_count := by
      rcases hm with hinit | hprop
      · rw [hinit]; rfl
      · have := hprop.2.2.2.1
        unfold countNonzero at this
        omega
    have hsize16 : 16 ≤ new_size := by
      rw [hns]; split <;> omega
    have hcount_lt : m.sub_count < new_size / 2 := by
      have := rehash_room m.sub_count
      rw [hns]
      exact this
    have hroom0 : countNonzero acc0.vector +
        (m.vector.filter (· ≠ 0)).length < acc0.vector.length := by
      rw [hcn0, hcnm]
      have hlen0 : acc0.vector.length = new_size := by
        rw [hacc0]
        exact List.length_replicate new_size 0
      rw [hlen0]
      omega
    have hndm : (m.vector.filter (· ≠ 0)).Nodup := by
      rcases hm with hinit | hprop
      · rw [hinit]; exact List.nodup_nil
      · exact hprop.2.2.2.2.1
    have hkndm : ((m.vector.filter (· ≠ 0)).map get_key).Nodup := by
      rcases hm with hinit | hprop
      · rw [hinit]; exact List.nodup_nil
      · exact hprop.2.2.2.2.2.1
    obtain ⟨hl, hlow, hhigh, hcnt, hperm, hng⟩ :=
      foldIns_spec get_key xxh m.vector acc0
        (by rw [hcn0])
        hng0
        (by rw [hlive0]; simpa using hndm)
        (by rw [hlive0]; simpa using hkndm)
        hroom0
    have hlen0 : acc0.vector.length = new_size := by
      rw [hacc0]
      exact List.length_replicate new_size 0
    have hrlen : (m.rehash get_key xxh).vector.length = new_size := by
      rw [hreh, hl, hlen0]
    have hrcnt : (m.rehash get_key xxh).sub_count = m.sub_count := by
      rw [hreh, hcnt]
      show 0 + (m.vector.filter (· ≠ 0)).length = m.sub_count
      rw [hcnm]
      omega
    have hrhigh : (m.rehash get_key xxh).sub_count_high = new_size / 2 := by
      rw [hreh, hhigh]
    have hrlow : (m.rehash get_key xxh).sub_count_low =
        (if 8 * m.sub_count / 3 ≤ 16 then 0 else 8 * m.sub_count / 3 / 4) := by
      rw [hreh, hlow]
    have hrperm : List.Perm (liveIds (m.rehash get_key xxh).vector)
        (liveIds m.vector) := by
      rw [hreh]
      refine hperm.trans ?_
      rw [hlive0]
      exact List.Perm.refl _
    have hrcneq : (m.rehash get_key xxh).sub_count =
        countNonzero (m.rehash get_key xxh).vector := by
      rw [hrcnt]
      unfold countNonzero
      have := hrperm.length_eq
      unfold liveIds at this
      rw [this]
      exact hcnm.symm
    refine ⟨⟨?_, ?_, ?_, ?_, hrcneq, ?_, ?_, ?_⟩, ?_, hrcnt, hrperm⟩
    · rw [hrlen]; exact hsize16
    · rw [hrhigh, hrlen]
    · rw [hrlow, hrcnt]
      split
      · omega
      · omega
    · rw [hrcnt, hrhigh]; omega
    · exact (hrperm.nodup_iff).mpr hndm
    · exact ((hrperm.map get_key).nodup_iff).mpr hkndm
    · rw [hreh]; exact hng
    · rw [hrcnt, hrhigh]; exact hcount_lt
  · -- no rehash: the table already satisfies the strict bounds
    have hreh : m.rehash get_key xxh = m := by
      unfold TopicToSubscriptionMap.rehash
      rw [if_pos (by simpa using hnr)]
    have hbounds : m.sub_count_low ≤ m.sub_count ∧
        m.sub_count < m.sub_count_high := by
      unfold TopicToSubscriptionMap.needsRehash at hnr
      simp only [Bool.or_eq_true, decide_eq_true_eq, not_or] at hnr
      omega
    rcases hm with hinit | hprop
    · exfalso
      apply hnr
      rw [hinit]
      rfl
    · rw [hreh]
      exact ⟨⟨hprop.1, hprop.2.1, hbounds.1, by omega, hprop.2.2.2.1,
        hprop.2.2.2.2.1, hprop.2.2.2.2.2.1, hprop.2.2.2.2.2.2⟩,
        hbounds.2, rfl, List.Perm.refl _⟩

theorem live_key_inj (get_key : Nat → TopicKey) (v : List Nat)
    (hknd : ((v.filter (· ≠ 0)).map get_key).Nodup) (a b : Nat)
    (ha : a ∈ v.filter (· ≠ 0)) (hb : b ∈ v.filter (· ≠ 0))
    (hk : get_key a = get_key b) : a = b :=
  List.inj_on_of_nodup_map hknd ha hb hk

/-- The walking core of `scanFindId`: under the no-gap invariant, the
scan started on the probe path of the slot holding `id` reaches exactly
that slot. -/
theorem scanFindId_walk (get_key : Nat → TopicKey) (xxh : TopicKey → Nat)
    (v : List Nat) (id : Nat) (hnogap : NoGap get_key xxh v)
    (hnd : (v.filter (· ≠ 0)).Nodup) (p : Nat) (hp : p < v.length)
    (hpid : v.getD p 0 = id) (hid : id ≠ 0) :
    ∀ (fuel pos : Nat), pos < v.length →
    dist v.length (optOf get_key xxh v p) pos ≤
      dist v.length (optOf get_key xxh v p) p →
    dist v.length pos p < fuel →
    scanFindId v id pos fuel = p := by
  have hopt : optOf get_key xxh v p < v.length := Nat.mod_lt _ (by omega)
  intro fuel
  induction fuel with
  | zero => intro pos _ _ h; omega
  | succ fuel ih =>
    intro pos hpos honpath hfuel
    by_cases hpp : pos = p
    · subst hpp
      simp only [scanFindId]
      rw [if_pos (Or.inr hpid)]
    · have hcur : v.getD pos 0 ≠ 0 :=
        hnogap p hp (by rw [hpid]; exact hid) pos hpos honpath
      have hcurid : v.getD pos 0 ≠ id := by
        intro h
        exact hpp (getD_inj_of_nodup v hnd pos p hpos hp hcur (by rw [h, hpid]))
      have hlt : dist v.length (optOf get_key xxh v p) pos <
          dist v.length (optOf get_key xxh v p) p := by
        rcases Nat.lt_or_ge (dist v.length (optOf get_key xxh v p) pos)
          (dist v.length (optOf get_key xxh v p) p) with h | h
        · exact h
        · exact absurd (dist_inj _ _ _ _ hopt hpos hp (by omega)) hpp
      have hn : 0 < v.length := by omega
      have hwrap : (pos + 1) % v.length ≠ optOf get_key xxh v p := by
        intro h
        have := dist_step_wrap v.length (optOf get_key xxh v p) pos hn hopt
          hpos h
        have := dist_lt v.length (optOf get_key xxh v p) p hopt hp
        omega
      have hstep := dist_step v.length (optOf get_key xxh v p) pos hn hopt
        hpos hwrap
      have hdpp : 1 ≤ dist v.length pos p := by
        rcases Nat.eq_zero_or_pos (dist v.length pos p) with h0 | h0
        · exact absurd ((dist_eq_zero_iff _ _ _ hpos hp).mp h0) hpp
        · omega
      have hback := dist_step_start v.length pos p hn hpos hp hdpp
      simp only [scanFindId]
      rw [if_neg (by push_neg; exact ⟨hcur, hcurid⟩)]
      exact ih ((pos + 1) % v.length) (mod_lt_of_pos v.length pos hn)
        (by omega) (by omega)

/-- The walking core of `Find`'s scan on a hit. -/
theorem scanFind_hit_walk (get_key : Nat → TopicKey) (xxh : TopicKey → Nat)
    (v : List Nat) (k : TopicKey) (x : Nat)
    (hnogap : NoGap get_key xxh v) (hnd : (v.filter (· ≠ 0)).Nodup)
    (hknd : ((v.filter (· ≠ 0)).map get_key).Nodup)
    (p : Nat) (hp : p < v.length) (hpx : v.getD p 0 = x) (hx0 : x ≠ 0)
    (hkx : get_key x = k) :
    ∀ (fuel pos : Nat), pos < v.length →
    dist v.length (optOf get_key xxh v p) pos ≤
      dist v.length (optOf get_key xxh v p) p →
    dist v.length pos p < fuel →
    scanFind get_key v k pos fuel = x := by
  have hopt : optOf get_key xxh v p < v.length := Nat.mod_lt _ (by omega)
  have hxmem : x ∈ v.filter (· ≠ 0) :=
    List.mem_filter.mpr ⟨hpx ▸ getD_mem v p hp, by simpa using hx0⟩
  intro fuel
  induction fuel with
  | zero => intro pos _ _ h; omega
  | succ fuel ih =>
    intro pos hpos honpath hfuel
    by_cases hpp : pos = p
    · subst hpp
      simp only [scanFind]
      rw [hpx, if_neg hx0, if_pos hkx]
    · have hcur : v.getD pos 0 ≠ 0 :=
        hnogap p hp (by rw [hpx]; exact hx0) pos hpos honpath
      have hcurk : get_key (v.getD pos 0) ≠ k := by
        intro h
        have hcmem : v.getD pos 0 ∈ v.filter (· ≠ 0) :=
          List.mem_filter.mpr ⟨getD_mem v pos hpos, by simpa using hcur⟩
        have : v.getD pos 0 = x :=
          live_key_inj get_key v hknd _ _ hcmem hxmem (by rw [h, hkx])
        exact hpp (getD_inj_of_nodup v hnd pos p hpos hp hcur
          (by rw [this, hpx]))
      have hlt : dist v.length (optOf get_key xxh v p) pos <
          dist v.length (optOf get_key xxh v p) p := by
        rcases Nat.lt_or_ge (dist v.length (optOf get_key xxh v p) pos)
          (dist v.length (optOf get_key xxh v p) p) with h | h
        · exact h
        · exact absurd (dist_inj _ _ _ _ hopt hpos hp (by omega)) hpp
      have hn : 0 < v.length := by omega
      have hwrap : (pos + 1) % v.length ≠ optOf get_key xxh v p := by
        intro h
        have := dist_step_wrap v.length (optOf get_key xxh v p) pos hn hopt
          hpos h
        have := dist_lt v.length (optOf get_key xxh v p) p hopt hp
        omega
      have hstep := dist_step v.length (optOf get_key xxh v p) pos hn hopt
        hpos hwrap
      have hdpp : 1 ≤ dist v.length pos p := by
        rcases Nat.eq_zero_or_pos (dist v.length pos p) with h0 | h0
        · exact absurd ((dist_eq_zero_iff _ _ _ hpos hp).mp h0) hpp
        · omega
      have hback := dist_step_start v.length pos p hn hpos hp hdpp
      simp only [scanFind]
      rw [if_neg hcur, if_neg hcurk]
      exact ih ((pos + 1) % v.length) (mod_lt_of_pos v.length pos hn)
        (by omega) (by omega)

/-- The walking core of `Find`'s scan on a miss: with no live entry for
the key and a reachable gap, the scan returns the sentinel. -/
theorem scanFind_miss_walk (get_key : Nat → TopicKey) (v : List Nat)
    (k : TopicKey) (hmiss : ∀ e ∈ v.filter (· ≠ 0), get_key e ≠ k) :
    ∀ (fuel pos : Nat), pos < v.length →
    (∃ d, d < fuel ∧ v.getD ((pos + d) % v.length) 0 = 0) →
    scanFind get_key v k pos fuel = 0 := by
  intro fuel
  induction fuel with
  | zero => intro pos _ h; obtain ⟨d, hd, _⟩ := h; omega
  | succ fuel ih =>
    intro pos hpos hzero
    by_cases hsz : v.getD pos 0 = 0
    · simp only [scanFind]
      rw [if_pos hsz]
    · have hn : 0 < v.length := by omega
      have hcurk : get_key (v.getD pos 0) ≠ k :=
        hmiss _ (List.mem_filter.mpr ⟨getD_mem v pos hpos, by simpa using hsz⟩)
      obtain ⟨d, hd, hdz⟩ := hzero
      have hd0 : d ≠ 0 := by
        intro h
        subst h
        rw [Nat.add_zero, Nat.mod_eq_of_lt hpos] at hdz
        exact hsz hdz
      simp only [scanFind]
      rw [if_neg hsz, if_neg hcurk]
      refine ih ((pos + 1) % v.length) (mod_lt_of_pos v.length pos hn)
        ⟨d - 1, by omega, ?_⟩
      rw [Nat.mod_add_mod, show pos + 1 + (d - 1) = pos + d by omega]
      exact hdz

/-- `Find` on a well-formed table: returns the unique live ID stored
under the key, or the sentinel and a null state on a miss. -/
theorem find_spec (get_key : Nat → TopicKey) (xxh : TopicKey → Nat)
    (m : TopicToSubscriptionMap) (hwf : TableWf get_key xxh m)
    (k : TopicKey) :
    (∀ x, x ∈ liveIds m.vector → get_key x = k →
        m.find get_key xxh k = (x, some k)) ∧
    ((∀ e, e ∈ liveIds m.vector → get_key e ≠ k) →
        m.find get_key xxh k = (0, none)) := by
  have hn : 0 < m.vector.length := by have := hwf.size16; omega
  have hstart : findOptimalPosition xxh m.vector.length k <
      m.vector.length := Nat.mod_lt _ hn
  constructor
  · intro x hx hkx
    have hx0 : x ≠ 0 := by
      have := (List.mem_filter.mp hx).2
      simpa using this
    obtain ⟨p, hp, hpx⟩ := getD_of_mem m.vector x (List.mem_filter.mp hx).1
    have hoptp : optOf get_key xxh m.vector p =
        findOptimalPosition xxh m.vector.length k := by
      unfold optOf
      rw [hpx, hkx]
    have hscan := scanFind_hit_walk get_key xxh m.vector k x hwf.nogap
      hwf.nodup hwf.keys_nodup p hp hpx hx0 hkx m.vector.length
      (findOptimalPosition xxh m.vector.length k)
      hstart
      (by rw [hoptp, dist_self]; exact Nat.zero_le _)
      (dist_lt _ _ _ hstart hp)
    simp only [TopicToSubscriptionMap.find]
    rw [if_neg (by omega), hscan, if_neg hx0, hkx]
  · intro hmiss
    have hroom : countNonzero m.vector < m.vector.length := by
      have h1 := hwf.count_eq
      have h2 := hwf.count_le
      have h3 := hwf.high_eq
      have h4 := hwf.size16
      omega
    obtain ⟨z, hz, hz0⟩ := exists_zero_of_count_lt m.vector hroom
    have hscan := scanFind_miss_walk get_key m.vector k
      (fun e he => hmiss e he) m.vector.length
      (findOptimalPosition xxh m.vector.length k) hstart
      ⟨dist m.vector.length (findOptimalPosition xxh m.vector.length k) z,
        dist_lt _ _ _ hstart hz,
        by rw [add_dist_mod _ _ _ hstart hz]; exact hz0⟩
    simp only [TopicToSubscriptionMap.find]
    rw [if_neg (by omega), hscan]
    rfl

theorem dist_lt_of_ne (n a b c : Nat) (ha : a < n) (hb : b < n) (hc : c < n)
    (hle : dist n a b ≤ dist n a c) (hne : b ≠ c) :
    dist n a b < dist n a c := by
  rcases Nat.lt_or_ge (dist n a b) (dist n a c) with h | h
  · exact h
  · exact absurd (dist_inj n a b c ha hb hc (by omega)) hne

/-- Master invariant lemma for the backward-shift loop of `Remove`.
`v.set g 0` is the table with the gap cleared; the loop walks `c`
forward.  Hypotheses: every entry's probe path is unbroken except
possibly at `g`; entries already scanned (between `g` and `c`) do not
probe through `g`; and a zero slot other than `g` lies within `fuel`
steps ahead of `c`.  The loop then terminates with the multiset of
entries of `v.set g 0` and an unbroken table. -/
theorem shiftLoop_spec (get_key : Nat → TopicKey) (xxh : TopicKey → Nat) :
    ∀ (fuel : Nat) (v : List Nat) (g c : Nat),
    0 < v.length → g < v.length → c < v.length →
    (∀ p, p < v.length → (v.set g 0).getD p 0 ≠ 0 →
      ∀ q, q < v.length →
        dist v.length (findOptimalPosition xxh v.length
          (get_key ((v.set g 0).getD p 0))) q ≤
        dist v.length (findOptimalPosition xxh v.length
          (get_key ((v.set g 0).getD p 0))) p →
        (v.set g 0).getD q 0 ≠ 0 ∨ q = g) →
    (∀ p, p < v.length → (v.set g 0).getD p 0 ≠ 0 →
      1 ≤ dist v.length g p → dist v.length g p ≤ dist v.length g c →
      ¬ (dist v.length (findOptimalPosition xxh v.length
            (get_key ((v.set g 0).getD p 0))) g ≤
          dist v.length (findOptimalPosition xxh v.length
            (get_key ((v.set g 0).getD p 0))) p)) →
    (∃ z, z < v.length ∧ (v.set g 0).getD z 0 = 0 ∧ z ≠ g ∧
      1 ≤ dist v.length c z ∧ dist v.length c z ≤ fuel) →
    (shiftLoop get_key xxh v g c fuel).length = v.length ∧
    List.Perm ((shiftLoop get_key xxh v g c fuel).filter (· ≠ 0))
      (((v.set g 0)).filter (· ≠ 0)) ∧
    (∀ p, p < v.length → (shiftLoop get_key xxh v g c fuel).getD p 0 ≠ 0 →
      ∀ q, q < v.length →
        dist v.length (findOptimalPosition xxh v.length
          (get_key ((shiftLoop get_key xxh v g c fuel).getD p 0))) q ≤
        dist v.length (findOptimalPosition xxh v.length
          (get_key ((shiftLoop get_key xxh v g c fuel).getD p 0))) p →
        (shiftLoop get_key xxh v g c fuel).getD q 0 ≠ 0) := by
  intro fuel
  induction fuel with
  | zero =>
    intro v g c hn hg hc H1 H2 H3
    obtain ⟨z, _, _, _, hz1, hzf⟩ := H3
    omega
  | succ fuel ih =>
    intro v g c hn hg hc H1 H2 H3
    have hw0g : (v.set g 0).getD g 0 = 0 := getD_set_self v g 0 hg
    have hcp : (c + 1) % v.length < v.length := mod_lt_of_pos v.length c hn
    by_cases hcz : (v.set g 0).getD ((c + 1) % v.length) 0 = 0
    · -- next slot is a gap: the loop stops and the invariant is restored
      have hstep : shiftLoop get_key xxh v g c (fuel + 1) = v.set g 0 := by
        simp only [shiftLoop, List.length_set]
        rw [if_pos hcz]
      rw [hstep]
      refine ⟨List.length_set v g 0, List.Perm.refl _, ?_⟩
      intro p hp hpnz q hq hle
      rcases H1 p hp hpnz q hq hle with hq0 | hqg
      · exact hq0
      · exfalso
        rw [hqg] at hle
        have hpg : p ≠ g := by
          intro h
          rw [h] at hpnz
          exact hpnz hw0g
        have hdgp1 : 1 ≤ dist v.length g p := by
          rcases Nat.eq_zero_or_pos (dist v.length g p) with h0 | h0
          · exact absurd ((dist_eq_zero_iff _ _ _ hg hp).mp h0).symm hpg
          · omega
        by_cases hscan : dist v.length g p ≤ dist v.length g c
        · exact H2 p hp hpnz hdgp1 hscan hle
        · by_cases hcpg : (c + 1) % v.length = g
          · have := dist_step_wrap v.length g c hn hg hc hcpg
            have := dist_lt v.length g p hg hp
            omega
          · have hstep2 := dist_step v.length g c hn hg hc hcpg
            have hopt : findOptimalPosition xxh v.length
                (get_key ((v.set g 0).getD p 0)) < v.length :=
              Nat.mod_lt _ hn
            have hthrough := dist_through v.length
              (findOptimalPosition xxh v.length
                (get_key ((v.set g 0).getD p 0)))
              g ((c + 1) % v.length) p hopt hg hcp hp hle (by omega)
            rcases H1 p hp hpnz ((c + 1) % v.length) hcp hthrough with h | h
            · exact h hcz
            · exact hcpg h
    · -- next slot holds an entry
      have hgcp : g ≠ (c + 1) % v.length := by
        intro h
        rw [← h] at hcz
        exact hcz hw0g
      have hcid : (v.set g 0).getD ((c + 1) % v.length) 0 ≠ 0 := hcz
      have hx : findOptimalPosition xxh v.length
          (get_key ((v.set g 0).getD ((c + 1) % v.length) 0)) < v.length :=
        Nat.mod_lt _ hn
      obtain ⟨z, hz, hz0, hzg, hz1, hzf⟩ := H3
      have hzcp : z ≠ (c + 1) % v.length := by
        intro h
        rw [← h] at hcz
        exact hcz hz0
      have hdcz2 : 2 ≤ dist v.length c z := by
        rcases Nat.lt_or_ge (dist v.length c z) 2 with h2 | h2
        · exfalso
          have hd1 : dist v.length c z = 1 := by omega
          have := add_dist_mod v.length c z hc hz
          rw [hd1] at this
          exact hzcp (this.symm)
        · exact h2
      have hstepz := dist_step_start v.length c z hn hc hz hz1
      by_cases hcond : 1 ≤ dist v.length g (findOptimalPosition xxh v.length
            (get_key ((v.set g 0).getD ((c + 1) % v.length) 0))) ∧
          dist v.length g (findOptimalPosition xxh v.length
            (get_key ((v.set g 0).getD ((c + 1) % v.length) 0))) ≤
          dist v.length g ((c + 1) % v.length)
      · -- skip: the entry is already on its probe path
        have hstep : shiftLoop get_key xxh v g c (fuel + 1) =
            shiftLoop get_key xxh (v.set g 0) g ((c + 1) % v.length) fuel := by
          simp only [shiftLoop, List.length_set]
          rw [if_neg hcz, if_pos ((shift_cond_iff v.length g
            ((c + 1) % v.length) _ hg hcp hx hgcp).mpr hcond)]
        have hww : (v.set g 0).set g 0 = v.set g 0 := List.set_set 0 0 v g
        have hdgcp := dist_step v.length g c hn hg hc (fun h => hgcp h.symm)
        obtain ⟨ihlen, ihperm, ihng⟩ := ih (v.set g 0) g ((c + 1) % v.length)
          (by rw [List.length_set]; exact hn)
          (by rw [List.length_set]; exact hg)
          (by rw [List.length_set]; exact hcp)
          (by
            simp only [List.length_set, hww]
            exact H1)
          (by
            simp only [List.length_set, hww]
            intro p hp hpnz h1 h2
            by_cases hscan : dist v.length g p ≤ dist v.length g c
            · exact H2 p hp hpnz h1 hscan
            · have hpcp : p = (c + 1) % v.length :=
                dist_inj v.length g p ((c + 1) % v.length) hg hp hcp
                  (by omega)
              rw [hpcp]
              intro hcontra
              exact path_avoids_gap v.length g
                (findOptimalPosition xxh v.length
                  (get_key ((v.set g 0).getD ((c + 1) % v.length) 0)))
                ((c + 1) % v.length) hg hx hcp
                hcond.1 hcond.2 hcontra)
          (by
            simp only [List.length_set, hww]
            exact ⟨z, hz, hz0, hzg, by omega, by omega⟩)
        rw [hstep]
        simp only [List.length_set] at ihlen
        simp only [List.length_set] at ihng
        rw [hww] at ihperm
        exact ⟨ihlen, ihperm, ihng⟩
      · -- move the entry back into the gap
        have hstep : shiftLoop get_key xxh v g c (fuel + 1) =
            shiftLoop get_key xxh
              ((v.set g 0).set g ((v.set g 0).getD ((c + 1) % v.length) 0))
              ((c + 1) % v.length) ((c + 1) % v.length) fuel := by
          simp only [shiftLoop, List.length_set]
          rw [if_neg hcz, if_neg ((fun hcc => hcond
            ((shift_cond_iff v.length g ((c + 1) % v.length) _ hg hcp hx
              hgcp).mp hcc)))]
        -- abbreviations
        have hA_len : ((v.set g 0).set g
            ((v.set g 0).getD ((c + 1) % v.length) 0)).length = v.length := by
          rw [List.length_set, List.length_set]
        have hAg : ((v.set g 0).set g
            ((v.set g 0).getD ((c + 1) % v.length) 0)).getD g 0 =
            (v.set g 0).getD ((c + 1) % v.length) 0 := by
          apply getD_set_self
          rw [List.length_set]
          exact hg
        have hAcp : ((v.set g 0).set g
            ((v.set g 0).getD ((c + 1) % v.length) 0)).getD
            ((c + 1) % v.length) 0 =
            (v.set g 0).getD ((c + 1) % v.length) 0 := by
          rw [getD_set_ne _ _ _ _ (fun h => hgcp h.symm)]
        have hAq : ∀ q, q ≠ g →
            ((v.set g 0).set g
            ((v.set g 0).getD ((c + 1) % v.length) 0)).getD q 0 =
            (v.set g 0).getD q 0 := by
          intro q hq
          rw [getD_set_ne _ _ _ _ hq]
        have hBg : (((v.set g 0).set g
            ((v.set g 0).getD ((c + 1) % v.length) 0)).set
            ((c + 1) % v.length) 0).getD g 0 =
            (v.set g 0).getD ((c + 1) % v.length) 0 := by
          rw [getD_set_ne _ _ _ _ hgcp]
          exact hAg
        have hBcp : (((v.set g 0).set g
            ((v.set g 0).getD ((c + 1) % v.length) 0)).set
            ((c + 1) % v.length) 0).getD ((c + 1) % v.length) 0 = 0 := by
          apply getD_set_self
          rw [hA_len]
          exact hcp
        have hBq : ∀ q, q ≠ g → q ≠ (c + 1) % v.length →
            (((v.set g 0).set g
              ((v.set g 0).getD ((c + 1) % v.length) 0)).set
              ((c + 1) % v.length) 0).getD q 0 =
            (v.set g 0).getD q 0 := by
          intro q hq1 hq2
          rw [getD_set_ne _ _ _ _ hq2]
          exact hAq q hq1
        obtain ⟨ihlen, ihperm, ihng⟩ := ih
          ((v.set g 0).set g ((v.set g 0).getD ((c + 1) % v.length) 0))
          ((c + 1) % v.length) ((c + 1) % v.length)
          (by rw [hA_len]; exact hn)
          (by rw [hA_len]; exact hcp)
          (by rw [hA_len]; exact hcp)
          (by
            simp only [hA_len]
            intro p hp hpnz q hq hle
            by_cases hpcp : p = (c + 1) % v.length
            · rw [hpcp] at hpnz
              exact absurd hBcp hpnz
            by_cases hpg : p = g
            · rw [hpg] at hle hpnz
              rw [hBg] at hle
              have hnc : dist v.length g (findOptimalPosition xxh v.length
                  (get_key ((v.set g 0).getD ((c + 1) % v.length) 0))) = 0 ∨
                  dist v.length g ((c + 1) % v.length) <
                  dist v.length g (findOptimalPosition xxh v.length
                    (get_key ((v.set g 0).getD ((c + 1) % v.length) 0))) := by
                omega
              rcases hnc with hx0 | hgt
              · have hxg : findOptimalPosition xxh v.length
                    (get_key ((v.set g 0).getD ((c + 1) % v.length) 0)) = g :=
                  ((dist_eq_zero_iff _ _ _ hg hx).mp hx0).symm
                rw [hxg, dist_self, Nat.le_zero] at hle
                have hqg : q = g :=
                  ((dist_eq_zero_iff _ _ _ hg hq).mp hle).symm
                rw [hqg, hBg]
                exact Or.inl hcid
              · have hxg : findOptimalPosition xxh v.length
                    (get_key ((v.set g 0).getD ((c + 1) % v.length) 0)) ≠
                    g := by
                  intro h
                  rw [h, dist_self] at hgt
                  omega
                have hxgle : dist v.length (findOptimalPosition xxh v.length
                    (get_key ((v.set g 0).getD ((c + 1) % v.length) 0))) g ≤
                    dist v.length (findOptimalPosition xxh v.length
                      (get_key ((v.set g 0).getD ((c + 1) % v.length) 0)))
                    ((c + 1) % v.length) := by
                  by_contra hlt2
                  push_neg at hlt2
                  have hdec := dist_decomp v.length
                    (findOptimalPosition xxh v.length
                      (get_key ((v.set g 0).getD ((c + 1) % v.length) 0)))
                    ((c + 1) % v.length) g hx hcp hg (by omega)
                  have hs1 := dist_symm v.length g ((c + 1) % v.length)
                    hg hcp hgcp
                  have hs2 := dist_symm v.length g
                    (findOptimalPosition xxh v.length
                      (get_key ((v.set g 0).getD ((c + 1) % v.length) 0)))
                    hg hx (Ne.symm hxg)
                  omega
                by_cases hqcp : q = (c + 1) % v.length
                · exact Or.inr hqcp
                by_cases hqg : q = g
                · rw [hqg, hBg]
                  exact Or.inl hcid
                · have hH1 := H1 ((c + 1) % v.length) hcp hcid q hq
                    (le_trans hle hxgle)
                  rcases hH1 with h | h
                  · rw [hBq q hqg hqcp]
                    exact Or.inl h
                  · exact absurd h hqg
            · have hBp := hBq p hpg hpcp
              rw [hBp] at hpnz hle
              by_cases hqcp : q = (c + 1) % v.length
              · exact Or.inr hqcp
              by_cases hqg : q = g
              · rw [hqg, hBg]
                exact Or.inl hcid
              · rcases H1 p hp hpnz q hq hle with h | h
                · rw [hBq q hqg hqcp]
                  exact Or.inl h
                · exact absurd h hqg)
          (by
            intro p hp hpnz h1 h2
            rw [dist_self] at h2
            omega)
          (by
            simp only [hA_len]
            refine ⟨z, hz, ?_, hzcp, by omega, by omega⟩
            rw [hBq z hzg hzcp]
            exact hz0)
        rw [hstep]
        have hperm1 : List.Perm
            (((v.set g 0).set g
              ((v.set g 0).getD ((c + 1) % v.length) 0)).filter (· ≠ 0))
            ((v.set g 0).getD ((c + 1) % v.length) 0 ::
              (v.set g 0).filter (· ≠ 0)) :=
          perm_filter_set_zero (v.set g 0) g
            ((v.set g 0).getD ((c + 1) % v.length) 0)
            (by rw [List.length_set]; exact hg) hw0g hcid
        have hperm2 := perm_filter_set_to_zero
          ((v.set g 0).set g ((v.set g 0).getD ((c + 1) % v.length) 0))
          ((c + 1) % v.length) (by rw [hA_len]; exact hcp)
          (by rw [hAcp]; exact hcid)
        rw [hAcp] at hperm2
        have hpermB : List.Perm
            ((((v.set g 0).set g
              ((v.set g 0).getD ((c + 1) % v.length) 0)).set
              ((c + 1) % v.length) 0).filter (· ≠ 0))
            ((v.set g 0).filter (· ≠ 0)) :=
          (hperm2.trans hperm1).cons_inv
        refine ⟨ihlen.trans hA_len, ihperm.trans hpermB, ?_⟩
        simp only [hA_len] at ihng
        exact ihng

/-- `Insert` on a contract-legal input: the result is a proper table and
the live set gains exactly `id`. -/
theorem insert_step (get_key : Nat → TopicKey) (xxh : TopicKey → Nat)
    (m : TopicToSubscriptionMap) (k : TopicKey) (id : Nat)
    (hwf : MapWf get_key xxh m) (hid : id ≠ 0) (hkey : get_key id = k)
    (hnotlive : id ∉ liveIds m.vector)
    (hkeyfresh : ∀ e ∈ liveIds m.vector, get_key e ≠ k) :
    TableWf get_key xxh (m.insert get_key xxh k id) ∧
    List.Perm (liveIds (m.insert get_key xxh k id).vector)
      (id :: liveIds m.vector) := by
  have hm' : m = TopicToSubscriptionMap.init ∨
      (16 ≤ m.vector.length ∧ m.sub_count_high = m.vector.length / 2 ∧
       m.sub_count ≤ m.sub_count_high ∧
       m.sub_count = countNonzero m.vector ∧
       (liveIds m.vector).Nodup ∧ ((liveIds m.vector).map get_key).Nodup ∧
       NoGap get_key xxh m.vector) := by
    rcases hwf with h | h
    · exact Or.inl h
    · exact Or.inr ⟨h.size16, h.high_eq, h.count_le, h.count_eq, h.nodup,
        h.keys_nodup, h.nogap⟩
  obtain ⟨hrwf, hrlt, hrcnt, hrperm⟩ := rehash_spec get_key xxh m hm'
  have hroom : countNonzero (m.rehash get_key xxh).vector <
      (m.rehash get_key xxh).vector.length := by
    have h1 := hrwf.count_eq
    have h2 := hrwf.high_eq
    have h3 := hrwf.size16
    omega
  have hnotliver : id ∉ liveIds (m.rehash get_key xxh).vector := by
    intro h
    exact hnotlive (hrperm.mem_iff.mp h)
  have hnotin : id ∉ (m.rehash get_key xxh).vector := by
    intro h
    exact hnotliver (List.mem_filter.mpr ⟨h, by simpa using hid⟩)
  obtain ⟨pos, hpos, hpz, heq, hperm, hnogap'⟩ :=
    insertInternal_step get_key xxh (m.rehash get_key xxh) k id hroom
      hrwf.nogap hid hnotin hkey
  have hins : m.insert get_key xxh k id =
      (m.rehash get_key xxh).insertInternal xxh k id := rfl
  rw [hins, heq]
  have hlivperm : List.Perm
      (liveIds ((m.rehash get_key xxh).vector.set pos id))
      (id :: liveIds m.vector) :=
    hperm.trans (hrperm.cons id)
  refine ⟨⟨?_, ?_, ?_, ?_, ?_, ?_, ?_, ?_⟩, hlivperm⟩
  · rw [List.length_set]
    exact hrwf.size16
  · rw [List.length_set]
    exact hrwf.high_eq
  · have := hrwf.low_le
    show (m.rehash get_key xxh).sub_count_low ≤
      (m.rehash get_key xxh).sub_count + 1
    omega
  · show (m.rehash get_key xxh).sub_count + 1 ≤
      (m.rehash get_key xxh).sub_count_high
    omega
  · show (m.rehash get_key xxh).sub_count + 1 =
      countNonzero ((m.rehash get_key xxh).vector.set pos id)
    have hlen := hperm.length_eq
    have := hrwf.count_eq
    unfold countNonzero liveIds at *
    simp only [List.length_cons] at hlen
    omega
  · refine (hperm.nodup_iff).mpr (List.nodup_cons.mpr ⟨hnotliver, hrwf.nodup⟩)
  · refine ((hperm.map get_key).nodup_iff).mpr ?_
    rw [List.map_cons]
    refine List.nodup_cons.mpr ⟨?_, hrwf.keys_nodup⟩
    intro hmem
    obtain ⟨e, he, hek⟩ := List.mem_map.mp hmem
    exact hkeyfresh e (hrperm.mem_iff.mp he) (by rw [hek, hkey])
  · exact hnogap'

/-- `Remove`: on a reachable state, removing `id` under its own key
yields a reachable state whose live set is the old one minus `id`
(unchanged if `id` was not live). -/
theorem remove_step (get_key : Nat → TopicKey) (xxh : TopicKey → Nat)
    (m : TopicToSubscriptionMap) (k : TopicKey) (id : Nat)
    (hwf : MapWf get_key xxh m) (hid : id ≠ 0) (hkey : get_key id = k) :
    MapWf get_key xxh (m.remove get_key xxh k id).1 ∧
    List.Perm (liveIds (m.remove get_key xxh k id).1.vector)
      ((liveIds m.vector).erase id) := by
  rcases hwf with hinit | htw
  · have hrm : m.remove get_key xxh k id = (m, false) := by
      rw [hinit]
      rfl
    rw [hrm]
    refine ⟨Or.inl hinit, ?_⟩
    rw [hinit]
    exact List.Perm.refl _
  · have hn : 0 < m.vector.length := by have := htw.size16; omega
    by_cases hlive : id ∈ liveIds m.vector
    · obtain ⟨p, hp, hpid⟩ :=
        getD_of_mem m.vector id (List.mem_filter.mp hlive).1
      have hpnz : m.vector.getD p 0 ≠ 0 := by rw [hpid]; exact hid
      have hoptp : optOf get_key xxh m.vector p =
          findOptimalPosition xxh m.vector.length k := by
        unfold optOf
        rw [hpid, hkey]
      have hstart : findOptimalPosition xxh m.vector.length k <
          m.vector.length := Nat.mod_lt _ hn
      have hscan : scanFindId m.vector id
          (findOptimalPosition xxh m.vector.length k) m.vector.length = p :=
        scanFindId_walk get_key xxh m.vector id htw.nogap htw.nodup p hp
          hpid hid m.vector.length
          (findOptimalPosition xxh m.vector.length k) hstart
          (by rw [hoptp, dist_self]; exact Nat.zero_le _)
          (dist_lt _ _ _ hstart hp)
      have hrm : m.remove get_key xxh k id =
          (TopicToSubscriptionMap.rehash get_key xxh
            { m with
              vector :=
                (shiftLoop get_key xxh m.vector p p m.vector.length)
              sub_count := m.sub_count - 1 }, true) := by
        simp only [TopicToSubscriptionMap.remove]
        rw [if_neg (by omega), hscan, if_neg (not_not_intro hpid)]
      have hng := htw.nogap
      unfold NoGap optOf at hng
      have hroomv : countNonzero m.vector < m.vector.length := by
        have h1 := htw.count_eq
        have h2 := htw.count_le
        have h3 := htw.high_eq
        have h4 := htw.size16
        omega
      obtain ⟨z, hz, hz0⟩ := exists_zero_of_count_lt m.vector hroomv
      have hzp : z ≠ p := by
        intro h
        rw [h, hpid] at hz0
        exact hid hz0
      obtain ⟨hwlen, hwperm, hwng⟩ := shiftLoop_spec get_key xxh
        m.vector.length m.vector p p hn hp hp
        (by
          intro p' hp' hpnz' q hq hle
          by_cases hq_p : q = p
          · exact Or.inr hq_p
          have hp'_p : p' ≠ p := by
            intro h
            rw [h, getD_set_self m.vector p 0 hp] at hpnz'
            exact hpnz' rfl
          rw [getD_set_ne _ _ _ _ hp'_p] at hpnz' hle
          refine Or.inl ?_
          rw [getD_set_ne _ _ _ _ hq_p]
          exact hng p' hp' hpnz' q hq hle)
        (by
          intro p' hp' hpnz' h1 h2
          rw [dist_self] at h2
          omega)
        ⟨z, hz, by rw [getD_set_ne _ _ _ _ hzp]; exact hz0, hzp,
          (by
            rcases Nat.eq_zero_or_pos (dist m.vector.length p z) with h0 | h0
            · exact absurd ((dist_eq_zero_iff _ _ _ hp hz).mp h0).symm hzp
            · omega),
          le_of_lt (dist_lt _ _ _ hp hz)⟩
      have hperm0 := perm_filter_set_to_zero m.vector p hp hpnz
      rw [hpid] at hperm0
      have hchain : List.Perm
          (id :: (shiftLoop get_key xxh m.vector p p
            m.vector.length).filter (· ≠ 0))
          (m.vector.filter (· ≠ 0)) :=
        (hwperm.cons id).trans hperm0
      have hcounteq : m.sub_count =
          countNonzero (shiftLoop get_key xxh m.vector p p
            m.vector.length) + 1 := by
        have hlen := hchain.length_eq
        have := htw.count_eq
        unfold countNonzero liveIds at *
        simp only [List.length_cons] at hlen
        omega
      have hndw : ((shiftLoop get_key xxh m.vector p p
          m.vector.length).filter (· ≠ 0)).Nodup :=
        (List.nodup_cons.mp ((hchain.nodup_iff).mpr htw.nodup)).2
      have hkndw : (((shiftLoop get_key xxh m.vector p p
          m.vector.length).filter (· ≠ 0)).map get_key).Nodup := by
        have := ((hchain.map get_key).nodup_iff).mpr htw.keys_nodup
        rw [List.map_cons] at this
        exact (List.nodup_cons.mp this).2
      have hngw : NoGap get_key xxh
          (shiftLoop get_key xxh m.vector p p m.vector.length) := by
        unfold NoGap optOf
        rw [hwlen]
        exact hwng
      obtain ⟨hrwf, hrlt, hrcnt, hrperm⟩ := rehash_spec get_key xxh
        { m with
          vector :=
            (shiftLoop get_key xxh m.vector p p m.vector.length)
          sub_count := m.sub_count - 1 }
        (Or.inr ⟨by rw [hwlen] at *; exact htw.size16,
          by
            show m.sub_count_high = _
            rw [hwlen]
            exact htw.high_eq,
          by
            show m.sub_count - 1 ≤ m.sub_count_high
            have := htw.count_le
            omega,
          by
            show m.sub_count - 1 =
              countNonzero (shiftLoop get_key xxh m.vector p p
                m.vector.length)
            omega,
          hndw, hkndw, hngw⟩)
      rw [hrm]
      refine ⟨Or.inr hrwf, ?_⟩
      refine hrperm.trans ?_
      have herase : List.Perm ((liveIds m.vector).erase id)
          (liveIds (shiftLoop get_key xxh m.vector p p
            m.vector.length)) := by
        have h1 : List.Perm ((liveIds m.vector).erase id)
            ((id :: liveIds (shiftLoop get_key xxh m.vector p p
              m.vector.length)).erase id) :=
          (hchain.symm).erase id
        rw [List.erase_cons_head] at h1
        exact h1
      exact herase.symm
    · have hnotin : id ∉ m.vector := by
        intro h
        exact hlive (List.mem_filter.mpr ⟨h, by simpa using hid⟩)
      have hcheck : m.vector.getD (scanFindId m.vector id
          (findOptimalPosition xxh m.vector.length k)
          m.vector.length) 0 ≠ id :=
        getD_ne_of_not_mem m.vector id hid hnotin _
      have hrm : m.remove get_key xxh k id = (m, false) := by
        simp only [TopicToSubscriptionMap.remove]
        rw [if_neg (by omega), if_pos hcheck]
      rw [hrm]
      refine ⟨Or.inr htw, ?_⟩
      rw [List.erase_of_not_mem hlive]

/-- One mutating call of the public `TopicToSubscriptionMap` interface. -/
inductive MapOp where
  | ins (k : TopicKey) (id : Nat)
  | rm (k : TopicKey) (id : Nat)
deriving DecidableEq

/-- Run a sequence of mutations against the map. -/
def runMap (get_key : Nat → TopicKey) (xxh : TopicKey → Nat)
    (m : TopicToSubscriptionMap) : List MapOp → TopicToSubscriptionMap
  | [] => m
  | MapOp.ins k id :: ops =>
      runMap get_key xxh (m.insert get_key xxh k id) ops
  | MapOp.rm k id :: ops =>
      runMap get_key xxh (m.remove get_key xxh k id).1 ops

/-- The usage contract of the map: inserted IDs are non-zero and not
currently live, an ID is inserted/removed under the key that
`get_state` reports for it (`get_key id = k`), and at most one live
subscription exists per key. -/
def LegalOps (get_key : Nat → TopicKey) (xxh : TopicKey → Nat)
    (m : TopicToSubscriptionMap) : List MapOp → Prop
  | [] => True
  | MapOp.ins k id :: ops =>
      (id ≠ 0 ∧ get_key id = k ∧ id ∉ liveIds m.vector ∧
        ∀ e ∈ liveIds m.vector, get_key e ≠ k) ∧
      LegalOps get_key xxh (m.insert get_key xxh k id) ops
  | MapOp.rm k id :: ops =>
      (id ≠ 0 ∧ get_key id = k) ∧
      LegalOps get_key xxh (m.remove get_key xxh k id).1 ops

instance instDecidableLegalOps (get_key : Nat → TopicKey)
    (xxh : TopicKey → Nat) :
    ∀ (m : TopicToSubscriptionMap) (ops : List MapOp),
    Decidable (LegalOps get_key xxh m ops)
  | _, [] => by
      unfold LegalOps
      exact inferInstanceAs (Decidable True)
  | m, MapOp.ins k id :: ops => by
      unfold LegalOps
      have := instDecidableLegalOps get_key xxh
        (m.insert get_key xxh k id) ops
      infer_instance
  | m, MapOp.rm k id :: ops => by
      unfold LegalOps
      have := instDecidableLegalOps get_key xxh
        ((m.remove get_key xxh k id).1) ops
      infer_instance

/-- Spec-side bookkeeping: the IDs inserted and not yet removed, given
the IDs `L` live at the start. -/
def liveAfterAux (L : List Nat) : List MapOp → List Nat
  | [] => L
  | MapOp.ins _ id :: ops => liveAfterAux (id :: L) ops
  | MapOp.rm _ id :: ops => liveAfterAux (L.erase id) ops

/-- The IDs inserted and not yet removed by a call sequence. -/
def liveAfter (ops : List MapOp) : List Nat := liveAfterAux [] ops

/-- Main induction: a legal call sequence keeps the map well formed and
its live set tracks the inserted-minus-removed IDs. -/
theorem runMap_invariant (get_key : Nat → TopicKey) (xxh : TopicKey → Nat) :
    ∀ (ops : List MapOp) (m : TopicToSubscriptionMap) (L : List Nat),
    MapWf get_key xxh m → List.Perm (liveIds m.vector) L →
    LegalOps get_key xxh m ops →
    MapWf get_key xxh (runMap get_key xxh m ops) ∧
    List.Perm (liveIds (runMap get_key xxh m ops).vector)
      (liveAfterAux L ops) := by
  intro ops
  induction ops with
  | nil =>
    intro m L hwf hperm _
    exact ⟨hwf, hperm⟩
  | cons op ops ih =>
    intro m L hwf hperm hleg
    cases op with
    | ins k id =>
      obtain ⟨⟨hid, hkey, hnl, hkf⟩, hleg'⟩ := hleg
      obtain ⟨htw, hlp⟩ := insert_step get_key xxh m k id hwf hid hkey hnl hkf
      exact ih (m.insert get_key xxh k id) (id :: L) (Or.inr htw)
        (hlp.trans (hperm.cons id)) hleg'
    | rm k id =>
      obtain ⟨⟨hid, hkey⟩, hleg'⟩ := hleg
      obtain ⟨hwf', hlp⟩ := remove_step get_key xxh m k id hwf hid hkey
      exact ih ((m.remove get_key xxh k id).1) (L.erase id) hwf'
        (hlp.trans (hperm.erase id)) hleg'

instance instDecidableNoGap (get_key : Nat → TopicKey)
    (xxh : TopicKey → Nat) (v : List Nat) : Decidable (NoGap get_key xxh v) := by
  unfold NoGap
  infer_instance

/-- Example client callbacks for concrete runs: subscription `id` is
registered under key `([id], [])`, hashed to its first byte. -/
def exampleGetKey : Nat → TopicKey := fun id => ([id], [])

def exampleHash : TopicKey → Nat := fun k => k.1.headD 0

/-- `n` contract-legal insertions of the distinct IDs `1..n`. -/
def exampleInsertOps (n : Nat) : List MapOp :=
  (List.range n).map (fun i => MapOp.ins ([i + 1], []) (i + 1))

/-- C3: after every contract-legal sequence of `Insert` and `Remove`
operations starting from the freshly constructed map, no stored entry is
separated from its optimal (hash-derived) position by a gap: every slot
on the cyclic probe path from an entry's optimal position to the slot it
occupies holds a non-zero subscription ID.  (`Remove`'s backward shift
and `Insert`'s first-gap placement preserve this, as proved in
`shiftLoop_spec` and `insertInternal_step`; no tombstones exist in the
representation.) -/
theorem topicMap_no_gap_invariant (get_key : Nat → TopicKey)
    (xxh : TopicKey → Nat) (ops : List MapOp)
    (hleg : LegalOps get_key xxh TopicToSubscriptionMap.init ops) :
    NoGap get_key xxh
      (runMap get_key xxh TopicToSubscriptionMap.init ops).vector := by
  obtain ⟨hwf, _⟩ := runMap_invariant get_key xxh ops
    TopicToSubscriptionMap.init [] (Or.inl rfl) (List.Perm.refl _) hleg
  rcases hwf with hinit | htw
  · rw [hinit]
    intro p hp
    simp [TopicToSubscriptionMap.init] at hp
  · exact htw.nogap

theorem topicMap_no_gap_invariant_witness :
    LegalOps exampleGetKey exampleHash TopicToSubscriptionMap.init
      (exampleInsertOps 3) ∧
    NoGap exampleGetKey exampleHash
      (runMap exampleGetKey exampleHash TopicToSubscriptionMap.init
        (exampleInsertOps 3)).vector :=
  ⟨by decide, topicMap_no_gap_invariant exampleGetKey exampleHash
    (exampleInsertOps 3) (by decide)⟩

/-- C2: over every contract-legal interleaving of `Insert`, `Remove` and
`Find` from the fresh map, the live IDs of the table are exactly the IDs
inserted and not yet removed (`liveAfter`), and `Find(ns, topic)`
returns the live ID registered under that key together with its state —
by the contract at most one live ID exists per key, namely the one last
inserted for it and not yet removed — and returns `(0, null)` when no
such ID exists (in particular after a matching `Remove`). -/
theorem topicMap_find_correct (get_key : Nat → TopicKey)
    (xxh : TopicKey → Nat) (ops : List MapOp)
    (hleg : LegalOps get_key xxh TopicToSubscriptionMap.init ops)
    (k : TopicKey) :
    List.Perm
      (liveIds (runMap get_key xxh TopicToSubscriptionMap.init ops).vector)
      (liveAfter ops) ∧
    (∀ x, x ∈ liveAfter ops → get_key x = k →
      (runMap get_key xxh TopicToSubscriptionMap.init ops).find get_key xxh
        k = (x, some k)) ∧
    ((∀ x, x ∈ liveAfter ops → get_key x ≠ k) →
      (runMap get_key xxh TopicToSubscriptionMap.init ops).find get_key xxh
        k = (0, none)) := by
  obtain ⟨hwf, hperm⟩ := runMap_invariant get_key xxh ops
    TopicToSubscriptionMap.init [] (Or.inl rfl) (List.Perm.refl _) hleg
  rcases hwf with hinit | htw
  · refine ⟨hperm, ?_, ?_⟩
    · intro x hx hkx
      have hmem := hperm.mem_iff.mpr hx
      rw [hinit] at hmem
      simp [TopicToSubscriptionMap.init, liveIds] at hmem
    · intro _
      rw [hinit]
      rfl
  · obtain ⟨hhit, hmiss⟩ := find_spec get_key xxh _ htw k
    refine ⟨hperm, ?_, ?_⟩
    · intro x hx hkx
      exact hhit x (hperm.mem_iff.mpr hx) hkx
    · intro hnone
      exact hmiss (fun e he => hnone e (hperm.mem_iff.mp he))

theorem topicMap_find_correct_witness :
    LegalOps exampleGetKey exampleHash TopicToSubscriptionMap.init
      (exampleInsertOps 2 ++ [MapOp.rm ([1], []) 1]) ∧
    (∀ x, x ∈ liveAfter (exampleInsertOps 2 ++ [MapOp.rm ([1], []) 1]) →
      exampleGetKey x = ([2], []) →
      (runMap exampleGetKey exampleHash TopicToSubscriptionMap.init
        (exampleInsertOps 2 ++ [MapOp.rm ([1], []) 1])).find exampleGetKey
        exampleHash ([2], []) = (x, some ([2], []))) :=
  ⟨by decide,
    (topicMap_find_correct exampleGetKey exampleHash
      (exampleInsertOps 2 ++ [MapOp.rm ([1], []) 1]) (by decide)
      ([2], [])).2.1⟩

/-- C6 (amended): after any contract-legal sequence of mutations the map
is either still the pristine constructor state (no successful mutation
has resized it yet) or its capacity is at least 16 and the count lies in
the closed interval `[low, high]`.  The claimed half-open bound
`count ∈ [low, high)` is wrong: an `Insert` rehashes before, not after,
adding the element, so `count = high` is reachable (see the
counterexample); the strict bound is restored by the rehash at the next
mutation. -/
theorem topicMap_load_bounds_amended (get_key : Nat → TopicKey)
    (xxh : TopicKey → Nat) (ops : List MapOp)
    (hleg : LegalOps get_key xxh TopicToSubscriptionMap.init ops) :
    runMap get_key xxh TopicToSubscriptionMap.init ops =
      TopicToSubscriptionMap.init ∨
    (16 ≤ (runMap get_key xxh TopicToSubscriptionMap.init ops).vector.length ∧
     (runMap get_key xxh TopicToSubscriptionMap.init ops).sub_count_low ≤
       (runMap get_key xxh TopicToSubscriptionMap.init ops).sub_count ∧
     (runMap get_key xxh TopicToSubscriptionMap.init ops).sub_count ≤
       (runMap get_key xxh TopicToSubscriptionMap.init ops).sub_count_high) := by
  obtain ⟨hwf, _⟩ := runMap_invariant get_key xxh ops
    TopicToSubscriptionMap.init [] (Or.inl rfl) (List.Perm.refl _) hleg
  rcases hwf with hinit | htw
  · exact Or.inl hinit
  · exact Or.inr ⟨htw.size16, htw.low_le, htw.count_le⟩

theorem topicMap_load_bounds_amended_witness :
    LegalOps exampleGetKey exampleHash TopicToSubscriptionMap.init
      (exampleInsertOps 3) ∧
    (runMap exampleGetKey exampleHash TopicToSubscriptionMap.init
        (exampleInsertOps 3) = TopicToSubscriptionMap.init ∨
     (16 ≤ (runMap exampleGetKey exampleHash TopicToSubscriptionMap.init
        (exampleInsertOps 3)).vector.length ∧
      (runMap exampleGetKey exampleHash TopicToSubscriptionMap.init
        (exampleInsertOps 3)).sub_count_low ≤
        (runMap exampleGetKey exampleHash TopicToSubscriptionMap.init
          (exampleInsertOps 3)).sub_count ∧
      (runMap exampleGetKey exampleHash TopicToSubscriptionMap.init
        (exampleInsertOps 3)).sub_count ≤
        (runMap exampleGetKey exampleHash TopicToSubscriptionMap.init
          (exampleInsertOps 3)).sub_count_high)) :=
  ⟨by decide, topicMap_load_bounds_amended exampleGetKey exampleHash
    (exampleInsertOps 3) (by decide)⟩

/-- C6 counterexample: eight contract-legal insertions into the fresh
map (IDs 1..8, distinct keys) end in a state with capacity 16 and
`sub_count = sub_count_high = 8`, so the claimed invariant
`count ∈ [low, high)` does not hold after every legal mutation
sequence. -/
theorem topicMap_load_bounds_counterexample :
    LegalOps exampleGetKey exampleHash TopicToSubscriptionMap.init
      (exampleInsertOps 8) ∧
    (runMap exampleGetKey exampleHash TopicToSubscriptionMap.init
      (exampleInsertOps 8)).vector.length = 16 ∧
    (runMap exampleGetKey exampleHash TopicToSubscriptionMap.init
      (exampleInsertOps 8)).sub_count = 8 ∧
    (runMap exampleGetKey exampleHash TopicToSubscriptionMap.init
      (exampleInsertOps 8)).sub_count_high = 8 := by decide

end RocketSpeed
